import Mathlib

/-!
SHTTPSManager (Bedrock, libstuff/SHTTPSManager.cpp)

A shallow embedding of the poll-driven HTTPS transaction manager and the
properties its specification states about it.

Modelling conventions.

* A C++ `string` is a `List Char`.
* `Transaction*` and `Socket*` are addresses (`Nat`); a nullable pointer is an
  `Option Nat`.  Transactions live in `State.heap`; `new` takes the address
  `State.brk` and advances it, so an address is never handed out twice.
* `uint64_t` arithmetic is arithmetic on `Nat` reduced modulo `2 ^ 64`.
* Fatal outcomes (a failed `SASSERT`, a null or dangling dereference) are the
  `Except.error` results of the operations.
* The collaborators that are not part of this file of the repository (the TCP
  base class, the wire parser, the URL parser, the clock, the `_onRecv`
  override of the subclass) are parameters of the operations.  Calls into the
  socket layer, hook invocations and destructions are appended to
  `State.trace`.
-/

namespace SHTTPSManager

/-! ## Strings and machine integers -/

/-- C++ `string`. -/
abbrev Str := List Char

/-- Size of the `uint64_t` range. -/
def U64 : Nat := 2 ^ 64

/-- Subtraction of `uint64_t` values (`now - active->created`). -/
def sub64 (a b : Nat) : Nat := (a % U64 + (U64 - b % U64)) % U64

/-- Addition of `uint64_t` values (`active->created + TIMEOUT`). -/
def add64 (a b : Nat) : Nat := (a + b) % U64

/-- Modelled from the spec: the constant `STIME_US_PER_S` of libstuff.h, the
number of microseconds in a second (timestamps are microseconds). -/
def STIME_US_PER_S : Nat := 1000000

/-- The local constant of `postPoll`: `const uint64_t TIMEOUT = STIME_US_PER_S * 300`. -/
def TIMEOUT : Nat := (STIME_US_PER_S * 300) % U64

/-- Modelled from the spec: `SContains(lhs, rhs)` of libstuff.h, true when
`rhs` occurs in `lhs` as a contiguous substring. -/
def SContains : Str → Str → Bool
  | [], rhs => rhs.isEmpty
  | c :: cs, rhs => rhs.isPrefixOf (c :: cs) || SContains cs rhs

/-- Modelled from the spec: `SStartsWith(haystack, needle)` of libstuff.h. -/
def SStartsWith (haystack needle : Str) : Bool := needle.isPrefixOf haystack

/-- Modelled from the spec: `SConsumeFront(buffer, size)` of libstuff.h, which
removes the first `size` bytes of the buffer. -/
def SConsumeFront (buffer : Str) (size : Int) : Str := buffer.drop size.toNat

/-! ## Data model -/

/-- The wire message `SData`: a method (status) line, header fields and a body. -/
structure SData where
  methodLine : Str
  nameValueMap : List (Str × Str)
  content : Str
deriving DecidableEq

/-- A default-constructed `SData`. -/
def SData.blank : SData := ⟨[], [], []⟩

/-- Modelled from the spec: `SData::empty()`, true when the message has no
method line, no header and no content. -/
def SData.empty (d : SData) : Bool :=
  d.methodLine.isEmpty && d.nameValueMap.isEmpty && d.content.isEmpty

/-- The part of `STCPManager::Socket` that the manager reads and writes. -/
structure Socket where
  recvBuffer : Str
  sendBuffer : Str
  state : Nat
deriving DecidableEq

/-- Modelled from the spec: the enumerator `Socket::CONNECTED` of the coarse
connection-state enum (`CONNECTING`, `CONNECTED`, then the shutting-down and
closed states, in increasing order). -/
def Socket.CONNECTED : Nat := 1

/-- The class `SHTTPSManager::Transaction` (the `owner` back-reference carries no data). -/
structure Transaction where
  s : Option Nat
  created : Nat
  finished : Nat
  response : Int
  fullRequest : SData
  fullResponse : SData
deriving DecidableEq

/-- The constructor `Transaction::Transaction(owner)`; `now` is what `STimeNow()` returned. -/
def Transaction.new (now : Nat) : Transaction :=
  { s := none, created := now, finished := 0, response := 0,
    fullRequest := SData.blank, fullResponse := SData.blank }

/-- Fatal outcomes. -/
inductive Fault where
  | assertFailed
  | nullDereference
  | invalidPointer
deriving DecidableEq

/-- Observable calls made by the manager. -/
inductive Event where
  | openSocket (host : Str) (x509 : Option Nat) (result : Option Nat)
  | closeSocket (socket : Nat)
  | onRecv (transaction : Nat)
  | destroy (transaction : Nat)
  | x509Close (x509 : Nat)
deriving DecidableEq

/-- The manager object together with the memory it points into. -/
structure State where
  _x509 : Nat
  _activeTransactionList : List Nat
  _completedTransactionList : List Nat
  heap : Nat → Option Transaction
  brk : Nat
  sockets : Nat → Socket
  trace : List Event

/-- Overwrite one cell of a store. -/
def setAt {α : Type} (f : Nat → α) (a : Nat) (v : α) : Nat → α :=
  fun b => if b = a then v else f b

/-- A socket with empty buffers, still connecting. -/
def Socket.fresh : Socket := ⟨[], [], 0⟩

/-- The manager right after construction with TLS identity `x509`. -/
def State.init (x509 : Nat) : State :=
  { _x509 := x509, _activeTransactionList := [], _completedTransactionList := [],
    heap := fun _ => none, brk := 0, sockets := fun _ => Socket.fresh, trace := [] }

/-- `std::list::remove(value)`: drops every element equal to `value`. -/
def listRemove (l : List Nat) (value : Nat) : List Nat := l.filter (fun x => x ≠ value)

/-! ## Socket layer adapter and close -/

/-- `SHTTPSManager::closeSocket`: forwards to the base class. -/
def closeSocket (st : State) (socket : Nat) : State :=
  { st with trace := st.trace ++ [Event.closeSocket socket] }

/-- `SHTTPSManager::openSocket`: forwards to the base class, whose answer is
given by `tcpOpenSocket`. -/
def openSocket (tcpOpenSocket : Str → Option Nat → Option Nat) (st : State)
    (host : Str) (x509 : Option Nat) : Option Nat × State :=
  (tcpOpenSocket host x509,
   { st with trace := st.trace ++ [Event.openSocket host x509 (tcpOpenSocket host x509)] })

/-- `delete transaction`: runs `Transaction::~Transaction`, whose `SASSERT(!s)`
is fatal, and frees the cell. -/
def deleteTransaction (st : State) (transaction : Nat) : Except Fault State :=
  match st.heap transaction with
  | none => .error .invalidPointer
  | some t =>
    if t.s.isSome then .error .assertFailed
    else .ok { st with heap := setAt st.heap transaction none,
                       trace := st.trace ++ [Event.destroy transaction] }

/-- `SHTTPSManager::closeTransaction`. -/
def closeTransaction (st : State) (transaction : Option Nat) : Except Fault State :=
  match transaction with
  | none => .ok st
  | some p =>
    let st1 := { st with
      _activeTransactionList := listRemove st._activeTransactionList p,
      _completedTransactionList := listRemove st._completedTransactionList p }
    match st1.heap p with
    | none => .error .invalidPointer
    | some t =>
      let st2 := match t.s with
        | some s => closeSocket st1 s
        | none => st1
      let st3 := { st2 with heap := setAt st2.heap p (some { t with s := none }) }
      deleteTransaction st3 p

/-! ## Dispatch -/

/-- `SHTTPSManager::_createErrorTransaction`; `tCreated` and `tFinished` are the
two values returned by `STimeNow()`. -/
def _createErrorTransaction (st : State) (tCreated tFinished : Nat) : Nat × State :=
  let transaction := st.brk
  let t := Transaction.new tCreated
  let t := { t with response := 503 }
  let t := { t with finished := tFinished }
  (transaction,
   { st with heap := setAt st.heap transaction (some t), brk := st.brk + 1,
             _completedTransactionList := transaction :: st._completedTransactionList })

/-- The collaborators of `_httpsSend`. -/
structure SendEnv where
  SParseURI : Str → Option (Str × Str)
  tcpOpenSocket : Str → Option Nat → Option Nat
  serialize : SData → Str
  tCreated : Nat
  tFinished : Nat

/-- Lines 158-160 of `_httpsSend`: the host the socket is opened to. -/
def hostWithPort (host : Str) : Str :=
  if !SContains host ":".toList then host ++ ":443".toList else host

/-- The second argument of the `openSocket` call of `_httpsSend`:
`SStartsWith(url, "https://") ? _x509 : 0`. -/
def tlsContext (st : State) (url : Str) : Option Nat :=
  if SStartsWith url "https://".toList then some st._x509 else none

/-- `SHTTPSManager::_httpsSend`. -/
def _httpsSend (env : SendEnv) (st : State) (url : Str) (request : SData) : Nat × State :=
  match env.SParseURI url with
  | none => _createErrorTransaction st env.tCreated env.tFinished
  | some (host, _path) =>
    let host := hostWithPort host
    let r := openSocket env.tcpOpenSocket st host (tlsContext st url)
    match r.1 with
    | none => _createErrorTransaction r.2 env.tCreated env.tFinished
    | some s =>
      let st1 := r.2
      let transaction := st1.brk
      let t := Transaction.new env.tCreated
      let t := { t with s := some s }
      let t := { t with fullRequest := request }
      let sock := st1.sockets s
      { fst := transaction,
        snd := { st1 with
          heap := setAt st1.heap transaction (some t), brk := st1.brk + 1,
          sockets := setAt st1.sockets s { sock with sendBuffer := env.serialize request },
          _activeTransactionList := transaction :: st1._activeTransactionList } }

/-! ## The poll cycle -/

/-- The collaborators of `postPoll`: the clock, the base class, the wire
parser (`SData::deserialize` returns the consumed size and the updated
message) and the `_onRecv` override. -/
structure PollEnv where
  now : Nat
  tcpPostPoll : (Nat → Socket) → (Nat → Socket)
  deserialize : SData → Str → Int × SData
  _onRecv : State → Nat → Except Fault (Bool × State)

/-- Index of the node `activeIt` when `k` nodes follow it.  A `std::list`
iterator stays on its node while nodes before it come and go, so the iterator
`nextIt` is represented by the number of nodes from it to `end()`. -/
def itIndex (st : State) (k : Nat) : Nat := st._activeTransactionList.length - (k + 1)

/-- Lines 116-123 of `postPoll`: when `active->response` is set, the node
`activeIt` is erased and `active` is appended to the completed list. -/
def switchLists (st : State) (k : Nat) (active : Nat) : Except Fault State :=
  match st.heap active with
  | none => .error .invalidPointer
  | some t =>
    if t.response ≠ 0 then
      .ok { st with
        _activeTransactionList := st._activeTransactionList.eraseIdx (itIndex st k),
        _completedTransactionList := st._completedTransactionList ++ [active] }
    else .ok st

/-- One iteration of the `while` loop of `postPoll` (lines 77-123), with `k`
nodes after `activeIt`; returns the state and the hint `nextActivity`. -/
def postPollBody (env : PollEnv) (k : Nat) (st : State) (nextActivity : Nat) :
    Except Fault (State × Nat) :=
  match st._activeTransactionList.get? (itIndex st k) with
  | none => .error .invalidPointer
  | some active =>
    match st.heap active with
    | none => .error .invalidPointer
    | some t =>
      let elapsed := sub64 env.now t.created
      match t.s with
      | none => .error .nullDereference
      | some s =>
        let sock := st.sockets s
        let size := (env.deserialize t.fullResponse sock.recvBuffer).1
        let t := { t with fullResponse := (env.deserialize t.fullResponse sock.recvBuffer).2 }
        if size ≠ 0 then
          let sock := { sock with recvBuffer := SConsumeFront sock.recvBuffer size }
          let t := { t with finished := env.now }
          let st := { st with heap := setAt st.heap active (some t),
                              sockets := setAt st.sockets s sock }
          if SContains t.fullResponse.methodLine " 200 ".toList
              || t.fullResponse.content.length ≠ 0 then
            match env._onRecv { st with trace := st.trace ++ [Event.onRecv active] } active with
            | .error e => .error e
            | .ok (true, st) => .ok (st, nextActivity)
            | .ok (false, st) =>
              match st.heap active with
              | none => .error .invalidPointer
              | some t =>
                if t.response = 0 then .error .assertFailed
                else (switchLists st k active).map (fun st => (st, nextActivity))
          else
            let t := { t with response := 500 }
            let st := { st with heap := setAt st.heap active (some t) }
            (switchLists st k active).map (fun st => (st, nextActivity))
        else if sock.state > Socket.CONNECTED || elapsed > TIMEOUT then
          let t := { t with response := if sock.sendBuffer.isEmpty then 501 else 500 }
          let st := { st with heap := setAt st.heap active (some t) }
          (switchLists st k active).map (fun st => (st, nextActivity))
        else
          let nextActivity := min nextActivity (add64 t.created TIMEOUT)
          let st := { st with heap := setAt st.heap active (some t) }
          (switchLists st k active).map (fun st => (st, nextActivity))

/-- The `while (nextIt != end())` loop of `postPoll`, with `k` nodes from
`nextIt` to `end()`. -/
def postPollLoop (env : PollEnv) : Nat → State → Nat → Except Fault (State × Nat)
  | 0, st, nextActivity => .ok (st, nextActivity)
  | k + 1, st, nextActivity =>
    match postPollBody env k st nextActivity with
    | .error e => .error e
    | .ok (st, nextActivity) => postPollLoop env k st nextActivity

/-- Line 71 of `postPoll`: the base class `STCPManager::postPoll(fdm)` moves
bytes and updates the state of the sockets. -/
def afterTcpPoll (env : PollEnv) (st : State) : State :=
  { st with sockets := env.tcpPostPoll st.sockets }

/-- `SHTTPSManager::postPoll(fdm, nextActivity)`. -/
def postPoll (env : PollEnv) (st : State) (nextActivity : Nat) : Except Fault (State × Nat) :=
  let st := afterTcpPoll env st
  postPollLoop env st._activeTransactionList.length st nextActivity

/-! ## Teardown -/

/-- The first `while` loop of `~SHTTPSManager`; `none` when the fuel runs out. -/
def closeAllActive : Nat → State → Option (Except Fault State)
  | 0, _ => none
  | fuel + 1, st =>
    match st._activeTransactionList with
    | [] => some (.ok st)
    | front :: _ =>
      match closeTransaction st (some front) with
      | .error e => some (.error e)
      | .ok st => closeAllActive fuel st

/-- The second `while` loop of `~SHTTPSManager`; `none` when the fuel runs out. -/
def closeAllCompleted : Nat → State → Option (Except Fault State)
  | 0, _ => none
  | fuel + 1, st =>
    match st._completedTransactionList with
    | [] => some (.ok st)
    | front :: _ =>
      match closeTransaction st (some front) with
      | .error e => some (.error e)
      | .ok st => closeAllCompleted fuel st

/-- `SHTTPSManager::~SHTTPSManager`; `none` when the fuel runs out. -/
def teardown (fuel : Nat) (st : State) : Option (Except Fault State) :=
  match closeAllActive fuel st with
  | none => none
  | some (.error e) => some (.error e)
  | some (.ok st) =>
    match closeAllCompleted fuel st with
    | none => none
    | some (.error e) => some (.error e)
    | some (.ok st) => some (.ok { st with trace := st.trace ++ [Event.x509Close st._x509] })

/-! ## Notions used to state the properties -/

/-- The hook effect "set `outcome` to `n`" on transaction `p`. -/
def setResponse (st : State) (p : Nat) (n : Int) : State :=
  match st.heap p with
  | none => st
  | some t => { st with heap := setAt st.heap p (some { t with response := n }) }

/-- A hook that sets the outcome to `n` and returns "not closed". -/
def hookSetOutcome (n : Int) (st : State) (p : Nat) : Except Fault (Bool × State) :=
  .ok (false, setResponse st p n)

/-- A hook that closes the transaction itself and returns "closed". -/
def hookClose (st : State) (p : Nat) : Except Fault (Bool × State) :=
  match closeTransaction st (some p) with
  | .error e => .error e
  | .ok st => .ok (true, st)

/-- The contract of the response hook: each call either sets a non-zero
outcome on its transaction and returns "not closed", or closes the transaction
and returns "closed". -/
def HookContract (hook : State → Nat → Except Fault (Bool × State)) : Prop :=
  ∀ st p, (∃ n : Int, n ≠ 0 ∧ hook st p = hookSetOutcome n st p) ∨ hook st p = hookClose st p

/-- A concrete manager used to exercise the theorems: transaction `0` is active
on socket `7`, transaction `1` is an error transaction. -/
def demoState : State :=
  { _x509 := 9, _activeTransactionList := [0], _completedTransactionList := [1],
    heap := fun p =>
      if p = 0 then some { Transaction.new 5 with s := some 7 }
      else if p = 1 then some { Transaction.new 6 with response := 503, finished := 6 }
      else none,
    brk := 2,
    sockets := fun _ => ⟨[], "GET".toList, 1⟩,
    trace := [] }

/-- The socket-layer call and the destruction that `closeTransaction` performs on
transaction `p` whose socket reference is `s`. -/
def closeEvents (p : Nat) (s : Option Nat) : List Event :=
  match s with
  | some s => [Event.closeSocket s, Event.destroy p]
  | none => [Event.destroy p]

/-- The size `SData::deserialize` reports for transaction `t` on socket `s`. -/
def parsedSize (env : PollEnv) (st : State) (t : Transaction) (s : Nat) : Int :=
  (env.deserialize t.fullResponse (st.sockets s).recvBuffer).1

/-- The response message after `SData::deserialize` ran for transaction `t` on socket `s`. -/
def parsedResponse (env : PollEnv) (st : State) (t : Transaction) (s : Nat) : SData :=
  (env.deserialize t.fullResponse (st.sockets s).recvBuffer).2

/-- The test of line 89: the status line contains `" 200 "` or there is content. -/
def successOrContent (d : SData) : Bool :=
  SContains d.methodLine " 200 ".toList || d.content.length ≠ 0

/-- The test of line 101: the socket state is past `CONNECTED` or the elapsed
time exceeds `TIMEOUT`. -/
def lostOrTimedOut (env : PollEnv) (st : State) (t : Transaction) (s : Nat) : Bool :=
  (st.sockets s).state > Socket.CONNECTED || sub64 env.now t.created > TIMEOUT

/-- The state handed to `_onRecv` for transaction `q`: the response is parsed,
the consumed bytes are gone from the receive buffer and `finished` is set. -/
def hookInput (env : PollEnv) (st : State) (q : Nat) (t : Transaction) (s : Nat) : State :=
  { st with
    heap := setAt st.heap q
      (some { t with fullResponse := parsedResponse env st t s, finished := env.now }),
    sockets := setAt st.sockets s
      { st.sockets s with
        recvBuffer := SConsumeFront (st.sockets s).recvBuffer (parsedSize env st t s) },
    trace := st.trace ++ [Event.onRecv q] }

/-- Every transaction of `l` is live and holds a socket reference. -/
def ActiveLive (st : State) (l : List Nat) : Prop :=
  ∀ p ∈ l, ∃ t s, st.heap p = some t ∧ t.s = some s

/-- The transactions of `l` hold pairwise different sockets (the socket
reference is exclusive). -/
def ExclusiveSockets (st : State) (l : List Nat) : Prop :=
  ∀ p ∈ l, ∀ q ∈ l, ∀ tp tq, st.heap p = some tp → st.heap q = some tq →
    tp.s = tq.s → p = q

/-- State of the poll loop: `pre` are the nodes already visited and kept, `suf`
the nodes from `nextIt` to `end()`. -/
structure LoopInv (st : State) (pre suf : List Nat) : Prop where
  active_eq : st._activeTransactionList = pre ++ suf
  nodup : (pre ++ suf).Nodup
  live : ActiveLive st (pre ++ suf)

/-- What one iteration of the poll loop on transaction `q` (with fields `t` and
socket `s`) changes: it goes from `st`, `na` to `st2`, `na2`. -/
structure StepPost (env : PollEnv) (st : State) (na : Nat) (pre suf : List Nat) (q : Nat)
    (t : Transaction) (s : Nat) (st2 : State) (na2 : Nat) : Prop where
  heap_other : ∀ r, r ≠ q → st2.heap r = st.heap r
  sock_other : ∀ s', s' ≠ s → st2.sockets s' = st.sockets s'
  brk_eq : st2.brk = st.brk
  x509_eq : st2._x509 = st._x509
  next : na2 = if parsedSize env st t s = 0 ∧ lostOrTimedOut env st t s = false
    then min na (add64 t.created TIMEOUT) else na
  lists :
    (st2._activeTransactionList = pre ++ q :: suf ∧
      st2._completedTransactionList = st._completedTransactionList ∧
      ∃ t2, st2.heap q = some t2 ∧ t2.response = 0) ∨
    (st2._activeTransactionList = pre ++ suf ∧
      st2._completedTransactionList = st._completedTransactionList ++ [q] ∧
      ∃ t2, st2.heap q = some t2 ∧ t2.response ≠ 0) ∨
    (st2._activeTransactionList = pre ++ suf ∧
      st2._completedTransactionList = listRemove st._completedTransactionList q ∧
      st2.heap q = none)
  fields : ∀ t2, st2.heap q = some t2 →
    t2.s = some s ∧ t2.created = t.created ∧ t2.fullRequest = t.fullRequest
  trace : ∃ evs, st2.trace = st.trace ++ evs ∧
    ∀ e ∈ evs, e = Event.onRecv q ∨ e = Event.closeSocket s ∨ e = Event.destroy q

/-- The transaction `p` looks the same in `a` and in `b`: same cell, same
membership of the active list, as many entries in the completed list, and the
hook was invoked on it in both or in neither. -/
structure SameView (p : Nat) (a b : State) : Prop where
  heap_eq : b.heap p = a.heap p
  active_iff : p ∈ b._activeTransactionList ↔ p ∈ a._activeTransactionList
  completed_eq : b._completedTransactionList.count p = a._completedTransactionList.count p
  hook_iff : Event.onRecv p ∈ b.trace ↔ Event.onRecv p ∈ a.trace

/-- The poll loop started in `st0` visits transaction `p` (fields `t`, socket
`s`) in a state `sti` where `p` and its socket look as in `st0`; the iteration
yields `stj`, and `p` looks the same in `stj` and in the final state `st'`. -/
def FocusRun (env : PollEnv) (st0 : State) (p : Nat) (t : Transaction) (s : Nat)
    (st' : State) : Prop :=
  ∃ sti nai prei b stj naj,
    SameView p st0 sti ∧ sti.sockets s = st0.sockets s ∧
    sti._activeTransactionList = prei ++ p :: b ∧ p ∉ prei ∧ p ∉ b ∧
    postPollBody env b.length sti nai = .ok (stj, naj) ∧
    StepPost env sti nai prei b p t s stj naj ∧
    SameView p stj st'

/-- Loop invariant that follows one transaction `p` through the poll loop. -/
def FocusInv (env : PollEnv) (st0 : State) (p : Nat) (t : Transaction) (s : Nat)
    (pre suf : List Nat) (st : State) : Prop :=
  LoopInv st pre suf ∧ ExclusiveSockets st (pre ++ suf) ∧
  (p ∈ suf → SameView p st0 st ∧ st.sockets s = st0.sockets s) ∧
  (p ∉ suf → FocusRun env st0 p t s st)

/-- A registry on which a poll cycle can run: the active list has no duplicate
and holds live transactions with pairwise different, non-null sockets. -/
structure Pollable (st : State) : Prop where
  nodup : st._activeTransactionList.Nodup
  live : ActiveLive st st._activeTransactionList
  exclusive : ExclusiveSockets st st._activeTransactionList

/-- The outcome of transaction `p` after an operation, `none` when the
operation was fatal or `p` is gone. -/
def responseAfter (r : Except Fault (State × Nat)) (p : Nat) : Option Int :=
  match r with
  | .ok (st, _) => (st.heap p).map (fun t => t.response)
  | .error _ => none

/-- The `finished` timestamp of transaction `p` after an operation. -/
def finishedAfter (r : Except Fault (State × Nat)) (p : Nat) : Option Nat :=
  match r with
  | .ok (st, _) => (st.heap p).map (fun t => t.finished)
  | .error _ => none

/-- The two lists after an operation. -/
def listsAfter (r : Except Fault (State × Nat)) : Option (List Nat × List Nat) :=
  match r with
  | .ok (st, _) => some (st._activeTransactionList, st._completedTransactionList)
  | .error _ => none

/-- The hint `nextActivity` after an operation. -/
def hintAfter (r : Except Fault (State × Nat)) : Option Nat :=
  match r with
  | .ok (_, na) => some na
  | .error _ => none

/-- A poll environment at time 1000 in which no byte arrives, the parser finds
no complete message and the hook records status 200. -/
def demoEnv : PollEnv :=
  { now := 1000, tcpPostPoll := fun f => f, deserialize := fun d _ => (0, d),
    _onRecv := hookSetOutcome 200 }

/-- As `demoEnv`, but the base class reports every socket closed (state 3). -/
def demoClosedEnv : PollEnv :=
  { demoEnv with tcpPostPoll := fun f x => { f x with state := 3 } }

/-- Value of a run of decimal digits. -/
def digitsValue (ds : List Char) : Nat :=
  ds.foldl (fun n c => 10 * n + (c.toNat - 48)) 0

/-- The numeric status of a status line: the decimal number that follows the
first blank (`HTTP/1.1 204 No Content` has status 204); 400 when there is none,
so that a hook recording it never leaves the outcome at 0. -/
def statusCode (methodLine : Str) : Int :=
  let rest := (methodLine.dropWhile (fun c => c ≠ Char.ofNat 32)).dropWhile
    (fun c => c = Char.ofNat 32)
  let n := digitsValue (rest.takeWhile Char.isDigit)
  if n = 0 then 400 else n

/-- The hook of the specification's scenario: it records the numeric status of
the parsed response as the outcome and returns "not closed". -/
def hookRecordStatus (st : State) (p : Nat) : Except Fault (Bool × State) :=
  match st.heap p with
  | none => .ok (false, st)
  | some t => .ok (false, setResponse st p (statusCode t.fullResponse.methodLine))

/-- Successive poll cycles, each with its own environment and hint. -/
def pollCycles : List (PollEnv × Nat) → State → Except Fault State
  | [], st => .ok st
  | (env, na) :: rest, st =>
    match postPoll env st na with
    | .error e => .error e
    | .ok (st, _) => pollCycles rest st

/-- The bytes of a complete response `204 No Content`: status line, blank line. -/
def noContentBytes : Str :=
  "HTTP/1.1 204 No Content".toList ++ [Char.ofNat 13, Char.ofNat 10, Char.ofNat 13, Char.ofNat 10]

/-- The bytes of a complete response `200 OK` without content. -/
def okBytes : Str :=
  "HTTP/1.1 200 OK".toList ++ [Char.ofNat 13, Char.ofNat 10, Char.ofNat 13, Char.ofNat 10]

/-- A parser for messages made of a status line and a blank line: the status
line is what precedes the first carriage return, and the whole buffer is
consumed; an empty buffer holds no message. -/
def demoDeserialize (d : SData) (buffer : Str) : Int × SData :=
  if buffer.isEmpty then (0, d)
  else (buffer.length, ⟨buffer.takeWhile (fun c => c ≠ Char.ofNat 13), [], []⟩)

/-- A poll environment in which the peer of every socket has answered
`204 No Content` and the hook records the status. -/
def demoNoContentEnv : PollEnv :=
  { now := 1000, tcpPostPoll := fun f x => { f x with recvBuffer := noContentBytes },
    deserialize := demoDeserialize, _onRecv := hookRecordStatus }

/-- A poll environment in which the peer of every socket has answered `200 OK`
and the hook records the status. -/
def demoOkEnv : PollEnv :=
  { now := 1000, tcpPostPoll := fun f x => { f x with recvBuffer := okBytes },
    deserialize := demoDeserialize, _onRecv := hookRecordStatus }

/-- The states a manager can reach from construction through `_httpsSend`,
`_createErrorTransaction`, `postPoll` with a contract-abiding hook, and
`closeTransaction`, as long as no operation is fatal. -/
inductive Reachable : State → Prop where
  | init (x509 : Nat) : Reachable (State.init x509)
  | send {st : State} (env : SendEnv) (url : Str) (request : SData) :
      Reachable st → Reachable (_httpsSend env st url request).2
  | error {st : State} (tCreated tFinished : Nat) :
      Reachable st → Reachable (_createErrorTransaction st tCreated tFinished).2
  | poll {st st' : State} (env : PollEnv) (na na' : Nat) :
      Reachable st → HookContract env._onRecv → postPoll env st na = .ok (st', na') →
      Reachable st'
  | close {st st' : State} (transaction : Option Nat) :
      Reachable st → closeTransaction st transaction = .ok st' → Reachable st'

/-- The registry invariant: the active list has no duplicate and holds live
transactions with a socket and outcome 0, the completed list holds live
transactions with a non-zero outcome, and live cells lie below `brk`. -/
structure RegistryInv (st : State) : Prop where
  nodup : st._activeTransactionList.Nodup
  active : ∀ p ∈ st._activeTransactionList,
    ∃ t s, st.heap p = some t ∧ t.s = some s ∧ t.response = 0
  completed : ∀ p ∈ st._completedTransactionList, ∃ t, st.heap p = some t ∧ t.response ≠ 0
  allocated : ∀ p t, st.heap p = some t → p < st.brk

/-- Loop invariant of the poll loop for the registry invariant. -/
def RegistryLoopInv (pre suf : List Nat) (st : State) : Prop :=
  LoopInv st pre suf ∧
  (∀ r ∈ pre ++ suf, ∃ t, st.heap r = some t ∧ t.response = 0) ∧
  (∀ r ∈ st._completedTransactionList, ∃ t, st.heap r = some t ∧ t.response ≠ 0) ∧
  (∀ r t, st.heap r = some t → r < st.brk)

/-- A send environment whose URL parser accepts everything and whose socket
layer opens socket 7. -/
def demoSendEnv : SendEnv :=
  { SParseURI := fun u => some (u, []), tcpOpenSocket := fun _ _ => some 7,
    serialize := fun d => d.methodLine, tCreated := 5, tFinished := 6 }

/-- The manager after one successful `_httpsSend`. -/
def demoSent : State :=
  (_httpsSend demoSendEnv (State.init 9) "https://example.test/".toList
    ⟨"GET / HTTP/1.1".toList, [], []⟩).2

/-- The order in which the teardown loops close the transactions of a list:
front to back, each transaction once (closing one removes all its entries). -/
def closeOrder : Nat → List Nat → List Nat
  | 0, _ => []
  | _ + 1, [] => []
  | n + 1, x :: xs => x :: closeOrder n (xs.filter (fun y => y ≠ x))

/-- The socket reference held by transaction `p`. -/
def socketOf (st : State) (p : Nat) : Option Nat :=
  match st.heap p with
  | none => none
  | some t => t.s

/-- The calls made when the transactions of `l` are closed in turn. -/
def closeTrace (st : State) : List Nat → List Event
  | [] => []
  | p :: l => closeEvents p (socketOf st p) ++ closeTrace st l

/-- Every transaction of `l` is live. -/
def AllLive (st : State) (l : List Nat) : Prop := ∀ p ∈ l, ∃ t, st.heap p = some t

/-- The state left by the first teardown loop. -/
def afterCloseAllActive (st : State) : State :=
  { st with
    _activeTransactionList := [],
    _completedTransactionList :=
      st._completedTransactionList.filter (fun q => q ∉ st._activeTransactionList),
    heap := fun q => if q ∈ st._activeTransactionList then none else st.heap q,
    trace := st.trace ++
      closeTrace st (closeOrder st._activeTransactionList.length st._activeTransactionList) }

/-- The state left by the second teardown loop when the active list is empty. -/
def afterCloseAllCompleted (st : State) : State :=
  { st with
    _completedTransactionList := [],
    heap := fun q => if q ∈ st._completedTransactionList then none else st.heap q,
    trace := st.trace ++
      closeTrace st
        (closeOrder st._completedTransactionList.length st._completedTransactionList) }

/-- `SHTTPSManager::prePoll`: forwards to the base class, which only fills the
descriptor map of the caller. -/
def prePoll (st : State) : State := st

/-- Successive `prePoll` / `postPoll` cycles, as in the wait loop of the test
fixture, each with its own environment and hint. -/
def waitCycles : List (PollEnv × Nat) → State → Except Fault State
  | [], st => .ok st
  | (env, na) :: rest, st =>
    match postPoll env (prePoll st) na with
    | .error e => .error e
    | .ok (st, _) => waitCycles rest st

/-- `SSLTest::verifyFullResponse` of the test fixture. -/
def verifyFullResponse (responseCode : Int) (response : SData) : Bool :=
  if responseCode ≤ 0 then false
  else if responseCode > 999 then false
  else !response.empty

/-- The manager after one `_createErrorTransaction`. -/
def demoFailed : State := (_createErrorTransaction (State.init 9) 1 2).2

/-- In the iteration with `k` nodes after `activeIt`, the hook is invoked on the
visited transaction, returns "not closed" and leaves its outcome at 0. -/
def HookLeftPending (env : PollEnv) (k : Nat) (st : State) : Prop :=
  ∃ active t s st3 t3,
    st._activeTransactionList.get? (itIndex st k) = some active ∧
    st.heap active = some t ∧ t.s = some s ∧
    parsedSize env st t s ≠ 0 ∧ successOrContent (parsedResponse env st t s) = true ∧
    env._onRecv (hookInput env st active t s) active = .ok (false, st3) ∧
    st3.heap active = some t3 ∧ t3.response = 0

/-- For some transaction processed by the loop (started with `k` nodes to
visit), the hook is invoked, returns "not closed" and leaves the outcome at 0:
either in the first iteration, or in the rest of the loop after the first
iteration returned. -/
def AssertionFires (env : PollEnv) : Nat → State → Nat → Prop
  | 0, _, _ => False
  | k + 1, st, na =>
    HookLeftPending env k st ∨
    ∃ st2 na2, postPollBody env k st na = .ok (st2, na2) ∧ AssertionFires env k st2 na2

/-- A hook that returns "not closed" without setting the outcome. -/
def hookIdle (st : State) (_p : Nat) : Except Fault (Bool × State) := .ok (false, st)

/-- As `demoOkEnv`, with the hook that breaks the contract. -/
def demoIdleEnv : PollEnv := { demoOkEnv with _onRecv := hookIdle }

/-- A hook that never returns "closed": each call sets a non-zero outcome on
its transaction and returns "not closed". -/
def HookSetsOutcome (hook : State → Nat → Except Fault (Bool × State)) : Prop :=
  ∀ st p, ∃ n : Int, n ≠ 0 ∧ hook st p = hookSetOutcome n st p

/-- The outcome of transaction `p` is still 0. -/
def outcomeZero (st : State) (p : Nat) : Bool :=
  match st.heap p with
  | none => false
  | some t => decide (t.response = 0)

/-- The outcome of transaction `p` is set. -/
def outcomeSet (st : State) (p : Nat) : Bool :=
  match st.heap p with
  | none => false
  | some t => decide (t.response ≠ 0)

/-- Loop invariant for the shape of the lists: with `visited` the nodes already
processed, the kept nodes are the visited ones whose outcome is 0 and the
completed list has grown by the visited ones whose outcome is set. -/
def ListInv (st0 : State) (pre suf : List Nat) (st : State) : Prop :=
  LoopInv st pre suf ∧
  ∃ visited, st0._activeTransactionList = visited ++ suf ∧
    pre = visited.filter (outcomeZero st) ∧
    st._completedTransactionList =
      st0._completedTransactionList ++ visited.filter (outcomeSet st) ∧
    ∀ r ∈ visited, ∃ t, st.heap r = some t

/-! ## Lock scopes

The manager guards its lists and the socket layer with the recursive mutex
`_listMutex`, taken by `SAUTOLOCK` until the end of the enclosing scope.  The
operations are embedded a second time, keeping only their accesses to shared
data and the lock scopes, to record for each access whether the calling thread
holds the lock. -/

/-- The kinds of access to data shared between threads. -/
inductive Access where
  | listMutation
  | socketLayerCall
  | socketBufferRead
  | socketBufferWrite
deriving DecidableEq

/-- How many times the calling thread holds `_listMutex`, and the accesses made
so far, each with whether the lock was held. -/
structure LockLog where
  held : Nat
  log : List (Access × Bool)
deriving DecidableEq

/-- A caller that does not hold the lock. -/
def LockLog.start : LockLog := ⟨0, []⟩

/-- One access to shared data. -/
def record (a : Access) (l : LockLog) : LockLog :=
  { l with log := l.log ++ [(a, decide (0 < l.held))] }

/-- `SAUTOLOCK(_listMutex)` followed by the rest of the scope. -/
def autolock (scope : LockLog → LockLog) (l : LockLog) : LockLog :=
  { scope { l with held := l.held + 1 } with held := l.held }

/-- Lock scopes of `openSocket` (lines 49-53). -/
def openSocketLocks : LockLog → LockLog := autolock (record Access.socketLayerCall)

/-- Lock scopes of `closeSocket` (lines 55-59). -/
def closeSocketLocks : LockLog → LockLog := autolock (record Access.socketLayerCall)

/-- Lock scopes of `prePoll` (lines 61-65). -/
def prePollLocks : LockLog → LockLog := autolock (record Access.socketLayerCall)

/-- Lock scopes of `closeTransaction` (lines 33-47) on a transaction whose
socket reference is `s`. -/
def closeTransactionLocks (transaction : Option Nat) (s : Option Nat) : LockLog → LockLog :=
  match transaction with
  | none => fun l => l
  | some _ => autolock (fun l =>
      let l := record Access.listMutation l
      let l := record Access.listMutation l
      match s with
      | some _ => closeSocketLocks l
      | none => l)

/-- Lock scopes of `_createErrorTransaction` (lines 139-149): the list is
mutated after `SAUTOLOCK`. -/
def _createErrorTransactionLocks : LockLog → LockLog := autolock (record Access.listMutation)

/-- Lock scopes of `_httpsSend` (lines 151-178): the send buffer is written at
line 172, `SAUTOLOCK` comes at line 175, the list is mutated at line 176. -/
def _httpsSendLocks (env : SendEnv) (st : State) (url : Str) (l : LockLog) : LockLog :=
  match env.SParseURI url with
  | none => _createErrorTransactionLocks l
  | some (host, _path) =>
    let l := openSocketLocks l
    match (openSocket env.tcpOpenSocket st (hostWithPort host) (tlsContext st url)).1 with
    | none => _createErrorTransactionLocks l
    | some _ =>
      let l := record Access.socketBufferWrite l
      autolock (record Access.listMutation) l

/-- Lock scopes of one iteration of the loop of `postPoll`: the receive buffer
is read by the parser; when bytes are consumed (`consumed`) it is written and
the hook, if invoked, makes its own accesses (`hook`); otherwise the socket
state and the send buffer are read; the lists are mutated when the transaction
switches lists (`switched`). -/
def postPollBodyLocks (consumed switched : Bool) (hook : LockLog → LockLog)
    (l : LockLog) : LockLog :=
  let l := record Access.socketBufferRead l
  let l := if consumed then hook (record Access.socketBufferWrite l)
    else record Access.socketBufferRead l
  if switched then record Access.listMutation (record Access.listMutation l) else l

/-- Lock scopes of `postPoll` (lines 67-125): everything happens after the
`SAUTOLOCK` of line 68. -/
def postPollLocks (iterations : List (Bool × Bool × (LockLog → LockLog))) :
    LockLog → LockLog :=
  autolock (fun l =>
    iterations.foldl (fun l it => postPollBodyLocks it.1 it.2.1 it.2.2 l)
      (record Access.socketLayerCall l))

/-- Every access of the log was made with the lock held. -/
def AllLocked (l : LockLog) : Prop := ∀ e ∈ l.log, e.2 = true

/-- As `demoOkEnv`, with the hook that closes the transaction itself. -/
def demoCloseEnv : PollEnv := { demoOkEnv with _onRecv := hookClose }

/-! ## Basic facts -/

@[simp] theorem setAt_same {α : Type} (f : Nat → α) (a : Nat) (v : α) : setAt f a v a = v := by
  simp [setAt]

theorem setAt_ne {α : Type} (f : Nat → α) {a b : Nat} (v : α) (h : b ≠ a) :
    setAt f a v b = f b := by
  simp [setAt, h]


theorem idx_eq (pre suf : List Nat) (q : Nat) :
    (pre ++ q :: suf).length - (suf.length + 1) = pre.length := by
  simp only [List.length_append, List.length_cons]; omega

theorem get_at_iterator (pre suf : List Nat) (q : Nat) :
    (pre ++ q :: suf).get? ((pre ++ q :: suf).length - (suf.length + 1)) = some q := by
  rw [idx_eq]
  induction pre with
  | nil => rfl
  | cons a pre ih => simpa using ih

theorem erase_at_iterator (pre suf : List Nat) (q : Nat) :
    (pre ++ q :: suf).eraseIdx ((pre ++ q :: suf).length - (suf.length + 1)) = pre ++ suf := by
  rw [idx_eq]
  induction pre with
  | nil => simp
  | cons a pre ih => simp [ih]

theorem listRemove_nil (p : Nat) : listRemove [] p = [] := rfl

theorem listRemove_cons_self (l : List Nat) (p : Nat) : listRemove (p :: l) p = listRemove l p := by
  simp [listRemove]

theorem listRemove_cons_ne (l : List Nat) {p q : Nat} (h : q ≠ p) :
    listRemove (q :: l) p = q :: listRemove l p := by
  simp [listRemove, h]

theorem listRemove_append (l₁ l₂ : List Nat) (p : Nat) :
    listRemove (l₁ ++ l₂) p = listRemove l₁ p ++ listRemove l₂ p := by
  simp [listRemove]

theorem mem_listRemove {l : List Nat} {p q : Nat} : q ∈ listRemove l p ↔ q ∈ l ∧ q ≠ p := by
  simp [listRemove]

theorem listRemove_of_not_mem {l : List Nat} {p : Nat} (h : p ∉ l) : listRemove l p = l := by
  induction l with
  | nil => rfl
  | cons a l ih =>
    have ha : a ≠ p := fun e => h (e ▸ List.mem_cons_self _ _)
    rw [listRemove_cons_ne l ha, ih (fun hm => h (List.mem_cons_of_mem _ hm))]

theorem listRemove_split (pre suf : List Nat) (q : Nat) (h1 : q ∉ pre) (h2 : q ∉ suf) :
    listRemove (pre ++ q :: suf) q = pre ++ suf := by
  rw [listRemove_append, listRemove_cons_self, listRemove_of_not_mem h1, listRemove_of_not_mem h2]

theorem listRemove_length_le (l : List Nat) (p : Nat) : (listRemove l p).length ≤ l.length :=
  List.length_filter_le _ _


/-! ## Dispatch failures -/

theorem httpsSend_of_parse_none (env : SendEnv) (st : State) (url : Str) (request : SData)
    (h : env.SParseURI url = none) :
    _httpsSend env st url request = _createErrorTransaction st env.tCreated env.tFinished := by
  simp only [_httpsSend, h]

theorem httpsSend_of_open_none (env : SendEnv) (st : State) (url : Str) (request : SData)
    (host path : Str) (h : env.SParseURI url = some (host, path))
    (ho : (openSocket env.tcpOpenSocket st (hostWithPort host) (tlsContext st url)).1 = none) :
    _httpsSend env st url request =
      _createErrorTransaction
        (openSocket env.tcpOpenSocket st (hostWithPort host) (tlsContext st url)).2
        env.tCreated env.tFinished := by
  simp only [_httpsSend, h]
  rw [ho]

/-- What `_createErrorTransaction` returns and leaves behind. -/
theorem createErrorTransaction_spec (st : State) (a b : Nat) :
    (_createErrorTransaction st a b).1 = st.brk ∧
    (_createErrorTransaction st a b).2.heap st.brk =
      some { Transaction.new a with response := 503, finished := b } ∧
    (_createErrorTransaction st a b).2._completedTransactionList =
      st.brk :: st._completedTransactionList ∧
    (_createErrorTransaction st a b).2._activeTransactionList = st._activeTransactionList ∧
    (_createErrorTransaction st a b).2.sockets = st.sockets ∧
    (_createErrorTransaction st a b).2.brk = st.brk + 1 ∧
    (_createErrorTransaction st a b).2.trace = st.trace ∧
    ∀ q, q ≠ st.brk → (_createErrorTransaction st a b).2.heap q = st.heap q :=
  ⟨rfl, setAt_same _ _ _, rfl, rfl, rfl, rfl, rfl, fun _ hq => setAt_ne _ _ hq⟩

/-- C2: when `SParseURI` rejects the URL, or accepts it and `openSocket` returns
null, `_httpsSend` returns a fresh transaction with outcome 503 and a null
socket, at the front of the completed list and not in the active list; the
active list, the socket store and every other transaction are unchanged. -/
theorem httpsSend_dispatch_failure (env : SendEnv) (st : State) (url : Str) (request : SData)
    (hfail : env.SParseURI url = none ∨
      ∃ host path, env.SParseURI url = some (host, path) ∧
        (openSocket env.tcpOpenSocket st (hostWithPort host) (tlsContext st url)).1 = none)
    (halloc : ∀ p ∈ st._activeTransactionList, p < st.brk) :
    ∃ t, (_httpsSend env st url request).2.heap (_httpsSend env st url request).1 = some t ∧
      t.response = 503 ∧ t.s = none ∧
      (_httpsSend env st url request).1 ∈
        (_httpsSend env st url request).2._completedTransactionList ∧
      (_httpsSend env st url request).1 ∉
        (_httpsSend env st url request).2._activeTransactionList ∧
      (_httpsSend env st url request).2._activeTransactionList = st._activeTransactionList ∧
      (_httpsSend env st url request).2.sockets = st.sockets ∧
      ∀ q, q ≠ (_httpsSend env st url request).1 →
        (_httpsSend env st url request).2.heap q = st.heap q := by
  have hfresh : st.brk ∉ st._activeTransactionList := fun h => Nat.lt_irrefl _ (halloc _ h)
  rcases hfail with h | ⟨host, path, h, ho⟩
  · rw [httpsSend_of_parse_none env st url request h]
    obtain ⟨h1, h2, h3, h4, h5, -, -, h8⟩ := createErrorTransaction_spec st env.tCreated env.tFinished
    rw [h1, h2, h3, h4, h5]
    exact ⟨_, rfl, rfl, rfl, List.mem_cons_self _ _, hfresh, rfl, rfl, h8⟩
  · rw [httpsSend_of_open_none env st url request host path h ho]
    obtain ⟨h1, h2, h3, h4, h5, -, -, h8⟩ := createErrorTransaction_spec
      (openSocket env.tcpOpenSocket st (hostWithPort host) (tlsContext st url)).2
      env.tCreated env.tFinished
    rw [h1, h2, h3, h4, h5]
    exact ⟨_, rfl, rfl, rfl, List.mem_cons_self _ _, hfresh, rfl, rfl, h8⟩

theorem httpsSend_dispatch_failure_witness :
    ∃ t, (_httpsSend ⟨fun _ => none, fun _ _ => none, fun d => d.methodLine, 10, 11⟩ demoState
        "nonsense".toList SData.blank).2.heap 2 = some t ∧ t.response = 503 ∧ t.s = none := by
  obtain ⟨t, h1, h2, h3, _⟩ := httpsSend_dispatch_failure
    ⟨fun _ => none, fun _ _ => none, fun d => d.methodLine, 10, 11⟩ demoState
    "nonsense".toList SData.blank (Or.inl rfl) (by decide)
  exact ⟨t, h1, h2, h3⟩


/-! ## Closing a transaction -/

theorem setAt_setAt {α : Type} (f : Nat → α) (a : Nat) (v w : α) :
    setAt (setAt f a v) a w = setAt f a w := by
  funext b
  by_cases h : b = a <;> simp [setAt, h]

/-- The events of closing a transaction whose socket reference is `s`. -/
theorem closeTransaction_ok (st : State) (p : Nat) (t : Transaction) (h : st.heap p = some t) :
    closeTransaction st (some p) = .ok
      { st with
        _activeTransactionList := listRemove st._activeTransactionList p,
        _completedTransactionList := listRemove st._completedTransactionList p,
        heap := setAt st.heap p none,
        trace := st.trace ++ closeEvents p t.s } := by
  cases hs : t.s with
  | none =>
    simp [closeTransaction, h, hs, deleteTransaction, setAt_setAt, closeEvents]
  | some s =>
    simp [closeTransaction, h, hs, deleteTransaction, setAt_setAt, closeEvents, closeSocket]

/-- C7: closing a live transaction `p` succeeds, removes `p` from both lists
and keeps the other entries in order, calls `closeSocket` on its socket exactly
when the socket was non-null, then destroys it, and leaves every other
transaction and every socket untouched; when `p` is in neither list the lists
are unchanged; closing the null pointer changes nothing. -/
theorem closeTransaction_frame (st : State) (p : Nat) (t : Transaction)
    (h : st.heap p = some t) :
    (∃ st', closeTransaction st (some p) = .ok st' ∧
      p ∉ st'._activeTransactionList ∧ p ∉ st'._completedTransactionList ∧
      st'.trace = st.trace ++
        (match t.s with
          | some s => [Event.closeSocket s]
          | none => []) ++ [Event.destroy p] ∧
      st'._activeTransactionList = st._activeTransactionList.filter (fun q => q ≠ p) ∧
      st'._completedTransactionList = st._completedTransactionList.filter (fun q => q ≠ p) ∧
      (∀ q, q ≠ p → st'.heap q = st.heap q) ∧
      st'.heap p = none ∧
      st'.sockets = st.sockets ∧
      (p ∉ st._activeTransactionList → p ∉ st._completedTransactionList →
        st'._activeTransactionList = st._activeTransactionList ∧
        st'._completedTransactionList = st._completedTransactionList)) ∧
    closeTransaction st none = .ok st := by
  refine ⟨⟨_, closeTransaction_ok st p t h, ?_, ?_, ?_, rfl, rfl, ?_, ?_, rfl, ?_⟩, rfl⟩
  · simp [mem_listRemove]
  · simp [mem_listRemove]
  · cases t.s <;> simp [closeEvents]
  · intro q hq; exact setAt_ne _ _ hq
  · exact setAt_same _ _ _
  · intro h1 h2
    exact ⟨listRemove_of_not_mem h1, listRemove_of_not_mem h2⟩

theorem closeTransaction_frame_witness :
    ∃ st', closeTransaction demoState (some 0) = .ok st' ∧
      st'._activeTransactionList = [] ∧ st'._completedTransactionList = [1] ∧
      st'.trace = [Event.closeSocket 7, Event.destroy 0] := by
  obtain ⟨⟨st', h1, _, _, h4, h5, h6, _⟩, _⟩ :=
    closeTransaction_frame demoState 0 { Transaction.new 5 with s := some 7 } rfl
  exact ⟨st', h1, by rw [h5]; decide, by rw [h6]; decide, by rw [h4]; rfl⟩


/-! ## One iteration of the poll loop -/

theorem eraseIdx_length_append (pre suf : List Nat) (q : Nat) :
    (pre ++ q :: suf).eraseIdx pre.length = pre ++ suf := by
  induction pre with
  | nil => simp
  | cons a pre ih => simp [ih]

theorem switchLists_of_zero (st : State) (k q : Nat) (t : Transaction)
    (h : st.heap q = some t) (hz : t.response = 0) : switchLists st k q = .ok st := by
  simp [switchLists, h, hz]

theorem switchLists_of_ne_zero (st : State) (pre suf : List Nat) (q : Nat) (t : Transaction)
    (hact : st._activeTransactionList = pre ++ q :: suf)
    (h : st.heap q = some t) (hz : t.response ≠ 0) :
    switchLists st suf.length q = .ok { st with
        _activeTransactionList := pre ++ suf,
        _completedTransactionList := st._completedTransactionList ++ [q] } := by
  simp [switchLists, h, hz, itIndex, hact, eraseIdx_length_append]

/-- The iteration of the poll loop on a transaction that parses a complete
response failing the test of line 89. -/
theorem postPollBody_protocolError (env : PollEnv) (st : State) (na : Nat) (pre suf : List Nat)
    (q : Nat) (t : Transaction) (s : Nat)
    (hact : st._activeTransactionList = pre ++ q :: suf)
    (hq : st.heap q = some t) (hs : t.s = some s)
    (hsize : parsedSize env st t s ≠ 0)
    (hgate : successOrContent (parsedResponse env st t s) = false) :
    postPollBody env suf.length st na = .ok
      ({ st with
          heap := setAt st.heap q (some { t with
            fullResponse := parsedResponse env st t s, finished := env.now, response := 500 }),
          sockets := setAt st.sockets s { st.sockets s with
            recvBuffer := SConsumeFront (st.sockets s).recvBuffer (parsedSize env st t s) },
          _activeTransactionList := pre ++ suf,
          _completedTransactionList := st._completedTransactionList ++ [q] }, na) := by
  unfold parsedSize at hsize
  unfold successOrContent parsedResponse at hgate
  simp only [postPollBody, itIndex, hact, get_at_iterator, hq, hs]
  rw [if_pos hsize]
  simp only [hgate]
  simp [switchLists, itIndex, hact, eraseIdx_length_append, setAt_setAt, parsedSize,
    parsedResponse, Except.map]

theorem postPollBody_lost (env : PollEnv) (st : State) (na : Nat) (pre suf : List Nat)
    (q : Nat) (t : Transaction) (s : Nat)
    (hact : st._activeTransactionList = pre ++ q :: suf)
    (hq : st.heap q = some t) (hs : t.s = some s)
    (hsize : parsedSize env st t s = 0)
    (hlost : lostOrTimedOut env st t s = true) :
    postPollBody env suf.length st na = .ok
      ({ st with
          heap := setAt st.heap q (some { t with
            fullResponse := parsedResponse env st t s,
            response := if (st.sockets s).sendBuffer.isEmpty then 501 else 500 }),
          _activeTransactionList := pre ++ suf,
          _completedTransactionList := st._completedTransactionList ++ [q] }, na) := by
  unfold parsedSize at hsize
  unfold lostOrTimedOut at hlost
  simp only [postPollBody, itIndex, hact, get_at_iterator, hq, hs]
  rw [if_neg (not_not.mpr hsize), if_pos hlost]
  cases hb : (st.sockets s).sendBuffer.isEmpty <;>
  simp [switchLists, itIndex, hact, eraseIdx_length_append, setAt_setAt, parsedSize,
    parsedResponse, Except.map, hb]

theorem postPollBody_pending (env : PollEnv) (st : State) (na : Nat) (pre suf : List Nat)
    (q : Nat) (t : Transaction) (s : Nat)
    (hact : st._activeTransactionList = pre ++ q :: suf)
    (hq : st.heap q = some t) (hs : t.s = some s)
    (hsize : parsedSize env st t s = 0)
    (hlost : lostOrTimedOut env st t s = false) :
    postPollBody env suf.length st na = .ok
      ({ st with
          heap := setAt st.heap q (some { t with fullResponse := parsedResponse env st t s }),
          _activeTransactionList := if t.response = 0 then pre ++ q :: suf else pre ++ suf,
          _completedTransactionList :=
            if t.response = 0 then st._completedTransactionList
            else st._completedTransactionList ++ [q] },
        min na (add64 t.created TIMEOUT)) := by
  unfold parsedSize at hsize
  unfold lostOrTimedOut at hlost
  simp only [postPollBody, itIndex, hact, get_at_iterator, hq, hs]
  rw [if_neg (not_not.mpr hsize), if_neg (by simp [hlost])]
  by_cases hz : t.response = 0 <;>
  simp [switchLists, itIndex, hact, eraseIdx_length_append, setAt_setAt, parsedSize,
    parsedResponse, Except.map, hz]


theorem hookInput_heap (env : PollEnv) (st : State) (q : Nat) (t : Transaction) (s : Nat) :
    (hookInput env st q t s).heap q =
      some { t with fullResponse := parsedResponse env st t s, finished := env.now } := by
  simp [hookInput]

/-- The iteration of the poll loop on a transaction that parses a complete
response passing the test of line 89: the hook decides. -/
theorem postPollBody_hook (env : PollEnv) (st : State) (na : Nat) (pre suf : List Nat)
    (q : Nat) (t : Transaction) (s : Nat)
    (hact : st._activeTransactionList = pre ++ q :: suf)
    (hq : st.heap q = some t) (hs : t.s = some s)
    (hsize : parsedSize env st t s ≠ 0)
    (hgate : successOrContent (parsedResponse env st t s) = true) :
    postPollBody env suf.length st na =
      match env._onRecv (hookInput env st q t s) q with
      | .error e => .error e
      | .ok (true, st) => .ok (st, na)
      | .ok (false, st) =>
        match st.heap q with
        | none => .error .invalidPointer
        | some t =>
          if t.response = 0 then .error .assertFailed
          else (switchLists st suf.length q).map (fun st => (st, na)) := by
  unfold parsedSize at hsize
  unfold successOrContent parsedResponse at hgate
  simp only [postPollBody, itIndex, hact, get_at_iterator, hq]
  simp only [hs]
  rw [if_pos hsize]
  simp only [hgate, if_true]
  simp only [hookInput, parsedSize, parsedResponse, hact, hs]

theorem postPollBody_hook_set (env : PollEnv) (st : State) (na : Nat) (pre suf : List Nat)
    (q : Nat) (t : Transaction) (s : Nat) (n : Int)
    (hact : st._activeTransactionList = pre ++ q :: suf)
    (hq : st.heap q = some t) (hs : t.s = some s)
    (hsize : parsedSize env st t s ≠ 0)
    (hgate : successOrContent (parsedResponse env st t s) = true)
    (hhook : env._onRecv (hookInput env st q t s) q = hookSetOutcome n (hookInput env st q t s) q)
    (hn : n ≠ 0) :
    postPollBody env suf.length st na = .ok
      ({ hookInput env st q t s with
          heap := setAt st.heap q (some { t with
            fullResponse := parsedResponse env st t s, finished := env.now, response := n }),
          _activeTransactionList := pre ++ suf,
          _completedTransactionList := st._completedTransactionList ++ [q] }, na) := by
  rw [postPollBody_hook env st na pre suf q t s hact hq hs hsize hgate, hhook]
  simp [hookSetOutcome, setResponse, switchLists, itIndex, hact, eraseIdx_length_append,
    setAt_setAt, Except.map, hn, hookInput]

theorem postPollBody_hook_close (env : PollEnv) (st : State) (na : Nat) (pre suf : List Nat)
    (q : Nat) (t : Transaction) (s : Nat)
    (hact : st._activeTransactionList = pre ++ q :: suf)
    (hq : st.heap q = some t) (hs : t.s = some s)
    (hpre : q ∉ pre) (hsuf : q ∉ suf)
    (hsize : parsedSize env st t s ≠ 0)
    (hgate : successOrContent (parsedResponse env st t s) = true)
    (hhook : env._onRecv (hookInput env st q t s) q = hookClose (hookInput env st q t s) q) :
    postPollBody env suf.length st na = .ok
      ({ hookInput env st q t s with
          heap := setAt st.heap q none,
          _activeTransactionList := pre ++ suf,
          _completedTransactionList := listRemove st._completedTransactionList q,
          trace := st.trace ++ Event.onRecv q :: closeEvents q (some s) }, na) := by
  have hclose := closeTransaction_ok (hookInput env st q t s) q _ (hookInput_heap env st q t s)
  rw [postPollBody_hook env st na pre suf q t s hact hq hs hsize hgate, hhook, hookClose, hclose]
  simp [hs, hact, listRemove_split pre suf q hpre hsuf, setAt_setAt, hookInput]


/-- One iteration of the poll loop under the hook contract: it returns, and
changes only the visited transaction, its socket and its list membership. -/
theorem postPollBody_step (env : PollEnv) (st : State) (na : Nat) (pre suf : List Nat)
    (q : Nat) (t : Transaction) (s : Nat)
    (hact : st._activeTransactionList = pre ++ q :: suf)
    (hq : st.heap q = some t) (hs : t.s = some s)
    (hpre : q ∉ pre) (hsuf : q ∉ suf)
    (hhook : HookContract env._onRecv) :
    ∃ st2 na2, postPollBody env suf.length st na = .ok (st2, na2) ∧
      StepPost env st na pre suf q t s st2 na2 := by
  by_cases hsize : parsedSize env st t s = 0
  · cases hlost : lostOrTimedOut env st t s with
    | true =>
      refine ⟨_, _, postPollBody_lost env st na pre suf q t s hact hq hs hsize hlost, ?_⟩
      refine ⟨fun r hr => setAt_ne _ _ hr, fun _ _ => rfl, rfl, rfl, by simp [hlost], ?_, ?_,
        ⟨[], by simp, by simp⟩⟩
      · refine Or.inr (Or.inl ⟨rfl, rfl, _, setAt_same _ _ _, ?_⟩)
        cases (st.sockets s).sendBuffer.isEmpty <;> simp
      · intro t2 h2
        obtain rfl := Option.some.inj ((setAt_same _ _ _).symm.trans h2)
        exact ⟨hs, rfl, rfl⟩
    | false =>
      refine ⟨_, _, postPollBody_pending env st na pre suf q t s hact hq hs hsize hlost, ?_⟩
      refine ⟨fun r hr => setAt_ne _ _ hr, fun _ _ => rfl, rfl, rfl, by simp [hsize, hlost], ?_, ?_,
        ⟨[], by simp, by simp⟩⟩
      · by_cases hz : t.response = 0
        · exact Or.inl ⟨by simp [hz], by simp [hz], _, setAt_same _ _ _, hz⟩
        · exact Or.inr (Or.inl ⟨by simp [hz], by simp [hz], _, setAt_same _ _ _, hz⟩)
      · intro t2 h2
        obtain rfl := Option.some.inj ((setAt_same _ _ _).symm.trans h2)
        exact ⟨hs, rfl, rfl⟩
  · cases hgate : successOrContent (parsedResponse env st t s) with
    | false =>
      refine ⟨_, _, postPollBody_protocolError env st na pre suf q t s hact hq hs hsize hgate, ?_⟩
      refine ⟨fun r hr => setAt_ne _ _ hr, fun s' hs' => setAt_ne _ _ hs', rfl, rfl,
        by simp [hsize], ?_, ?_, ⟨[], by simp, by simp⟩⟩
      · exact Or.inr (Or.inl ⟨rfl, rfl, _, setAt_same _ _ _, by simp⟩)
      · intro t2 h2
        obtain rfl := Option.some.inj ((setAt_same _ _ _).symm.trans h2)
        exact ⟨hs, rfl, rfl⟩
    | true =>
      rcases hhook (hookInput env st q t s) q with ⟨n, hn, hh⟩ | hh
      · refine ⟨_, _, postPollBody_hook_set env st na pre suf q t s n hact hq hs hsize hgate hh hn, ?_⟩
        refine ⟨fun r hr => setAt_ne _ _ hr, fun s' hs' => setAt_ne _ _ hs', rfl, rfl,
          by simp [hsize], ?_, ?_, ⟨[Event.onRecv q], rfl, by simp⟩⟩
        · exact Or.inr (Or.inl ⟨rfl, rfl, _, setAt_same _ _ _, hn⟩)
        · intro t2 h2
          obtain rfl := Option.some.inj ((setAt_same _ _ _).symm.trans h2)
          exact ⟨hs, rfl, rfl⟩
      · refine ⟨_, _, postPollBody_hook_close env st na pre suf q t s hact hq hs hpre hsuf hsize
          hgate hh, ?_⟩
        refine ⟨fun r hr => setAt_ne _ _ hr, fun s' hs' => setAt_ne _ _ hs', rfl, rfl,
          by simp [hsize], ?_, ?_, ⟨Event.onRecv q :: closeEvents q (some s), rfl, ?_⟩⟩
        · exact Or.inr (Or.inr ⟨rfl, rfl, setAt_same _ _ _⟩)
        · intro t2 h2
          exact absurd ((setAt_same _ _ _).symm.trans h2) (by simp)
        · intro e he
          simp [closeEvents] at he
          rcases he with h | h | h
          · exact Or.inl h
          · exact Or.inr (Or.inl h)
          · exact Or.inr (Or.inr h)


/-! ## The poll loop -/

/-- Invariant rule for the poll loop: a property of the loop state that every
iteration re-establishes holds when the loop ends, and the loop does end. -/
theorem postPollLoop_rule (env : PollEnv) (I : List Nat → List Nat → State → Nat → Prop)
    (hstep : ∀ pre q suf st na, I pre (q :: suf) st na →
      ∃ st2 na2, postPollBody env suf.length st na = .ok (st2, na2) ∧ ∃ pre2, I pre2 suf st2 na2) :
    ∀ suf pre st na, I pre suf st na →
      ∃ st' na' pre', postPollLoop env suf.length st na = .ok (st', na') ∧ I pre' [] st' na' := by
  intro suf
  induction suf with
  | nil => intro pre st na h; exact ⟨st, na, pre, rfl, h⟩
  | cons q suf ih =>
    intro pre st na h
    obtain ⟨st2, na2, hb, pre2, h2⟩ := hstep pre q suf st na h
    obtain ⟨st', na', pre', hl, h'⟩ := ih pre2 st2 na2 h2
    refine ⟨st', na', pre', ?_, h'⟩
    simp only [List.length_cons, postPollLoop, hb]
    exact hl

theorem SameView.refl (p : Nat) (a : State) : SameView p a a := ⟨rfl, Iff.rfl, rfl, Iff.rfl⟩

theorem SameView.trans {p : Nat} {a b c : State} (h1 : SameView p a b) (h2 : SameView p b c) :
    SameView p a c :=
  ⟨h2.heap_eq.trans h1.heap_eq, h2.active_iff.trans h1.active_iff,
   h2.completed_eq.trans h1.completed_eq, h2.hook_iff.trans h1.hook_iff⟩

theorem count_listRemove_ne (l : List Nat) {p q : Nat} (h : p ≠ q) :
    (listRemove l q).count p = l.count p := by
  induction l with
  | nil => rfl
  | cons a l ih =>
    by_cases ha : a = q
    · subst ha
      rw [listRemove_cons_self, ih, List.count_cons_of_ne h]
    · rw [listRemove_cons_ne l ha]
      simp only [List.count_cons, ih]

/-- An iteration on `q` does not change how another transaction `p` looks. -/
theorem StepPost.sameView {env : PollEnv} {st : State} {na : Nat} {pre suf : List Nat} {q : Nat}
    {t : Transaction} {s : Nat} {st2 : State} {na2 : Nat}
    (h : StepPost env st na pre suf q t s st2 na2)
    (hact : st._activeTransactionList = pre ++ q :: suf) {p : Nat} (hp : p ≠ q) :
    SameView p st st2 := by
  refine ⟨h.heap_other p hp, ?_, ?_, ?_⟩
  · rcases h.lists with ⟨h1, _, _⟩ | ⟨h1, _, _⟩ | ⟨h1, _, _⟩ <;> rw [h1, hact] <;> simp [hp]
  · rcases h.lists with ⟨_, h1, _⟩ | ⟨_, h1, _⟩ | ⟨_, h1, _⟩ <;> rw [h1]
    · simp [List.count_append, List.count_cons_of_ne hp]
    · exact count_listRemove_ne _ hp
  · obtain ⟨evs, he, hev⟩ := h.trace
    rw [he, List.mem_append]
    constructor
    · rintro (h1 | h1)
      · exact h1
      · rcases hev _ h1 with h2 | h2 | h2
        · exact absurd (Event.onRecv.inj h2) hp
        · exact absurd h2 (by simp)
        · exact absurd h2 (by simp)
    · exact Or.inl

/-- An iteration of the poll loop re-establishes the loop invariant. -/
theorem postPollBody_loopInv (env : PollEnv) (st : State) (na : Nat) (pre suf : List Nat) (q : Nat)
    (hinv : LoopInv st pre (q :: suf)) (hhook : HookContract env._onRecv) :
    ∃ t s, st.heap q = some t ∧ t.s = some s ∧ q ∉ pre ∧ q ∉ suf ∧
      ∃ st2 na2, postPollBody env suf.length st na = .ok (st2, na2) ∧
        StepPost env st na pre suf q t s st2 na2 ∧
        ((st2._activeTransactionList = pre ++ q :: suf ∧ LoopInv st2 (pre ++ [q]) suf) ∨
         (st2._activeTransactionList = pre ++ suf ∧ LoopInv st2 pre suf)) := by
  obtain ⟨t, s, hq, hs⟩ := hinv.live q (by simp)
  have hnd := hinv.nodup
  have hpre : q ∉ pre := fun hm => by
    have := (List.nodup_append.mp hnd).2.2
    exact this hm (List.mem_cons_self _ _) 
  have hsuf : q ∉ suf := by
    have := (List.nodup_append.mp hnd).2.1
    exact (List.nodup_cons.mp this).1
  obtain ⟨st2, na2, hb, hpost⟩ :=
    postPollBody_step env st na pre suf q t s hinv.active_eq hq hs hpre hsuf hhook
  refine ⟨t, s, hq, hs, hpre, hsuf, st2, na2, hb, hpost, ?_⟩
  have hnd2 : (pre ++ suf).Nodup := by
    refine hnd.sublist ?_
    exact List.Sublist.append_left (List.sublist_cons_self _ _) _
  have hlive2 : ActiveLive st2 (pre ++ suf) := by
    intro r hr
    have hrq : r ≠ q := by
      rintro rfl
      rcases List.mem_append.mp hr with h | h
      · exact hpre h
      · exact hsuf h
    rw [hpost.heap_other r hrq]
    exact hinv.live r (by
      rcases List.mem_append.mp hr with h | h
      · exact List.mem_append_left _ h
      · exact List.mem_append_right _ (List.mem_cons_of_mem _ h))
  rcases hpost.lists with ⟨h1, _, t2, ht2, _⟩ | ⟨h1, _, _⟩ | ⟨h1, _, _⟩
  · refine Or.inl ⟨h1, ⟨by simp [h1], by simpa using hnd, ?_⟩⟩
    intro r hr
    by_cases hrq : r = q
    · subst hrq
      exact ⟨t2, s, ht2, (hpost.fields t2 ht2).1⟩
    · rw [hpost.heap_other r hrq]
      exact hinv.live r (by simpa using hr)
  · exact Or.inr ⟨h1, ⟨h1, hnd2, hlive2⟩⟩
  · exact Or.inr ⟨h1, ⟨h1, hnd2, hlive2⟩⟩


theorem ExclusiveSockets.mono {st : State} {l l' : List Nat} (h : ExclusiveSockets st l)
    (hsub : ∀ x ∈ l', x ∈ l) : ExclusiveSockets st l' :=
  fun p hp q hq tp tq h1 h2 h3 => h p (hsub p hp) q (hsub q hq) tp tq h1 h2 h3

/-- The socket references stay exclusive across an iteration. -/
theorem StepPost.exclusive {env : PollEnv} {st : State} {na : Nat} {pre suf : List Nat} {q : Nat}
    {t : Transaction} {s : Nat} {st2 : State} {na2 : Nat}
    (h : StepPost env st na pre suf q t s st2 na2)
    (hq : st.heap q = some t) (hs : t.s = some s) {l : List Nat}
    (hex : ExclusiveSockets st l) : ExclusiveSockets st2 l := by
  have key : ∀ a ta2, st2.heap a = some ta2 → ∃ ta, st.heap a = some ta ∧ ta.s = ta2.s := by
    intro a ta2 ha
    by_cases haq : a = q
    · subst haq
      exact ⟨t, hq, by rw [hs, (h.fields ta2 ha).1]⟩
    · exact ⟨ta2, by rw [← h.heap_other a haq]; exact ha, rfl⟩
  intro a ha b hb ta2 tb2 h1 h2 h3
  obtain ⟨ta, hta, hsa⟩ := key a ta2 h1
  obtain ⟨tb, htb, hsb⟩ := key b tb2 h2
  exact hex a ha b hb ta tb hta htb (by rw [hsa, hsb, h3])

/-- An iteration of the poll loop re-establishes the invariant that follows `p`. -/
theorem postPollBody_focusInv (env : PollEnv) (st0 : State) (p : Nat) (t : Transaction) (s : Nat)
    (h0 : st0.heap p = some t) (hs0 : t.s = some s) (hhook : HookContract env._onRecv)
    (pre : List Nat) (q : Nat) (suf : List Nat) (st : State) (na : Nat)
    (hinv : FocusInv env st0 p t s pre (q :: suf) st) :
    ∃ st2 na2, postPollBody env suf.length st na = .ok (st2, na2) ∧
      ∃ pre2, FocusInv env st0 p t s pre2 suf st2 := by
  obtain ⟨hloop, hex, hpre, hpost⟩ := hinv
  obtain ⟨tq, sq, hq, hsq, hqpre, hqsuf, st2, na2, hb, hstep, hlists⟩ :=
    postPollBody_loopInv env st na pre suf q hloop hhook
  refine ⟨st2, na2, hb, ?_⟩
  have hex2 : ExclusiveSockets st2 (pre ++ q :: suf) := hstep.exclusive hq hsq hex
  have hexa : ExclusiveSockets st2 ((pre ++ [q]) ++ suf) :=
    hex2.mono (fun x hx => by simpa using hx)
  have hexb : ExclusiveSockets st2 (pre ++ suf) :=
    hex2.mono (fun x hx => by
      rcases List.mem_append.mp hx with h | h
      · exact List.mem_append_left _ h
      · exact List.mem_append_right _ (List.mem_cons_of_mem _ h))
  have hrest : (p ∈ suf → SameView p st0 st2 ∧ st2.sockets s = st0.sockets s) ∧
      (p ∉ suf → FocusRun env st0 p t s st2) := by
    by_cases hpq : p = q
    · subst hpq
      obtain ⟨hv, hsock⟩ := hpre (List.mem_cons_self _ _)
      have htq : tq = t := Option.some.inj (by rw [← hq, hv.heap_eq, h0])
      subst htq
      have hsq' : sq = s := Option.some.inj (by rw [← hsq, hs0])
      subst hsq'
      exact ⟨fun hm => absurd hm hqsuf, fun _ =>
        ⟨st, na, pre, suf, st2, na2, hv, hsock, hloop.active_eq, hqpre, hqsuf, hb, hstep,
          SameView.refl _ _⟩⟩
    · have hview : SameView p st st2 := hstep.sameView hloop.active_eq hpq
      constructor
      · intro hm
        obtain ⟨hv, hsock⟩ := hpre (List.mem_cons_of_mem _ hm)
        refine ⟨hv.trans hview, ?_⟩
        have hne : s ≠ sq := by
          rintro rfl
          have hp' : st.heap p = some t := by rw [hv.heap_eq, h0]
          exact hpq (hex p (List.mem_append_right _ (List.mem_cons_of_mem _ hm)) q (by simp) t tq
            hp' hq (by rw [hs0, hsq]))
        rw [hstep.sock_other s hne, hsock]
      · intro hm
        have hm' : p ∉ q :: suf := by
          intro h
          rcases List.mem_cons.mp h with h | h
          · exact hpq h
          · exact hm h
        obtain ⟨sti, nai, prei, b, stj, naj, h1, h2, h3, h4, h5, h6, h7, h8⟩ := hpost hm'
        exact ⟨sti, nai, prei, b, stj, naj, h1, h2, h3, h4, h5, h6, h7, h8.trans hview⟩
  rcases hlists with ⟨_, hl⟩ | ⟨_, hl⟩
  · exact ⟨pre ++ [q], hl, hexa, hrest⟩
  · exact ⟨pre, hl, hexb, hrest⟩

/-- A poll cycle on a well-formed registry returns, and each active
transaction is visited once, in a state where it looks as on entry. -/
theorem postPoll_focus (env : PollEnv) (st : State) (na : Nat) (p : Nat) (t : Transaction)
    (s : Nat) (hwf : Pollable st) (hhook : HookContract env._onRecv)
    (hp : p ∈ st._activeTransactionList) (hq : st.heap p = some t) (hs : t.s = some s) :
    ∃ st' na', postPoll env st na = .ok (st', na') ∧ Pollable st' ∧
      FocusRun env (afterTcpPoll env st) p t s st' := by
  have hinit : FocusInv env (afterTcpPoll env st) p t s [] st._activeTransactionList
      (afterTcpPoll env st) :=
    ⟨⟨rfl, hwf.nodup, hwf.live⟩, hwf.exclusive, fun _ => ⟨SameView.refl _ _, rfl⟩,
      fun h => absurd hp h⟩
  obtain ⟨st', na', pre', hl, hfin⟩ :=
    postPollLoop_rule env
      (fun pre suf st1 _ => FocusInv env (afterTcpPoll env st) p t s pre suf st1)
      (fun pre q suf st1 na1 h =>
        postPollBody_focusInv env (afterTcpPoll env st) p t s hq hs hhook pre q suf st1 na1 h)
      st._activeTransactionList [] (afterTcpPoll env st) na hinit
  obtain ⟨hloop, hex, -, hrun⟩ := hfin
  have hact : st'._activeTransactionList = pre' := by simpa using hloop.active_eq
  refine ⟨st', na', hl, ⟨?_, ?_, ?_⟩, hrun (List.not_mem_nil _)⟩
  · rw [hact]; simpa using hloop.nodup
  · rw [hact]; simpa using hloop.live
  · rw [hact]; simpa using hex

/-- A poll cycle leaves a transaction that is not in the active list alone. -/
theorem postPoll_inactive (env : PollEnv) (st : State) (na : Nat) (p : Nat)
    (hwf : Pollable st) (hhook : HookContract env._onRecv)
    (hp : p ∉ st._activeTransactionList) :
    ∃ st' na', postPoll env st na = .ok (st', na') ∧ Pollable st' ∧
      SameView p st st' := by
  have hinit : LoopInv (afterTcpPoll env st) [] st._activeTransactionList ∧
      ExclusiveSockets (afterTcpPoll env st) ([] ++ st._activeTransactionList) ∧
      p ∉ [] ++ st._activeTransactionList ∧ SameView p st (afterTcpPoll env st) :=
    ⟨⟨rfl, hwf.nodup, hwf.live⟩, hwf.exclusive, hp, ⟨rfl, Iff.rfl, rfl, Iff.rfl⟩⟩
  obtain ⟨st', na', pre', hl, hloop, hex, hnot, hview⟩ :=
    postPollLoop_rule env
      (fun pre suf st1 _ => LoopInv st1 pre suf ∧ ExclusiveSockets st1 (pre ++ suf) ∧
        p ∉ pre ++ suf ∧ SameView p st st1)
      (fun pre q suf st1 na1 h => by
        obtain ⟨hloop, hex, hnot, hview⟩ := h
        obtain ⟨tq, sq, hq, hsq, -, -, st2, na2, hb, hstep, hlists⟩ :=
          postPollBody_loopInv env st1 na1 pre suf q hloop hhook
        have hpq : p ≠ q := by
          rintro rfl
          exact hnot (by simp)
        have hex2 : ExclusiveSockets st2 (pre ++ q :: suf) := hstep.exclusive hq hsq hex
        have hv2 : SameView p st st2 := hview.trans (hstep.sameView hloop.active_eq hpq)
        refine ⟨st2, na2, hb, ?_⟩
        rcases hlists with ⟨_, hl⟩ | ⟨_, hl⟩
        · exact ⟨pre ++ [q], hl, hex2.mono (fun x hx => by simpa using hx),
            by simpa using hnot, hv2⟩
        · refine ⟨pre, hl, hex2.mono (fun x hx => ?_), fun hm => hnot ?_, hv2⟩
          · rcases List.mem_append.mp hx with h | h
            · exact List.mem_append_left _ h
            · exact List.mem_append_right _ (List.mem_cons_of_mem _ h)
          · rcases List.mem_append.mp hm with h | h
            · exact List.mem_append_left _ h
            · exact List.mem_append_right _ (List.mem_cons_of_mem _ h))
      st._activeTransactionList [] (afterTcpPoll env st) na hinit
  have hact : st'._activeTransactionList = pre' := by simpa using hloop.active_eq
  refine ⟨st', na', hl, ⟨?_, ?_, ?_⟩, hview⟩
  · rw [hact]; simpa using hloop.nodup
  · rw [hact]; simpa using hloop.live
  · rw [hact]; simpa using hex

/-! ## What a poll cycle does to one transaction -/

theorem parsedSize_congr (env : PollEnv) {st st0 : State} (t : Transaction) {s : Nat}
    (h : st.sockets s = st0.sockets s) : parsedSize env st t s = parsedSize env st0 t s := by
  unfold parsedSize; rw [h]

theorem parsedResponse_congr (env : PollEnv) {st st0 : State} (t : Transaction) {s : Nat}
    (h : st.sockets s = st0.sockets s) :
    parsedResponse env st t s = parsedResponse env st0 t s := by
  unfold parsedResponse; rw [h]

theorem lostOrTimedOut_congr (env : PollEnv) {st st0 : State} (t : Transaction) {s : Nat}
    (h : st.sockets s = st0.sockets s) :
    lostOrTimedOut env st t s = lostOrTimedOut env st0 t s := by
  unfold lostOrTimedOut; rw [h]

theorem body_result_eq {a b : State} {m n : Nat}
    (h : (Except.ok (a, m) : Except Fault (State × Nat)) = Except.ok (b, n)) : a = b ∧ m = n := by
  injection h with h
  injection h with h1 h2
  exact ⟨h1, h2⟩

/-- Outcome of a cycle for a transaction that parses no complete response
while its socket is past `CONNECTED` or its time is up. -/
theorem FocusRun.lost {env : PollEnv} {st0 : State} {p : Nat} {t : Transaction} {s : Nat}
    {st' : State} (h : FocusRun env st0 p t s st')
    (hq : st0.heap p = some t) (hs : t.s = some s)
    (hsize : parsedSize env st0 t s = 0) (hlost : lostOrTimedOut env st0 t s = true) :
    st'.heap p = some { t with
        fullResponse := parsedResponse env st0 t s,
        response := if (st0.sockets s).sendBuffer.isEmpty then 501 else 500 } ∧
      p ∉ st'._activeTransactionList ∧
      st'._completedTransactionList.count p = st0._completedTransactionList.count p + 1 ∧
      (Event.onRecv p ∈ st'.trace ↔ Event.onRecv p ∈ st0.trace) := by
  obtain ⟨sti, nai, prei, b, stj, naj, hv1, hsock, hact, hpre, hsuf, hb, -, hv2⟩ := h
  have hqi : sti.heap p = some t := by rw [hv1.heap_eq, hq]
  rw [postPollBody_lost env sti nai prei b p t s hact hqi hs
    ((parsedSize_congr env t hsock).trans hsize)
    ((lostOrTimedOut_congr env t hsock).trans hlost)] at hb
  obtain ⟨rfl, -⟩ := body_result_eq hb
  refine ⟨?_, ?_, ?_, ?_⟩
  · rw [hv2.heap_eq]
    simp only [setAt_same, parsedResponse_congr env t hsock, hsock]
  · rw [hv2.active_iff]
    simp [hpre, hsuf]
  · rw [hv2.completed_eq]
    simp [List.count_append, hv1.completed_eq]
  · rw [hv2.hook_iff]
    exact hv1.hook_iff


/-! ## C1: connection lost or timed out -/

theorem TIMEOUT_eq : TIMEOUT = 300000000 := by decide

theorem demoState_pollable : Pollable demoState := by
  refine ⟨by decide, ?_, ?_⟩
  · intro p hp
    have h0 : p = 0 := by simpa [demoState] using hp
    subst h0
    exact ⟨_, 7, rfl, rfl⟩
  · intro p hp q hq _ _ _ _ _
    have h0 : p = 0 := by simpa [demoState] using hp
    have h1 : q = 0 := by simpa [demoState] using hq
    rw [h0, h1]

theorem hookSetOutcome_contract (n : Int) (hn : n ≠ 0) : HookContract (hookSetOutcome n) :=
  fun _ _ => Or.inl ⟨n, hn, rfl⟩

theorem hookClose_contract : HookContract hookClose := fun _ _ => Or.inr rfl

theorem mem_of_count_succ {l : List Nat} {p n : Nat} (h : l.count p = n + 1) : p ∈ l :=
  List.count_pos_iff.mp (by omega)

/-- C1 (as the code has it): for an active transaction of a pollable registry
for which `postPoll` parses no complete response and whose socket state is past
`CONNECTED` or whose elapsed time exceeds 300 s, the cycle returns and sets the
outcome to 501 when the socket's send buffer is empty (the request was fully
flushed) and to 500 when the send buffer is still non-empty; the transaction
ends up in the completed list. -/
theorem postPoll_lost_outcome (env : PollEnv) (st : State) (na : Nat) (p : Nat)
    (t : Transaction) (s : Nat) (hwf : Pollable st) (hhook : HookContract env._onRecv)
    (hp : p ∈ st._activeTransactionList) (hq : st.heap p = some t) (hs : t.s = some s)
    (hsize : parsedSize env (afterTcpPoll env st) t s = 0)
    (hlost : Socket.CONNECTED < ((afterTcpPoll env st).sockets s).state ∨
      300 * STIME_US_PER_S < sub64 env.now t.created) :
    ∃ st' na' t', postPoll env st na = .ok (st', na') ∧ st'.heap p = some t' ∧
      (((afterTcpPoll env st).sockets s).sendBuffer = [] → t'.response = 501) ∧
      (((afterTcpPoll env st).sockets s).sendBuffer ≠ [] → t'.response = 500) ∧
      p ∈ st'._completedTransactionList ∧ p ∉ st'._activeTransactionList := by
  obtain ⟨st', na', hpoll, -, hrun⟩ := postPoll_focus env st na p t s hwf hhook hp hq hs
  have hl : lostOrTimedOut env (afterTcpPoll env st) t s = true := by
    unfold lostOrTimedOut
    rw [TIMEOUT_eq]
    rcases hlost with h | h
    · simp [h]
    · have : 300000000 < sub64 env.now t.created := by simpa [STIME_US_PER_S] using h
      simp [this]
  obtain ⟨h1, h2, h3, -⟩ := hrun.lost hq hs hsize hl
  refine ⟨st', na', _, hpoll, h1, ?_, ?_, mem_of_count_succ h3, h2⟩
  · intro he; simp [he]
  · intro he
    cases hb : ((afterTcpPoll env st).sockets s).sendBuffer with
    | nil => exact absurd hb he
    | cons c cs => simp

theorem postPoll_lost_outcome_witness :
    ∃ st' na' t', postPoll demoClosedEnv demoState 0 = .ok (st', na') ∧
      st'.heap 0 = some t' ∧ t'.response = 500 := by
  obtain ⟨st', na', t', h1, h2, -, h4, -⟩ :=
    postPoll_lost_outcome demoClosedEnv demoState 0 0 { Transaction.new 5 with s := some 7 } 7
      demoState_pollable (hookSetOutcome_contract 200 (by decide)) (by decide) rfl rfl
      (by decide) (Or.inl (by decide))
  exact ⟨st', na', t', h1, h2, h4 (by decide)⟩

/-- C1 as stated fails: transaction `0` of `demoState` parses no complete
response, its socket is past `CONNECTED` and its send buffer is still
non-empty, and `postPoll` sets its outcome to 500, not 501. -/
theorem postPoll_unflushed_counterexample :
    0 ∈ demoState._activeTransactionList ∧
    parsedSize demoClosedEnv (afterTcpPoll demoClosedEnv demoState)
      { Transaction.new 5 with s := some 7 } 7 = 0 ∧
    Socket.CONNECTED < ((afterTcpPoll demoClosedEnv demoState).sockets 7).state ∧
    ((afterTcpPoll demoClosedEnv demoState).sockets 7).sendBuffer ≠ [] ∧
    responseAfter (postPoll demoClosedEnv demoState 0) 0 = some 500 ∧
    responseAfter (postPoll demoClosedEnv demoState 0) 0 ≠ some 501 := by
  decide


/-! ## C3: a successful response -/

/-- Outcome of a cycle for a transaction whose complete response passes the
test of line 89, when the hook sets the outcome to `n`. -/
theorem FocusRun.hook_set {env : PollEnv} {st0 : State} {p : Nat} {t : Transaction} {s : Nat}
    {st' : State} (h : FocusRun env st0 p t s st')
    (hq : st0.heap p = some t) (hs : t.s = some s)
    (hsize : parsedSize env st0 t s ≠ 0)
    (hgate : successOrContent (parsedResponse env st0 t s) = true)
    (n : Int) (hn : n ≠ 0)
    (hhook : ∀ st1, st1.heap p = some { t with
        fullResponse := parsedResponse env st0 t s, finished := env.now } →
      env._onRecv st1 p = hookSetOutcome n st1 p) :
    st'.heap p = some { t with
        fullResponse := parsedResponse env st0 t s, finished := env.now, response := n } ∧
      p ∉ st'._activeTransactionList ∧
      st'._completedTransactionList.count p = st0._completedTransactionList.count p + 1 ∧
      Event.onRecv p ∈ st'.trace := by
  obtain ⟨sti, nai, prei, b, stj, naj, hv1, hsock, hact, hpre, hsuf, hb, -, hv2⟩ := h
  have hqi : sti.heap p = some t := by rw [hv1.heap_eq, hq]
  have hpr := parsedResponse_congr env t hsock
  have hin : (hookInput env sti p t s).heap p = some { t with
      fullResponse := parsedResponse env st0 t s, finished := env.now } := by
    rw [hookInput_heap, hpr]
  rw [postPollBody_hook_set env sti nai prei b p t s n hact hqi hs
    (by rw [parsedSize_congr env t hsock]; exact hsize)
    (by rw [hpr]; exact hgate) (hhook _ hin) hn] at hb
  obtain ⟨rfl, -⟩ := body_result_eq hb
  refine ⟨?_, ?_, ?_, ?_⟩
  · rw [hv2.heap_eq]
    simp only [setAt_same, hpr]
  · rw [hv2.active_iff]
    simp [hpre, hsuf]
  · rw [hv2.completed_eq]
    simp [List.count_append, hv1.completed_eq]
  · rw [hv2.hook_iff]
    simp [hookInput]

theorem statusCode_ne_zero (l : Str) : statusCode l ≠ 0 := by
  unfold statusCode
  simp only
  split
  · decide
  · rename_i h
    exact_mod_cast h

theorem hookRecordStatus_contract : HookContract hookRecordStatus := by
  intro st p
  refine Or.inl ?_
  cases h : st.heap p with
  | none => exact ⟨400, by decide, by simp [hookRecordStatus, hookSetOutcome, setResponse, h]⟩
  | some t =>
    exact ⟨_, statusCode_ne_zero t.fullResponse.methodLine, by
      simp [hookRecordStatus, hookSetOutcome, h]⟩

/-- Later poll cycles leave a transaction that is not in the active list alone. -/
theorem pollCycles_inactive (p : Nat) (cycles : List (PollEnv × Nat)) :
    ∀ st, Pollable st → (∀ c ∈ cycles, HookContract c.1._onRecv) →
      p ∉ st._activeTransactionList →
      ∃ st', pollCycles cycles st = .ok st' ∧ SameView p st st' := by
  induction cycles with
  | nil => intro st _ _ _; exact ⟨st, rfl, SameView.refl _ _⟩
  | cons c cycles ih =>
    intro st hwf hh hp
    obtain ⟨env, na⟩ := c
    obtain ⟨st1, na1, h1, hwf1, hv1⟩ :=
      postPoll_inactive env st na p hwf (hh (env, na) (List.mem_cons_self _ _)) hp
    obtain ⟨st', h2, hv2⟩ := ih st1 hwf1 (fun c hc => hh c (List.mem_cons_of_mem _ hc))
      (fun hm => hp (hv1.active_iff.mp hm))
    refine ⟨st', ?_, hv1.trans hv2⟩
    simp only [pollCycles, h1]
    exact h2


/-- C3 (as the code has it): for an active transaction of a pollable registry
whose receive buffer holds a complete response with a 2xx status line that
contains `" 200 "` or that carries content, one poll cycle with a
contract-abiding hook that records the numeric status and returns "not closed"
returns, leaves the outcome equal to that status, removes the transaction from
the active list and adds it once to the completed list; later poll cycles
change neither its cell nor its membership. -/
theorem postPoll_success_outcome (env : PollEnv) (st : State) (na : Nat) (p : Nat)
    (t : Transaction) (s : Nat) (hwf : Pollable st) (hhook : HookContract env._onRecv)
    (hp : p ∈ st._activeTransactionList) (hq : st.heap p = some t) (hs : t.s = some s)
    (hsize : parsedSize env (afterTcpPoll env st) t s ≠ 0)
    (h2xx : 200 ≤ statusCode (parsedResponse env (afterTcpPoll env st) t s).methodLine ∧
      statusCode (parsedResponse env (afterTcpPoll env st) t s).methodLine ≤ 299)
    (hgate : SContains (parsedResponse env (afterTcpPoll env st) t s).methodLine " 200 ".toList
        = true ∨ (parsedResponse env (afterTcpPoll env st) t s).content ≠ [])
    (hrec : ∀ st1 t1, st1.heap p = some t1 →
      env._onRecv st1 p = .ok (false, setResponse st1 p (statusCode t1.fullResponse.methodLine))) :
    ∃ st' na' t', postPoll env st na = .ok (st', na') ∧ st'.heap p = some t' ∧
      t'.response = statusCode (parsedResponse env (afterTcpPoll env st) t s).methodLine ∧
      p ∉ st'._activeTransactionList ∧
      st'._completedTransactionList.count p = st._completedTransactionList.count p + 1 ∧
      ∀ cycles : List (PollEnv × Nat), (∀ c ∈ cycles, HookContract c.1._onRecv) →
        ∃ st'', pollCycles cycles st' = .ok st'' ∧ st''.heap p = some t' ∧
          p ∉ st''._activeTransactionList ∧
          st''._completedTransactionList.count p = st._completedTransactionList.count p + 1 := by
  obtain ⟨st', na', hpoll, hwf', hrun⟩ := postPoll_focus env st na p t s hwf hhook hp hq hs
  have hg : successOrContent (parsedResponse env (afterTcpPoll env st) t s) = true := by
    unfold successOrContent
    rcases hgate with h | h
    · rw [h, Bool.true_or]
    · have hlen : (parsedResponse env (afterTcpPoll env st) t s).content.length ≠ 0 :=
        fun h0 => h (List.length_eq_zero.mp h0)
      simp [hlen]
  have hn : statusCode (parsedResponse env (afterTcpPoll env st) t s).methodLine ≠ 0 := by
    have := h2xx.1
    omega
  obtain ⟨h1, h2, h3, -⟩ := hrun.hook_set hq hs hsize hg _ hn (fun st1 h => hrec st1 _ h)
  refine ⟨st', na', _, hpoll, h1, rfl, h2, h3, ?_⟩
  intro cycles hc
  obtain ⟨st'', hcyc, hv⟩ := pollCycles_inactive p cycles st' hwf' hc h2
  refine ⟨st'', hcyc, ?_, ?_, ?_⟩
  · rw [hv.heap_eq, h1]
  · exact fun hm => h2 (hv.active_iff.mp hm)
  · exact hv.completed_eq.trans h3

theorem postPoll_success_outcome_witness :
    ∃ st' na' t', postPoll demoOkEnv demoState 0 = .ok (st', na') ∧ st'.heap 0 = some t' ∧
      t'.response = 200 ∧ 0 ∉ st'._activeTransactionList := by
  obtain ⟨st', na', t', h1, h2, h3, h4, -⟩ :=
    postPoll_success_outcome demoOkEnv demoState 0 0 { Transaction.new 5 with s := some 7 } 7
      demoState_pollable hookRecordStatus_contract (by decide) rfl rfl (by decide) (by decide)
      (Or.inl (by decide))
      (fun st1 t1 h => by
        show hookRecordStatus st1 0 = _
        simp only [hookRecordStatus, h])
  exact ⟨st', na', t', h1, h2, h3.trans (by decide), h4⟩

/-- C3 as stated fails: the receive buffer of transaction `0` holds the
complete response `HTTP/1.1 204 No Content`, whose status line is 2xx, and one
poll cycle with the status-recording hook leaves the outcome at 500, not 204. -/
theorem postPoll_no_content_counterexample :
    0 ∈ demoState._activeTransactionList ∧
    parsedSize demoNoContentEnv (afterTcpPoll demoNoContentEnv demoState)
      { Transaction.new 5 with s := some 7 } 7 ≠ 0 ∧
    statusCode (parsedResponse demoNoContentEnv (afterTcpPoll demoNoContentEnv demoState)
      { Transaction.new 5 with s := some 7 } 7).methodLine = 204 ∧
    responseAfter (postPoll demoNoContentEnv demoState 0) 0 = some 500 ∧
    responseAfter (postPoll demoNoContentEnv demoState 0) 0 ≠ some 204 := by
  decide


/-! ## C4: a response with neither success marker nor content -/

/-- Outcome of a cycle for a transaction whose complete response fails the
test of line 89. -/
theorem FocusRun.protocolError {env : PollEnv} {st0 : State} {p : Nat} {t : Transaction}
    {s : Nat} {st' : State} (h : FocusRun env st0 p t s st')
    (hq : st0.heap p = some t) (hs : t.s = some s)
    (hsize : parsedSize env st0 t s ≠ 0)
    (hgate : successOrContent (parsedResponse env st0 t s) = false) :
    st'.heap p = some { t with
        fullResponse := parsedResponse env st0 t s, finished := env.now, response := 500 } ∧
      p ∉ st'._activeTransactionList ∧
      st'._completedTransactionList.count p = st0._completedTransactionList.count p + 1 ∧
      (Event.onRecv p ∈ st'.trace ↔ Event.onRecv p ∈ st0.trace) := by
  obtain ⟨sti, nai, prei, b, stj, naj, hv1, hsock, hact, hpre, hsuf, hb, -, hv2⟩ := h
  have hqi : sti.heap p = some t := by rw [hv1.heap_eq, hq]
  have hpr := parsedResponse_congr env t hsock
  rw [postPollBody_protocolError env sti nai prei b p t s hact hqi hs
    (by rw [parsedSize_congr env t hsock]; exact hsize)
    (by rw [hpr]; exact hgate)] at hb
  obtain ⟨rfl, -⟩ := body_result_eq hb
  refine ⟨?_, ?_, ?_, ?_⟩
  · rw [hv2.heap_eq]
    simp only [setAt_same, hpr]
  · rw [hv2.active_iff]
    simp [hpre, hsuf]
  · rw [hv2.completed_eq]
    simp [List.count_append, hv1.completed_eq]
  · rw [hv2.hook_iff]
    exact hv1.hook_iff

/-- Outcome of a cycle for a transaction that parses no complete response, on
a socket not past `CONNECTED`, before its time is up. -/
theorem FocusRun.pending {env : PollEnv} {st0 : State} {p : Nat} {t : Transaction}
    {s : Nat} {st' : State} (h : FocusRun env st0 p t s st')
    (hq : st0.heap p = some t) (hs : t.s = some s)
    (hsize : parsedSize env st0 t s = 0) (hlost : lostOrTimedOut env st0 t s = false)
    (hz : t.response = 0) :
    st'.heap p = some { t with fullResponse := parsedResponse env st0 t s } ∧
      p ∈ st'._activeTransactionList ∧
      st'._completedTransactionList.count p = st0._completedTransactionList.count p ∧
      (Event.onRecv p ∈ st'.trace ↔ Event.onRecv p ∈ st0.trace) := by
  obtain ⟨sti, nai, prei, b, stj, naj, hv1, hsock, hact, hpre, hsuf, hb, -, hv2⟩ := h
  have hqi : sti.heap p = some t := by rw [hv1.heap_eq, hq]
  have hpr := parsedResponse_congr env t hsock
  rw [postPollBody_pending env sti nai prei b p t s hact hqi hs
    ((parsedSize_congr env t hsock).trans hsize)
    ((lostOrTimedOut_congr env t hsock).trans hlost)] at hb
  obtain ⟨rfl, -⟩ := body_result_eq hb
  refine ⟨?_, ?_, ?_, ?_⟩
  · rw [hv2.heap_eq]
    simp only [setAt_same, hpr]
  · rw [hv2.active_iff]
    simp [hz]
  · rw [hv2.completed_eq]
    simp [hz, hv1.completed_eq]
  · rw [hv2.hook_iff]
    exact hv1.hook_iff

/-- C4: for an active transaction of a pollable registry for which `postPoll`
parses a complete response (non-zero size) whose status line does not contain
`" 200 "` and whose content is empty, whatever the socket state, the send
buffer and the elapsed time, the cycle returns without invoking the hook on
it, sets its outcome to 500 and moves it to the completed list. -/
theorem postPoll_protocol_error (env : PollEnv) (st : State) (na : Nat) (p : Nat)
    (t : Transaction) (s : Nat) (hwf : Pollable st) (hhook : HookContract env._onRecv)
    (hp : p ∈ st._activeTransactionList) (hq : st.heap p = some t) (hs : t.s = some s)
    (hsize : parsedSize env (afterTcpPoll env st) t s ≠ 0)
    (hmarker : SContains (parsedResponse env (afterTcpPoll env st) t s).methodLine
      " 200 ".toList = false)
    (hcontent : (parsedResponse env (afterTcpPoll env st) t s).content = []) :
    ∃ st' na' t', postPoll env st na = .ok (st', na') ∧ st'.heap p = some t' ∧
      t'.response = 500 ∧
      p ∈ st'._completedTransactionList ∧ p ∉ st'._activeTransactionList ∧
      (Event.onRecv p ∈ st'.trace ↔ Event.onRecv p ∈ st.trace) := by
  obtain ⟨st', na', hpoll, -, hrun⟩ := postPoll_focus env st na p t s hwf hhook hp hq hs
  have hg : successOrContent (parsedResponse env (afterTcpPoll env st) t s) = false := by
    unfold successOrContent
    rw [hmarker, hcontent]
    rfl
  obtain ⟨h1, h2, h3, h4⟩ := hrun.protocolError hq hs hsize hg
  exact ⟨st', na', _, hpoll, h1, rfl, mem_of_count_succ h3, h2, h4⟩

theorem postPoll_protocol_error_witness :
    ∃ st' na' t', postPoll demoNoContentEnv demoState 0 = .ok (st', na') ∧
      st'.heap 0 = some t' ∧ t'.response = 500 ∧ 0 ∈ st'._completedTransactionList := by
  obtain ⟨st', na', t', h1, h2, h3, h4, -⟩ :=
    postPoll_protocol_error demoNoContentEnv demoState 0 0
      { Transaction.new 5 with s := some 7 } 7
      demoState_pollable hookRecordStatus_contract (by decide) rfl rfl (by decide) (by decide)
      (by decide)
  exact ⟨st', na', t', h1, h2, h3, h4⟩


/-! ## C10: the timeout -/

theorem sub64_of_le {a b : Nat} (hb : b ≤ a) (ha : a < U64) : sub64 a b = a - b := by
  unfold sub64 U64 at *
  omega

/-- C10: the timeout is 300 s (300,000,000 microseconds) and strict.  For an
active transaction of a pollable registry with outcome 0, created no later
than `now`, with no complete response and a socket not past `CONNECTED`, the
cycle returns; when `now - created ≤ 300 s` the outcome stays 0 and the
transaction stays in the active list, and when `now - created > 300 s` the
outcome becomes 501 or 500 and the transaction moves to the completed list. -/
theorem postPoll_timeout_strict (env : PollEnv) (st : State) (na : Nat) (p : Nat)
    (t : Transaction) (s : Nat) (hwf : Pollable st) (hhook : HookContract env._onRecv)
    (hp : p ∈ st._activeTransactionList) (hq : st.heap p = some t) (hs : t.s = some s)
    (hz : t.response = 0) (hcreated : t.created ≤ env.now) (hnow : env.now < 2 ^ 64)
    (hsize : parsedSize env (afterTcpPoll env st) t s = 0)
    (hstate : ((afterTcpPoll env st).sockets s).state ≤ Socket.CONNECTED) :
    300 * STIME_US_PER_S = 300000000 ∧
    ∃ st' na' t', postPoll env st na = .ok (st', na') ∧ st'.heap p = some t' ∧
      (env.now - t.created ≤ 300 * STIME_US_PER_S →
        t'.response = 0 ∧ p ∈ st'._activeTransactionList ∧
        st'._completedTransactionList.count p = st._completedTransactionList.count p) ∧
      (300 * STIME_US_PER_S < env.now - t.created →
        (t'.response = 501 ∨ t'.response = 500) ∧
        p ∈ st'._completedTransactionList ∧ p ∉ st'._activeTransactionList) := by
  refine ⟨by decide, ?_⟩
  obtain ⟨st', na', hpoll, -, hrun⟩ := postPoll_focus env st na p t s hwf hhook hp hq hs
  have hel : sub64 env.now t.created = env.now - t.created := sub64_of_le hcreated hnow
  have h300 : 300 * STIME_US_PER_S = 300000000 := by decide
  by_cases hto : env.now - t.created ≤ 300 * STIME_US_PER_S
  · have hl : lostOrTimedOut env (afterTcpPoll env st) t s = false := by
      unfold lostOrTimedOut
      rw [hel, TIMEOUT_eq]
      have h1 : ¬ (Socket.CONNECTED < ((afterTcpPoll env st).sockets s).state) := by omega
      have h2 : ¬ (300000000 < env.now - t.created) := by omega
      simp [h1, h2]
    obtain ⟨h1, h2, h3, -⟩ := hrun.pending hq hs hsize hl hz
    exact ⟨st', na', _, hpoll, h1, fun _ => ⟨hz, h2, h3⟩, fun h => absurd hto (by omega)⟩
  · have hl : lostOrTimedOut env (afterTcpPoll env st) t s = true := by
      unfold lostOrTimedOut
      rw [hel, TIMEOUT_eq]
      have h2 : 300000000 < env.now - t.created := by omega
      simp [h2]
    obtain ⟨h1, h2, h3, -⟩ := hrun.lost hq hs hsize hl
    refine ⟨st', na', _, hpoll, h1, fun h => absurd h hto, fun _ => ⟨?_, mem_of_count_succ h3, h2⟩⟩
    cases ((afterTcpPoll env st).sockets s).sendBuffer.isEmpty <;> simp

theorem postPoll_timeout_strict_witness :
    ∃ st' na' t', postPoll { demoEnv with now := 300000005 } demoState 0 = .ok (st', na') ∧
      st'.heap 0 = some t' ∧ t'.response = 0 ∧ 0 ∈ st'._activeTransactionList := by
  obtain ⟨-, st', na', t', h1, h2, h3, -⟩ :=
    postPoll_timeout_strict { demoEnv with now := 300000005 } demoState 0 0
      { Transaction.new 5 with s := some 7 } 7
      demoState_pollable (hookSetOutcome_contract 200 (by decide)) (by decide) rfl rfl rfl
      (by decide) (by decide) (by decide) (by decide)
  obtain ⟨h4, h5, -⟩ := h3 (by decide)
  exact ⟨st', na', t', h1, h2, h4, h5⟩


/-! ## C9: the next-activity hint -/

/-- Outcome of a cycle for a transaction whose complete response passes the
test of line 89, under the hook contract: the hook is invoked and the
transaction leaves the active list. -/
theorem FocusRun.hook {env : PollEnv} {st0 : State} {p : Nat} {t : Transaction} {s : Nat}
    {st' : State} (h : FocusRun env st0 p t s st')
    (hq : st0.heap p = some t) (hs : t.s = some s)
    (hsize : parsedSize env st0 t s ≠ 0)
    (hgate : successOrContent (parsedResponse env st0 t s) = true)
    (hhook : HookContract env._onRecv) :
    p ∉ st'._activeTransactionList ∧ Event.onRecv p ∈ st'.trace := by
  obtain ⟨sti, nai, prei, b, stj, naj, hv1, hsock, hact, hpre, hsuf, hb, -, hv2⟩ := h
  have hqi : sti.heap p = some t := by rw [hv1.heap_eq, hq]
  have hpr := parsedResponse_congr env t hsock
  have hsz : parsedSize env sti t s ≠ 0 := by rw [parsedSize_congr env t hsock]; exact hsize
  have hg : successOrContent (parsedResponse env sti t s) = true := by rw [hpr]; exact hgate
  rcases hhook (hookInput env sti p t s) p with ⟨n, hn, hh⟩ | hh
  · rw [postPollBody_hook_set env sti nai prei b p t s n hact hqi hs hsz hg hh hn] at hb
    obtain ⟨rfl, -⟩ := body_result_eq hb
    refine ⟨?_, ?_⟩
    · rw [hv2.active_iff]; simp [hpre, hsuf]
    · rw [hv2.hook_iff]; simp [hookInput]
  · rw [postPollBody_hook_close env sti nai prei b p t s hact hqi hs hpre hsuf hsz hg hh] at hb
    obtain ⟨rfl, -⟩ := body_result_eq hb
    refine ⟨?_, ?_⟩
    · rw [hv2.active_iff]; simp [hpre, hsuf]
    · rw [hv2.hook_iff]; simp

/-- The three ways an iteration of the poll loop can end, each with the loop
invariant of the next iteration. -/
theorem postPollBody_cases (env : PollEnv) (st : State) (na : Nat) (pre suf : List Nat) (q : Nat)
    (hinv : LoopInv st pre (q :: suf)) (hhook : HookContract env._onRecv) :
    ∃ t s, st.heap q = some t ∧ t.s = some s ∧ q ∉ pre ∧ q ∉ suf ∧
      ∃ st2 na2, postPollBody env suf.length st na = .ok (st2, na2) ∧
        StepPost env st na pre suf q t s st2 na2 ∧
        ((LoopInv st2 (pre ++ [q]) suf ∧
            st2._completedTransactionList = st._completedTransactionList ∧
            ∃ t2, st2.heap q = some t2 ∧ t2.response = 0) ∨
         (LoopInv st2 pre suf ∧
            st2._completedTransactionList = st._completedTransactionList ++ [q] ∧
            ∃ t2, st2.heap q = some t2 ∧ t2.response ≠ 0) ∨
         (LoopInv st2 pre suf ∧
            st2._completedTransactionList = listRemove st._completedTransactionList q ∧
            st2.heap q = none)) := by
  obtain ⟨t, s, hq, hs, hpre, hsuf, st2, na2, hb, hstep, hlists⟩ :=
    postPollBody_loopInv env st na pre suf q hinv hhook
  refine ⟨t, s, hq, hs, hpre, hsuf, st2, na2, hb, hstep, ?_⟩
  have hlen : ∀ {l : List Nat}, l = pre ++ q :: suf → l = pre ++ suf → False := by
    intro l h1 h2
    have := congrArg List.length (h1.symm.trans h2)
    simp at this
  rcases hstep.lists with ⟨h1, h2, h3⟩ | ⟨h1, h2, h3⟩ | ⟨h1, h2, h3⟩
  · rcases hlists with ⟨_, hl⟩ | ⟨h1', _⟩
    · exact Or.inl ⟨hl, h2, h3⟩
    · exact (hlen h1 h1').elim
  · rcases hlists with ⟨h1', _⟩ | ⟨_, hl⟩
    · exact (hlen h1' h1).elim
    · exact Or.inr (Or.inl ⟨hl, h2, h3⟩)
  · rcases hlists with ⟨h1', _⟩ | ⟨_, hl⟩
    · exact (hlen h1' h1).elim
    · exact Or.inr (Or.inr ⟨hl, h2, h3⟩)

/-- An iteration of the poll loop re-establishes the registry invariant. -/
theorem postPollBody_registryInv (env : PollEnv) (hhook : HookContract env._onRecv)
    (pre : List Nat) (q : Nat) (suf : List Nat) (st : State) (na : Nat)
    (hinv : RegistryLoopInv pre (q :: suf) st) :
    ∃ st2 na2, postPollBody env suf.length st na = .ok (st2, na2) ∧
      ∃ pre2, RegistryLoopInv pre2 suf st2 := by
  obtain ⟨hloop, hact, hcomp, halloc⟩ := hinv
  obtain ⟨t, s, hq, hs, hpre, hsuf, st2, na2, hb, hstep, hcases⟩ :=
    postPollBody_cases env st na pre suf q hloop hhook
  refine ⟨st2, na2, hb, ?_⟩
  have hqz : ∃ t0, st.heap q = some t0 ∧ t0.response = 0 := hact q (by simp)
  have hqc : q ∉ st._completedTransactionList := by
    intro hm
    obtain ⟨t0, h0, hz⟩ := hqz
    obtain ⟨t1, h1, hnz⟩ := hcomp q hm
    rw [h0] at h1
    exact hnz (Option.some.inj h1 ▸ hz)
  have hold : ∀ r ∈ st._completedTransactionList, ∃ t, st2.heap r = some t ∧ t.response ≠ 0 := by
    intro r hr
    have hrq : r ≠ q := fun e => hqc (e ▸ hr)
    rw [hstep.heap_other r hrq]
    exact hcomp r hr
  have hrest : ∀ r ∈ pre ++ suf, ∃ t, st2.heap r = some t ∧ t.response = 0 := by
    intro r hr
    have hrq : r ≠ q := by
      rintro rfl
      rcases List.mem_append.mp hr with h | h
      · exact hpre h
      · exact hsuf h
    rw [hstep.heap_other r hrq]
    exact hact r (by
      rcases List.mem_append.mp hr with h | h
      · exact List.mem_append_left _ h
      · exact List.mem_append_right _ (List.mem_cons_of_mem _ h))
  have halloc2 : ∀ r t, st2.heap r = some t → r < st2.brk := by
    intro r t2 h2
    rw [hstep.brk_eq]
    by_cases hrq : r = q
    · subst hrq; exact halloc r t hq
    · rw [hstep.heap_other r hrq] at h2
      exact halloc r t2 h2
  rcases hcases with ⟨hl, hc, t2, ht2, hz⟩ | ⟨hl, hc, t2, ht2, hnz⟩ | ⟨hl, hc, hnone⟩
  · refine ⟨pre ++ [q], hl, ?_, ?_, halloc2⟩
    · intro r hr
      by_cases hrq : r = q
      · subst hrq; exact ⟨t2, ht2, hz⟩
      · exact hrest r (by
          have : r ∈ pre ∨ r = q ∨ r ∈ suf := by simpa using hr
          rcases this with h | h | h
          · exact List.mem_append_left _ h
          · exact absurd h hrq
          · exact List.mem_append_right _ h)
    · rw [hc]; exact hold
  · refine ⟨pre, hl, hrest, ?_, halloc2⟩
    rw [hc]
    intro r hr
    rcases List.mem_append.mp hr with h | h
    · exact hold r h
    · have : r = q := by simpa using h
      subst this
      exact ⟨t2, ht2, hnz⟩
  · refine ⟨pre, hl, hrest, ?_, halloc2⟩
    rw [hc]
    intro r hr
    exact hold r (mem_listRemove.mp hr).1

/-- A poll cycle preserves the registry invariant, and returns. -/
theorem postPoll_registryInv (env : PollEnv) (st : State) (na : Nat)
    (hinv : RegistryInv st) (hhook : HookContract env._onRecv) :
    ∃ st' na', postPoll env st na = .ok (st', na') ∧ RegistryInv st' := by
  have hinit : RegistryLoopInv [] st._activeTransactionList (afterTcpPoll env st) :=
    ⟨⟨rfl, hinv.nodup, fun p hp => by
        obtain ⟨t, s, h1, h2, -⟩ := hinv.active p hp
        exact ⟨t, s, h1, h2⟩⟩,
      fun p hp => by
        obtain ⟨t, s, h1, -, h3⟩ := hinv.active p hp
        exact ⟨t, h1, h3⟩,
      hinv.completed, hinv.allocated⟩
  obtain ⟨st', na', pre', hl, hloop, hact, hcomp, halloc⟩ :=
    postPollLoop_rule env (fun pre suf st1 _ => RegistryLoopInv pre suf st1)
      (fun pre q suf st1 na1 h => postPollBody_registryInv env hhook pre q suf st1 na1 h)
      st._activeTransactionList [] (afterTcpPoll env st) na hinit
  have hlist : st'._activeTransactionList = pre' := by simpa using hloop.active_eq
  refine ⟨st', na', hl, ⟨?_, ?_, hcomp, halloc⟩⟩
  · rw [hlist]; simpa using hloop.nodup
  · intro p hp
    rw [hlist] at hp
    obtain ⟨t, s, h1, h2⟩ := hloop.live p (by simpa using hp)
    obtain ⟨t', h1', hz⟩ := hact p (by simpa using hp)
    rw [h1] at h1'
    exact ⟨t, s, h1, h2, (Option.some.inj h1') ▸ hz⟩


theorem registryInv_init (x509 : Nat) : RegistryInv (State.init x509) :=
  ⟨List.nodup_nil, fun _ h => absurd h (List.not_mem_nil _),
   fun _ h => absurd h (List.not_mem_nil _), fun _ _ h => by simp [State.init] at h⟩

theorem RegistryInv.fresh {st : State} (h : RegistryInv st) : st.heap st.brk = none := by
  cases hb : st.heap st.brk with
  | none => rfl
  | some t => exact absurd (h.allocated _ t hb) (Nat.lt_irrefl _)

theorem RegistryInv.not_mem_active {st : State} (h : RegistryInv st) :
    st.brk ∉ st._activeTransactionList := by
  intro hm
  obtain ⟨t, _, ht, -, -⟩ := h.active _ hm
  rw [h.fresh] at ht
  exact absurd ht (by simp)

theorem RegistryInv.not_mem_completed {st : State} (h : RegistryInv st) :
    st.brk ∉ st._completedTransactionList := by
  intro hm
  obtain ⟨t, ht, -⟩ := h.completed _ hm
  rw [h.fresh] at ht
  exact absurd ht (by simp)

theorem registryInv_createErrorTransaction (st : State) (a b : Nat) (h : RegistryInv st) :
    RegistryInv (_createErrorTransaction st a b).2 := by
  obtain ⟨-, h2, h3, h4, -, h6, -, h8⟩ := createErrorTransaction_spec st a b
  refine ⟨by rw [h4]; exact h.nodup, ?_, ?_, ?_⟩
  · intro p hp
    rw [h4] at hp
    have hne : p ≠ st.brk := fun e => h.not_mem_active (e ▸ hp)
    rw [h8 p hne]
    exact h.active p hp
  · intro p hp
    rw [h3] at hp
    by_cases hne : p = st.brk
    · subst hne
      exact ⟨_, h2, by simp [Transaction.new]⟩
    · rw [h8 p hne]
      exact h.completed p (by simpa [hne] using hp)
  · intro p t hp
    rw [h6]
    by_cases hne : p = st.brk
    · omega
    · rw [h8 p hne] at hp
      exact Nat.lt_succ_of_lt (h.allocated p t hp)

theorem httpsSend_of_open_some (env : SendEnv) (st : State) (url : Str) (request : SData)
    (host path : Str) (s : Nat) (h : env.SParseURI url = some (host, path))
    (ho : (openSocket env.tcpOpenSocket st (hostWithPort host) (tlsContext st url)).1 = some s) :
    _httpsSend env st url request =
      (st.brk,
        { (openSocket env.tcpOpenSocket st (hostWithPort host) (tlsContext st url)).2 with
          heap := setAt st.heap st.brk
            (some { Transaction.new env.tCreated with s := some s, fullRequest := request }),
          brk := st.brk + 1,
          sockets := setAt st.sockets s
            { st.sockets s with sendBuffer := env.serialize request },
          _activeTransactionList := st.brk :: st._activeTransactionList }) := by
  simp only [_httpsSend, h]
  rw [ho]
  rfl

theorem registryInv_httpsSend (env : SendEnv) (st : State) (url : Str) (request : SData)
    (h : RegistryInv st) : RegistryInv (_httpsSend env st url request).2 := by
  cases hparse : env.SParseURI url with
  | none =>
    rw [httpsSend_of_parse_none env st url request hparse]
    exact registryInv_createErrorTransaction st _ _ h
  | some hp =>
    obtain ⟨host, path⟩ := hp
    cases ho : (openSocket env.tcpOpenSocket st (hostWithPort host) (tlsContext st url)).1 with
    | none =>
      rw [httpsSend_of_open_none env st url request host path hparse ho]
      exact registryInv_createErrorTransaction _ _ _
        ⟨h.nodup, h.active, h.completed, h.allocated⟩
    | some s =>
      rw [httpsSend_of_open_some env st url request host path s hparse ho]
      refine ⟨List.nodup_cons.mpr ⟨h.not_mem_active, h.nodup⟩, ?_, ?_, ?_⟩
      · intro p hp
        by_cases hne : p = st.brk
        · subst hne
          exact ⟨_, s, setAt_same _ _ _, rfl, rfl⟩
        · have hm : p ∈ st._activeTransactionList := by
            rcases List.mem_cons.mp hp with e | hm
            · exact absurd e hne
            · exact hm
          obtain ⟨t, s', h1, h2, h3⟩ := h.active p hm
          exact ⟨t, s', (setAt_ne _ _ hne).trans h1, h2, h3⟩
      · intro p hp
        have hm : p ∈ st._completedTransactionList := hp
        have hne : p ≠ st.brk := fun e => h.not_mem_completed (e ▸ hm)
        obtain ⟨t, h1, h2⟩ := h.completed p hm
        exact ⟨t, (setAt_ne _ _ hne).trans h1, h2⟩
      · intro p t hp
        show p < st.brk + 1
        by_cases hne : p = st.brk
        · omega
        · exact Nat.lt_succ_of_lt (h.allocated p t ((setAt_ne _ _ hne).symm.trans hp))

theorem registryInv_closeTransaction (st st' : State) (transaction : Option Nat)
    (h : RegistryInv st) (hc : closeTransaction st transaction = .ok st') : RegistryInv st' := by
  cases transaction with
  | none =>
    have : st = st' := by
      simp only [closeTransaction] at hc
      exact Except.ok.inj hc
    exact this ▸ h
  | some p =>
    cases hp : st.heap p with
    | none => simp [closeTransaction, hp] at hc
    | some t =>
      rw [closeTransaction_ok st p t hp] at hc
      have hst := Except.ok.inj hc
      subst hst
      refine ⟨h.nodup.sublist (List.filter_sublist _), ?_, ?_, ?_⟩
      · intro q hq
        obtain ⟨hq1, hq2⟩ := mem_listRemove.mp hq
        obtain ⟨t, s, h1, h2, h3⟩ := h.active q hq1
        exact ⟨t, s, (setAt_ne _ _ hq2).trans h1, h2, h3⟩
      · intro q hq
        obtain ⟨hq1, hq2⟩ := mem_listRemove.mp hq
        obtain ⟨t, h1, h2⟩ := h.completed q hq1
        exact ⟨t, (setAt_ne _ _ hq2).trans h1, h2⟩
      · intro q t' hq
        by_cases hne : q = p
        · subst hne
          exact h.allocated q t hp
        · exact h.allocated q t' ((setAt_ne _ _ hne).symm.trans hq)

/-- Every reachable state satisfies the registry invariant. -/
theorem reachable_registryInv {st : State} (h : Reachable st) : RegistryInv st := by
  induction h with
  | init x509 => exact registryInv_init x509
  | send env url request _ ih => exact registryInv_httpsSend env _ url request ih
  | error a b _ ih => exact registryInv_createErrorTransaction _ a b ih
  | poll env na na' _ hhook hpoll ih =>
    obtain ⟨st2, na2, h2, hinv⟩ := postPoll_registryInv env _ na ih hhook
    rw [h2] at hpoll
    obtain ⟨rfl, -⟩ := body_result_eq hpoll
    exact hinv
  | close transaction _ hc ih => exact registryInv_closeTransaction _ _ transaction ih hc

/-- C5: in every state reachable from a fresh manager by `_httpsSend`,
`_createErrorTransaction`, `postPoll` with a contract-abiding hook and
`closeTransaction`, every transaction of the active list has outcome 0 and
every transaction of the completed list has a non-zero outcome, so the two
lists are disjoint; moreover a poll cycle from such a state is never fatal. -/
theorem registry_invariant (st : State) (h : Reachable st) :
    (∀ p ∈ st._activeTransactionList, ∃ t, st.heap p = some t ∧ t.response = 0) ∧
    (∀ p ∈ st._completedTransactionList, ∃ t, st.heap p = some t ∧ t.response ≠ 0) ∧
    (∀ p ∈ st._activeTransactionList, p ∉ st._completedTransactionList) ∧
    (∀ env na, HookContract env._onRecv → ∃ st' na', postPoll env st na = .ok (st', na')) := by
  have hinv := reachable_registryInv h
  refine ⟨?_, hinv.completed, ?_, ?_⟩
  · intro p hp
    obtain ⟨t, -, h1, -, h3⟩ := hinv.active p hp
    exact ⟨t, h1, h3⟩
  · intro p hp hc
    obtain ⟨t, -, h1, -, h3⟩ := hinv.active p hp
    obtain ⟨t', h1', h3'⟩ := hinv.completed p hc
    rw [h1] at h1'
    exact h3' (Option.some.inj h1' ▸ h3)
  · intro env na hhook
    obtain ⟨st', na', h1, -⟩ := postPoll_registryInv env st na hinv hhook
    exact ⟨st', na', h1⟩

theorem registry_invariant_witness :
    Reachable demoSent ∧ ∃ t, demoSent.heap 0 = some t ∧ t.response = 0 := by
  have hr : Reachable demoSent := Reachable.send _ _ _ (Reachable.init 9)
  obtain ⟨h1, -⟩ := registry_invariant demoSent hr
  exact ⟨hr, h1 0 (by decide)⟩


/-! ## C6: the `finished` timestamp -/

/-- C6 (what the code does): after a successful `_httpsSend`, a poll cycle that
finds the socket closed completes the transaction with outcome 500 and leaves
its `finished` timestamp at 0: a reachable state holds a completed transaction
with a non-zero outcome and `finished = 0`. -/
theorem finished_unset_after_connection_loss :
    ∃ st, Reachable st ∧ ∃ t, st.heap 0 = some t ∧ 0 ∈ st._completedTransactionList ∧
      t.response = 500 ∧ t.finished = 0 := by
  have hr : Reachable demoSent := Reachable.send _ _ _ (Reachable.init 9)
  have hinv := reachable_registryInv hr
  have hwf : Pollable demoSent := by
    refine ⟨hinv.nodup, fun p hp => ?_, ?_⟩
    · obtain ⟨t, s, h1, h2, -⟩ := hinv.active p hp
      exact ⟨t, s, h1, h2⟩
    · intro p hp q hq _ _ _ _ _
      have h0 : p = 0 := by
        have : p ∈ [0] := hp
        simpa using this
      have h1 : q = 0 := by
        have : q ∈ [0] := hq
        simpa using this
      rw [h0, h1]
  have hhook : HookContract demoClosedEnv._onRecv := hookSetOutcome_contract 200 (by decide)
  obtain ⟨st', na', hpoll, -, hrun⟩ :=
    postPoll_focus demoClosedEnv demoSent 0 0
      { Transaction.new 5 with s := some 7, fullRequest := ⟨"GET / HTTP/1.1".toList, [], []⟩ } 7
      hwf hhook (by decide) (by decide) rfl
  obtain ⟨h1, -, h3, -⟩ := hrun.lost (by decide) rfl (by decide) (by decide)
  exact ⟨st', Reachable.poll demoClosedEnv 0 na' hr hhook hpoll, _, h1, mem_of_count_succ h3,
    by decide, rfl⟩


/-! ## C8: teardown -/

theorem listRemove_eq_filter (l : List Nat) (x : Nat) :
    listRemove l x = l.filter (fun y => y ≠ x) := rfl

theorem closeOrder_fuel (n : Nat) : ∀ (m : Nat) (l : List Nat), l.length ≤ n → l.length ≤ m →
    closeOrder n l = closeOrder m l := by
  induction n with
  | zero =>
    intro m l h _
    have : l = [] := List.length_eq_zero.mp (Nat.le_zero.mp h)
    subst this
    cases m <;> rfl
  | succ n ih =>
    intro m l h hm
    cases l with
    | nil => cases m <;> rfl
    | cons x xs =>
      cases m with
      | zero => simp at hm
      | succ m =>
        simp only [closeOrder]
        have hlen : (xs.filter (fun y => y ≠ x)).length ≤ xs.length := List.length_filter_le _ _
        simp only [List.length_cons] at h hm
        rw [ih m _ (by omega) (by omega)]

theorem mem_closeOrder (n : Nat) : ∀ (l : List Nat), l.length ≤ n → ∀ p, p ∈ closeOrder n l ↔ p ∈ l := by
  induction n with
  | zero =>
    intro l h p
    have : l = [] := List.length_eq_zero.mp (Nat.le_zero.mp h)
    subst this
    simp [closeOrder]
  | succ n ih =>
    intro l h p
    cases l with
    | nil => simp [closeOrder]
    | cons x xs =>
      have hlen : (xs.filter (fun y => y ≠ x)).length ≤ xs.length := List.length_filter_le _ _
      simp only [List.length_cons] at h
      simp only [closeOrder, List.mem_cons, ih _ (by omega : (xs.filter (fun y => y ≠ x)).length ≤ n)]
      by_cases hp : p = x
      · simp [hp]
      · simp [hp]

theorem nodup_closeOrder (n : Nat) : ∀ (l : List Nat), l.length ≤ n → (closeOrder n l).Nodup := by
  induction n with
  | zero => intro l _; simp [closeOrder]
  | succ n ih =>
    intro l h
    cases l with
    | nil => simp [closeOrder]
    | cons x xs =>
      have hlen : (xs.filter (fun y => y ≠ x)).length ≤ xs.length := List.length_filter_le _ _
      simp only [List.length_cons] at h
      simp only [closeOrder, List.nodup_cons]
      refine ⟨?_, ih _ (by omega)⟩
      rw [mem_closeOrder n _ (by omega)]
      simp

theorem closeOrder_of_nodup (n : Nat) : ∀ (l : List Nat), l.length ≤ n → l.Nodup →
    closeOrder n l = l := by
  induction n with
  | zero =>
    intro l h _
    have : l = [] := List.length_eq_zero.mp (Nat.le_zero.mp h)
    subst this
    rfl
  | succ n ih =>
    intro l h hnd
    cases l with
    | nil => rfl
    | cons x xs =>
      simp only [List.length_cons] at h
      obtain ⟨hx, hxs⟩ := List.nodup_cons.mp hnd
      have hf : xs.filter (fun y => y ≠ x) = xs := listRemove_of_not_mem hx
      simp only [closeOrder, hf]
      rw [ih xs (by omega) hxs]

theorem closeTrace_congr (st st1 : State) (l : List Nat)
    (h : ∀ p ∈ l, st1.heap p = st.heap p) : closeTrace st1 l = closeTrace st l := by
  induction l with
  | nil => rfl
  | cons p l ih =>
    simp only [closeTrace, socketOf, h p (List.mem_cons_self _ _)]
    rw [ih (fun q hq => h q (List.mem_cons_of_mem _ hq))]


theorem afterCloseAllActive_nil (st : State) (h : st._activeTransactionList = []) :
    afterCloseAllActive st = st := by
  obtain ⟨x, a, c, hp, b, so, tr⟩ := st
  simp only at h
  subst h
  simp [afterCloseAllActive, closeOrder, closeTrace]

theorem afterCloseAllActive_cons (st : State) (x : Nat) (xs : List Nat) (t : Transaction)
    (hact : st._activeTransactionList = x :: xs) (hx : st.heap x = some t) :
    afterCloseAllActive
      { st with
        _activeTransactionList := listRemove st._activeTransactionList x,
        _completedTransactionList := listRemove st._completedTransactionList x,
        heap := setAt st.heap x none,
        trace := st.trace ++ closeEvents x t.s } = afterCloseAllActive st := by
  obtain ⟨x5, a, c, hp, b, so, tr⟩ := st
  simp only at hact hx
  subst hact
  simp only [afterCloseAllActive, listRemove_cons_self]
  have hmem : ∀ q, q ∈ listRemove xs x ↔ q ∈ xs ∧ q ≠ x := fun q => mem_listRemove
  congr 1
  · simp only [listRemove, List.filter_filter]
    apply List.filter_congr
    intro q _
    by_cases hq : q = x <;> simp [hq]
  · funext q
    by_cases hq : q = x
    · subst hq; simp [setAt]
    · simp [hmem, hq, setAt]
  · have hlen : (listRemove xs x).length ≤ xs.length := listRemove_length_le _ _
    have htr : closeTrace
        { _x509 := x5, _activeTransactionList := listRemove xs x,
          _completedTransactionList := listRemove c x, heap := setAt hp x none, brk := b,
          sockets := so, trace := tr ++ closeEvents x t.s }
        (closeOrder (listRemove xs x).length (listRemove xs x)) =
        closeTrace
          { _x509 := x5, _activeTransactionList := x :: xs, _completedTransactionList := c,
            heap := hp, brk := b, sockets := so, trace := tr }
          (closeOrder (listRemove xs x).length (listRemove xs x)) := by
      apply closeTrace_congr
      intro p hpm
      have : p ≠ x := ((hmem p).mp ((mem_closeOrder _ _ (Nat.le_refl _) p).mp hpm)).2
      exact setAt_ne _ _ this
    rw [htr, List.length_cons, closeOrder, closeTrace, socketOf]
    simp only [hx]
    rw [← listRemove_eq_filter, closeOrder_fuel xs.length (listRemove xs x).length _ hlen
      (Nat.le_refl _), List.append_assoc]

/-- The first teardown loop terminates and closes every active transaction. -/
theorem closeAllActive_spec (fuel : Nat) : ∀ st : State,
    st._activeTransactionList.length < fuel → AllLive st st._activeTransactionList →
    closeAllActive fuel st = some (.ok (afterCloseAllActive st)) := by
  induction fuel with
  | zero => intro st h _; exact absurd h (Nat.not_lt_zero _)
  | succ fuel ih =>
    intro st hlen hlive
    cases hact : st._activeTransactionList with
    | nil =>
      simp only [closeAllActive, hact]
      rw [afterCloseAllActive_nil st hact]
    | cons x xs =>
      obtain ⟨t, hx⟩ := hlive x (by rw [hact]; exact List.mem_cons_self _ _)
      simp only [closeAllActive, hact]
      rw [closeTransaction_ok st x t hx]
      simp only
      rw [ih, afterCloseAllActive_cons st x xs t hact hx]
      · show (listRemove st._activeTransactionList x).length < fuel
        rw [hact, listRemove_cons_self]
        have := listRemove_length_le xs x
        rw [hact] at hlen
        simp only [List.length_cons] at hlen
        omega
      · intro p hp
        have hp' : p ∈ listRemove st._activeTransactionList x := hp
        obtain ⟨h1, h2⟩ := mem_listRemove.mp hp'
        obtain ⟨t', ht'⟩ := hlive p h1
        exact ⟨t', (setAt_ne _ _ h2).trans ht'⟩


theorem afterCloseAllCompleted_nil (st : State) (h : st._completedTransactionList = []) :
    afterCloseAllCompleted st = st := by
  obtain ⟨x, a, c, hp, b, so, tr⟩ := st
  simp only at h
  subst h
  simp [afterCloseAllCompleted, closeOrder, closeTrace]

theorem afterCloseAllCompleted_cons (st : State) (x : Nat) (xs : List Nat) (t : Transaction)
    (hact : st._activeTransactionList = [])
    (hcomp : st._completedTransactionList = x :: xs) (hx : st.heap x = some t) :
    afterCloseAllCompleted
      { st with
        _activeTransactionList := listRemove st._activeTransactionList x,
        _completedTransactionList := listRemove st._completedTransactionList x,
        heap := setAt st.heap x none,
        trace := st.trace ++ closeEvents x t.s } = afterCloseAllCompleted st := by
  obtain ⟨x5, a, c, hp, b, so, tr⟩ := st
  simp only at hact hcomp hx
  subst hact hcomp
  simp only [afterCloseAllCompleted, listRemove_cons_self, listRemove_nil]
  have hmem : ∀ q, q ∈ listRemove xs x ↔ q ∈ xs ∧ q ≠ x := fun q => mem_listRemove
  congr 1
  · funext q
    by_cases hq : q = x
    · subst hq; simp [setAt]
    · simp [hmem, hq, setAt]
  · have hlen : (listRemove xs x).length ≤ xs.length := listRemove_length_le _ _
    have htr : closeTrace
        { _x509 := x5, _activeTransactionList := [],
          _completedTransactionList := listRemove xs x, heap := setAt hp x none, brk := b,
          sockets := so, trace := tr ++ closeEvents x t.s }
        (closeOrder (listRemove xs x).length (listRemove xs x)) =
        closeTrace
          { _x509 := x5, _activeTransactionList := [], _completedTransactionList := x :: xs,
            heap := hp, brk := b, sockets := so, trace := tr }
          (closeOrder (listRemove xs x).length (listRemove xs x)) := by
      apply closeTrace_congr
      intro p hpm
      have : p ≠ x := ((hmem p).mp ((mem_closeOrder _ _ (Nat.le_refl _) p).mp hpm)).2
      exact setAt_ne _ _ this
    rw [htr, List.length_cons, closeOrder, closeTrace, socketOf]
    simp only [hx]
    rw [← listRemove_eq_filter, closeOrder_fuel xs.length (listRemove xs x).length _ hlen
      (Nat.le_refl _), List.append_assoc]

/-- The second teardown loop terminates and closes every completed transaction. -/
theorem closeAllCompleted_spec (fuel : Nat) : ∀ st : State,
    st._activeTransactionList = [] →
    st._completedTransactionList.length < fuel → AllLive st st._completedTransactionList →
    closeAllCompleted fuel st = some (.ok (afterCloseAllCompleted st)) := by
  induction fuel with
  | zero => intro st _ h _; exact absurd h (Nat.not_lt_zero _)
  | succ fuel ih =>
    intro st hact hlen hlive
    cases hcomp : st._completedTransactionList with
    | nil =>
      simp only [closeAllCompleted, hcomp]
      rw [afterCloseAllCompleted_nil st hcomp]
    | cons x xs =>
      obtain ⟨t, hx⟩ := hlive x (by rw [hcomp]; exact List.mem_cons_self _ _)
      simp only [closeAllCompleted, hcomp]
      rw [closeTransaction_ok st x t hx]
      simp only
      rw [ih, afterCloseAllCompleted_cons st x xs t hact hcomp hx]
      · show listRemove st._activeTransactionList x = []
        rw [hact]; rfl
      · show (listRemove st._completedTransactionList x).length < fuel
        rw [hcomp, listRemove_cons_self]
        have := listRemove_length_le xs x
        rw [hcomp] at hlen
        simp only [List.length_cons] at hlen
        omega
      · intro p hp
        have hp' : p ∈ listRemove st._completedTransactionList x := hp
        obtain ⟨h1, h2⟩ := mem_listRemove.mp hp'
        obtain ⟨t', ht'⟩ := hlive p h1
        exact ⟨t', (setAt_ne _ _ h2).trans ht'⟩

theorem closeTrace_append (st : State) (l₁ l₂ : List Nat) :
    closeTrace st (l₁ ++ l₂) = closeTrace st l₁ ++ closeTrace st l₂ := by
  induction l₁ with
  | nil => rfl
  | cons p l ih =>
    show closeEvents p (socketOf st p) ++ closeTrace st (l ++ l₂) =
      (closeEvents p (socketOf st p) ++ closeTrace st l) ++ closeTrace st l₂
    rw [ih, List.append_assoc]

theorem closeOrder_append (n : Nat) : ∀ (a c : List Nat), (a ++ c).length ≤ n →
    closeOrder n (a ++ c) = closeOrder n a ++ closeOrder n (c.filter (fun q => q ∉ a)) := by
  induction n with
  | zero => intro a c _; rfl
  | succ n ih =>
    intro a c h
    cases a with
    | nil => simp [closeOrder]
    | cons x xs =>
      simp only [List.cons_append, List.length_cons, List.length_append] at h
      have h1 : (xs.filter (fun y => y ≠ x)).length ≤ xs.length := List.length_filter_le _ _
      have h2 : (c.filter (fun y => y ≠ x)).length ≤ c.length := List.length_filter_le _ _
      have h3 : (c.filter (fun q => q ∉ x :: xs)).length ≤ c.length := List.length_filter_le _ _
      have hf : (c.filter (fun y => y ≠ x)).filter (fun q => q ∉ xs.filter (fun y => y ≠ x)) =
          c.filter (fun q => q ∉ x :: xs) := by
        rw [List.filter_filter]
        apply List.filter_congr
        intro q _
        by_cases hq : q = x <;> simp [hq]
      show x :: closeOrder n ((xs ++ c).filter (fun y => y ≠ x)) =
        (x :: closeOrder n (xs.filter (fun y => y ≠ x))) ++
          closeOrder (n + 1) (c.filter (fun q => q ∉ x :: xs))
      rw [List.filter_append, ih (xs.filter (fun y => y ≠ x)) (c.filter (fun y => y ≠ x))
        (by simp only [List.length_append]; omega), hf,
        closeOrder_fuel n (n + 1) (c.filter (fun q => q ∉ x :: xs)) (by omega) (by omega)]
      rfl


/-- C8: when every listed transaction is live, the teardown loops terminate
(any fuel above the number of list entries suffices) without a fatal
assertion and leave both lists empty.  The transactions are closed in the
order of the active list followed by the completed list, front to back, each
exactly once: its socket, when it had one, is released once and right before
its destruction, which passes the check that the socket reference is null.
The TLS identity is released last. -/
theorem teardown_closes_all (st : State)
    (hlive : AllLive st (st._activeTransactionList ++ st._completedTransactionList)) :
    ∃ st', (∀ fuel,
        st._activeTransactionList.length + st._completedTransactionList.length < fuel →
        teardown fuel st = some (.ok st')) ∧
      st'._activeTransactionList = [] ∧ st'._completedTransactionList = [] ∧
      st'.trace = st.trace ++
        closeTrace st
          (closeOrder (st._activeTransactionList ++ st._completedTransactionList).length
            (st._activeTransactionList ++ st._completedTransactionList)) ++
        [Event.x509Close st._x509] ∧
      (closeOrder (st._activeTransactionList ++ st._completedTransactionList).length
        (st._activeTransactionList ++ st._completedTransactionList)).Nodup ∧
      (∀ p, p ∈ closeOrder (st._activeTransactionList ++ st._completedTransactionList).length
          (st._activeTransactionList ++ st._completedTransactionList) ↔
        p ∈ st._activeTransactionList ∨ p ∈ st._completedTransactionList) ∧
      ((st._activeTransactionList ++ st._completedTransactionList).Nodup →
        closeOrder (st._activeTransactionList ++ st._completedTransactionList).length
          (st._activeTransactionList ++ st._completedTransactionList) =
        st._activeTransactionList ++ st._completedTransactionList) ∧
      (∀ p, p ∈ st._activeTransactionList ∨ p ∈ st._completedTransactionList →
        st'.heap p = none) ∧
      (∀ p, p ∉ st._activeTransactionList → p ∉ st._completedTransactionList →
        st'.heap p = st.heap p) := by
  have hliveA : AllLive st st._activeTransactionList :=
    fun p hp => hlive p (List.mem_append_left _ hp)
  have hc1len : (afterCloseAllActive st)._completedTransactionList.length ≤
      st._completedTransactionList.length := List.length_filter_le _ _
  have hliveC : AllLive (afterCloseAllActive st) (afterCloseAllActive st)._completedTransactionList := by
    intro p hp
    have hp' : p ∈ st._completedTransactionList.filter (fun q => q ∉ st._activeTransactionList) := hp
    obtain ⟨h1, h2⟩ := List.mem_filter.mp hp'
    have h2' : p ∉ st._activeTransactionList := by simpa using h2
    obtain ⟨t, ht⟩ := hlive p (List.mem_append_right _ h1)
    exact ⟨t, by simp [afterCloseAllActive, h2', ht]⟩
  refine ⟨{ afterCloseAllCompleted (afterCloseAllActive st) with
      trace := (afterCloseAllCompleted (afterCloseAllActive st)).trace ++
        [Event.x509Close st._x509] }, ?_, rfl, rfl, ?_, ?_, ?_, ?_, ?_, ?_⟩
  · intro fuel hfuel
    simp only [teardown]
    rw [closeAllActive_spec fuel st (by omega) hliveA]
    simp only
    rw [closeAllCompleted_spec fuel (afterCloseAllActive st) rfl (by omega) hliveC]
    rfl
  · have hsplit := closeOrder_append
      (st._activeTransactionList ++ st._completedTransactionList).length
      st._activeTransactionList st._completedTransactionList (Nat.le_refl _)
    have hla : st._activeTransactionList.length ≤
        (st._activeTransactionList ++ st._completedTransactionList).length := by
      simp
    have hlc : (st._completedTransactionList.filter
        (fun q => q ∉ st._activeTransactionList)).length ≤
        (st._activeTransactionList ++ st._completedTransactionList).length := by
      have := hc1len
      simp only [List.length_append]
      exact Nat.le_trans (List.length_filter_le _ _) (Nat.le_add_left _ _)
    rw [hsplit, closeTrace_append,
      closeOrder_fuel _ st._activeTransactionList.length _ hla (Nat.le_refl _),
      closeOrder_fuel _ (st._completedTransactionList.filter
        (fun q => q ∉ st._activeTransactionList)).length _ hlc (Nat.le_refl _)]
    have hcongr : closeTrace (afterCloseAllActive st)
        (closeOrder (afterCloseAllActive st)._completedTransactionList.length
          (afterCloseAllActive st)._completedTransactionList) =
        closeTrace st
          (closeOrder (st._completedTransactionList.filter
              (fun q => q ∉ st._activeTransactionList)).length
            (st._completedTransactionList.filter (fun q => q ∉ st._activeTransactionList))) := by
      apply closeTrace_congr
      intro p hp
      have hp1 := (mem_closeOrder _ _ (Nat.le_refl _) p).mp hp
      have hp2 : p ∉ st._activeTransactionList := by
        simpa using (List.mem_filter.mp hp1).2
      simp [afterCloseAllActive, hp2]
    show ((st.trace ++ closeTrace st _) ++ closeTrace (afterCloseAllActive st) _) ++ _ = _
    rw [hcongr]
    simp only [List.append_assoc]
  · exact nodup_closeOrder _ _ (Nat.le_refl _)
  · intro p
    rw [mem_closeOrder _ _ (Nat.le_refl _), List.mem_append]
  · exact closeOrder_of_nodup _ _ (Nat.le_refl _)
  · intro p hp
    by_cases ha : p ∈ st._activeTransactionList
    · simp [afterCloseAllCompleted, afterCloseAllActive, ha]
    · have hc : p ∈ st._completedTransactionList := hp.resolve_left ha
      simp [afterCloseAllCompleted, afterCloseAllActive, ha, hc]
  · intro p ha hc
    simp [afterCloseAllCompleted, afterCloseAllActive, ha, hc]

theorem teardown_closes_all_witness :
    ∃ st', teardown 3 demoState = some (.ok st') ∧
      st'._activeTransactionList = [] ∧ st'._completedTransactionList = [] ∧
      st'.trace = [Event.closeSocket 7, Event.destroy 0, Event.destroy 1, Event.x509Close 9] := by
  obtain ⟨st', h1, h2, h3, h4, -⟩ := teardown_closes_all demoState (by
    intro p hp
    have : p = 0 ∨ p = 1 := by simpa [demoState] using hp
    rcases this with rfl | rfl
    · exact ⟨_, rfl⟩
    · exact ⟨_, rfl⟩)
  exact ⟨st', h1 3 (by decide), h2, h3, h4.trans (by decide)⟩


/-! ## C11: the arguments of `openSocket` -/

theorem httpsSend_trace (env : SendEnv) (st : State) (url : Str) (request : SData)
    (host path : Str) (h : env.SParseURI url = some (host, path)) :
    (_httpsSend env st url request).2.trace =
      (openSocket env.tcpOpenSocket st (hostWithPort host) (tlsContext st url)).2.trace := by
  cases ho : (openSocket env.tcpOpenSocket st (hostWithPort host) (tlsContext st url)).1 with
  | none =>
    rw [httpsSend_of_open_none env st url request host path h ho]
    exact (createErrorTransaction_spec _ _ _).2.2.2.2.2.2.1
  | some s =>
    rw [httpsSend_of_open_some env st url request host path s h ho]

/-- C11: for a URL that parses into host and path, `_httpsSend` makes exactly
one `openSocket` call; its host argument is the parsed host with `":443"`
appended exactly when the parsed host contains no `':'`, and its TLS argument
is the manager's identity `_x509` exactly when the URL starts with
`"https://"`, null otherwise. -/
theorem httpsSend_open_arguments (env : SendEnv) (st : State) (url : Str) (request : SData)
    (host path : Str) (h : env.SParseURI url = some (host, path)) :
    ∃ target x509,
      (_httpsSend env st url request).2.trace =
        st.trace ++ [Event.openSocket target x509 (env.tcpOpenSocket target x509)] ∧
      (SContains host ":".toList = false → target = host ++ ":443".toList) ∧
      (SContains host ":".toList = true → target = host) ∧
      (SStartsWith url "https://".toList = true → x509 = some st._x509) ∧
      (SStartsWith url "https://".toList = false → x509 = none) := by
  refine ⟨hostWithPort host, tlsContext st url, ?_, ?_, ?_, ?_, ?_⟩
  · rw [httpsSend_trace env st url request host path h]
    rfl
  · intro hc; unfold hostWithPort; rw [hc]; rfl
  · intro hc; unfold hostWithPort; rw [hc]; rfl
  · intro hc; unfold tlsContext; rw [hc]; rfl
  · intro hc; unfold tlsContext; rw [hc]; rfl

theorem httpsSend_open_arguments_witness :
    (_httpsSend demoSendEnv (State.init 9) "https://example.test/".toList
        ⟨"GET / HTTP/1.1".toList, [], []⟩).2.trace =
      [Event.openSocket "https://example.test/".toList (some 9) (some 7)] := by
  obtain ⟨target, x509, h1, -, h3, h4, -⟩ :=
    httpsSend_open_arguments demoSendEnv (State.init 9) "https://example.test/".toList
      ⟨"GET / HTTP/1.1".toList, [], []⟩ "https://example.test/".toList [] rfl
  rw [h1, h3 (by decide), h4 (by decide)]
  rfl


/-! ## C18: a successful dispatch -/

/-- C18: for a parsable URL for which `openSocket` returns the non-null socket
`s`, `_httpsSend` returns the new transaction `brk` with outcome 0, finished 0,
socket `s` and the given request, sets the send buffer of `s` to the
serialization of the request (its other fields and the other sockets are
untouched), and puts the transaction at the front of the active list, the
previous entries following in order; the completed list and the other
transactions are unchanged. -/
theorem httpsSend_success (env : SendEnv) (st : State) (url : Str) (request : SData)
    (host path : Str) (s : Nat) (h : env.SParseURI url = some (host, path))
    (ho : (openSocket env.tcpOpenSocket st (hostWithPort host) (tlsContext st url)).1 = some s) :
    (_httpsSend env st url request).1 = st.brk ∧
    (_httpsSend env st url request).2.heap st.brk =
      some { s := some s, created := env.tCreated, finished := 0, response := 0,
             fullRequest := request, fullResponse := SData.blank } ∧
    (_httpsSend env st url request).2.sockets s =
      { st.sockets s with sendBuffer := env.serialize request } ∧
    (∀ s', s' ≠ s → (_httpsSend env st url request).2.sockets s' = st.sockets s') ∧
    (_httpsSend env st url request).2._activeTransactionList =
      st.brk :: st._activeTransactionList ∧
    (_httpsSend env st url request).2._completedTransactionList =
      st._completedTransactionList ∧
    (∀ q, q ≠ st.brk → (_httpsSend env st url request).2.heap q = st.heap q) := by
  rw [httpsSend_of_open_some env st url request host path s h ho]
  exact ⟨rfl, setAt_same _ _ _, setAt_same _ _ _, fun s' hs' => setAt_ne _ _ hs', rfl, rfl,
    fun q hq => setAt_ne _ _ hq⟩

theorem httpsSend_success_witness :
    demoSent._activeTransactionList = [0] ∧
    (demoSent.sockets 7).sendBuffer = "GET / HTTP/1.1".toList := by
  obtain ⟨-, -, h3, -, h5, -⟩ :=
    httpsSend_success demoSendEnv (State.init 9) "https://example.test/".toList
      ⟨"GET / HTTP/1.1".toList, [], []⟩ "https://example.test/".toList [] 7 rfl rfl
  exact ⟨h5, (congrArg Socket.sendBuffer h3).trans rfl⟩


/-! ## C20: a creation time in the future -/

theorem sub64_wrap {a b : Nat} (hab : a < b) (hb : b < U64) : sub64 a b = U64 - (b - a) := by
  unfold sub64 U64 at *
  omega

/-- C20: `postPoll` computes `elapsed` as the `uint64_t` difference
`(now - created) mod 2 ^ 64`.  For an active transaction of a pollable registry
created after `now` (by less than `2 ^ 64 - 300,000,000` microseconds), with no
complete response, `elapsed` wraps to `2 ^ 64 - (created - now)`, which
exceeds the timeout, and the cycle completes the transaction with 501 or 500
instead of leaving it pending, even when its socket is not past `CONNECTED`. -/
theorem postPoll_elapsed_wraps (env : PollEnv) (st : State) (na : Nat) (p : Nat)
    (t : Transaction) (s : Nat) (hwf : Pollable st) (hhook : HookContract env._onRecv)
    (hp : p ∈ st._activeTransactionList) (hq : st.heap p = some t) (hs : t.s = some s)
    (hlate : env.now < t.created) (hcreated : t.created < 2 ^ 64)
    (hgap : t.created - env.now < 2 ^ 64 - 300000000)
    (hsize : parsedSize env (afterTcpPoll env st) t s = 0) :
    sub64 env.now t.created = 2 ^ 64 - (t.created - env.now) ∧
    TIMEOUT < sub64 env.now t.created ∧
    ∃ st' na' t', postPoll env st na = .ok (st', na') ∧ st'.heap p = some t' ∧
      (t'.response = 501 ∨ t'.response = 500) ∧
      p ∈ st'._completedTransactionList ∧ p ∉ st'._activeTransactionList := by
  have hel : sub64 env.now t.created = 2 ^ 64 - (t.created - env.now) :=
    sub64_wrap hlate hcreated
  have hto : TIMEOUT < sub64 env.now t.created := by
    rw [hel, TIMEOUT_eq]
    omega
  refine ⟨hel, hto, ?_⟩
  obtain ⟨st', na', hpoll, -, hrun⟩ := postPoll_focus env st na p t s hwf hhook hp hq hs
  have hl : lostOrTimedOut env (afterTcpPoll env st) t s = true := by
    unfold lostOrTimedOut
    simp [hto]
  obtain ⟨h1, h2, h3, -⟩ := hrun.lost hq hs hsize hl
  refine ⟨st', na', _, hpoll, h1, ?_, mem_of_count_succ h3, h2⟩
  cases ((afterTcpPoll env st).sockets s).sendBuffer.isEmpty <;> simp

theorem postPoll_elapsed_wraps_witness :
    ∃ st' na' t', postPoll { demoEnv with now := 4 } demoState 0 = .ok (st', na') ∧
      st'.heap 0 = some t' ∧ (t'.response = 501 ∨ t'.response = 500) ∧
      0 ∈ st'._completedTransactionList := by
  obtain ⟨-, -, st', na', t', h1, h2, h3, h4, -⟩ :=
    postPoll_elapsed_wraps { demoEnv with now := 4 } demoState 0 0
      { Transaction.new 5 with s := some 7 } 7
      demoState_pollable (hookSetOutcome_contract 200 (by decide)) (by decide) rfl rfl
      (by decide) (by decide) (by decide) (by decide)
  exact ⟨st', na', t', h1, h2, h3, h4⟩


/-! ## C14: destruction after the socket is released -/

theorem closeTransaction_fault (st : State) (transaction : Option Nat) (e : Fault)
    (h : closeTransaction st transaction = .error e) : e = Fault.invalidPointer := by
  cases transaction with
  | none => simp [closeTransaction] at h
  | some p =>
    cases hp : st.heap p with
    | none =>
      simp only [closeTransaction, hp] at h
      exact (Except.error.inj h).symm
    | some t =>
      rw [closeTransaction_ok st p t hp] at h
      cases h

theorem closeAllActive_fault (fuel : Nat) : ∀ (st : State) (e : Fault),
    closeAllActive fuel st = some (.error e) → e = Fault.invalidPointer := by
  induction fuel with
  | zero => intro st e h; simp [closeAllActive] at h
  | succ fuel ih =>
    intro st e h
    cases hact : st._activeTransactionList with
    | nil => simp [closeAllActive, hact] at h
    | cons x xs =>
      cases hc : closeTransaction st (some x) with
      | error e' =>
        simp only [closeAllActive, hact, hc, Option.some.injEq, Except.error.injEq] at h
        exact h ▸ closeTransaction_fault st (some x) e' hc
      | ok st1 =>
        simp only [closeAllActive, hact, hc] at h
        exact ih st1 e h

theorem closeAllCompleted_fault (fuel : Nat) : ∀ (st : State) (e : Fault),
    closeAllCompleted fuel st = some (.error e) → e = Fault.invalidPointer := by
  induction fuel with
  | zero => intro st e h; simp [closeAllCompleted] at h
  | succ fuel ih =>
    intro st e h
    cases hact : st._completedTransactionList with
    | nil => simp [closeAllCompleted, hact] at h
    | cons x xs =>
      cases hc : closeTransaction st (some x) with
      | error e' =>
        simp only [closeAllCompleted, hact, hc, Option.some.injEq, Except.error.injEq] at h
        exact h ▸ closeTransaction_fault st (some x) e' hc
      | ok st1 =>
        simp only [closeAllCompleted, hact, hc] at h
        exact ih st1 e h

theorem teardown_fault (fuel : Nat) (st : State) (e : Fault)
    (h : teardown fuel st = some (.error e)) : e = Fault.invalidPointer := by
  unfold teardown at h
  cases h1 : closeAllActive fuel st with
  | none => simp [h1] at h
  | some r1 =>
    cases r1 with
    | error e1 =>
      simp only [h1, Option.some.injEq, Except.error.injEq] at h
      exact h ▸ closeAllActive_fault fuel st e1 h1
    | ok st1 =>
      simp only [h1] at h
      cases h2 : closeAllCompleted fuel st1 with
      | none => simp [h2] at h
      | some r2 =>
        cases r2 with
        | error e2 =>
          simp only [h2, Option.some.injEq, Except.error.injEq] at h
          exact h ▸ closeAllCompleted_fault fuel st1 e2 h2
        | ok st2 => simp [h2] at h

theorem deleteTransaction_ok (st : State) (p : Nat) (t : Transaction)
    (h : st.heap p = some t) (hs : t.s = none) :
    deleteTransaction st p = .ok { st with
      heap := setAt st.heap p none, trace := st.trace ++ [Event.destroy p] } := by
  simp [deleteTransaction, h, hs]

/-- C14: a transaction is never destroyed while its socket reference is
non-null.  `closeTransaction` on a live transaction hands to the destructor a
cell whose socket reference is already null, after the `closeSocket` call made
exactly when the reference was non-null, so the destruction succeeds; and
neither `closeTransaction` nor the manager teardown ever fails on the
destructor's assertion, whatever the state (their only fatal outcome is the
use of a pointer that is not live). -/
theorem destroy_after_socket_release :
    (∀ (st : State) (p : Nat) (t : Transaction), st.heap p = some t →
      ∃ st3 st', closeTransaction st (some p) = deleteTransaction st3 p ∧
        st3.heap p = some { t with s := none } ∧
        st3.trace = st.trace ++
          (match t.s with
            | some s => [Event.closeSocket s]
            | none => []) ∧
        deleteTransaction st3 p = .ok st' ∧ st'.trace = st3.trace ++ [Event.destroy p]) ∧
    (∀ (st : State) (transaction : Option Nat),
      closeTransaction st transaction ≠ .error Fault.assertFailed) ∧
    (∀ (fuel : Nat) (st : State), teardown fuel st ≠ some (.error Fault.assertFailed)) := by
  refine ⟨?_, ?_, ?_⟩
  · intro st p t h
    cases hs : t.s with
    | none =>
      refine ⟨{ st with
          _activeTransactionList := listRemove st._activeTransactionList p,
          _completedTransactionList := listRemove st._completedTransactionList p,
          heap := setAt st.heap p (some { t with s := none }) }, _, ?_, setAt_same _ _ _,
        by simp, deleteTransaction_ok _ p _ (setAt_same _ _ _) rfl, rfl⟩
      simp [closeTransaction, h, hs]
    | some s =>
      refine ⟨{ st with
          _activeTransactionList := listRemove st._activeTransactionList p,
          _completedTransactionList := listRemove st._completedTransactionList p,
          heap := setAt st.heap p (some { t with s := none }),
          trace := st.trace ++ [Event.closeSocket s] }, _, ?_, setAt_same _ _ _,
        rfl, deleteTransaction_ok _ p _ (setAt_same _ _ _) rfl, rfl⟩
      simp [closeTransaction, h, hs, closeSocket]
  · intro st transaction h
    exact absurd (closeTransaction_fault st transaction _ h) (by decide)
  · intro fuel st h
    exact absurd (teardown_fault fuel st _ h) (by decide)

theorem destroy_after_socket_release_witness :
    ∃ st3 st', closeTransaction demoState (some 0) = deleteTransaction st3 0 ∧
      st3.trace = [Event.closeSocket 7] ∧ deleteTransaction st3 0 = .ok st' := by
  obtain ⟨st3, st', h1, -, h3, h4, -⟩ :=
    destroy_after_socket_release.1 demoState 0 { Transaction.new 5 with s := some 7 } rfl
  exact ⟨st3, st', h1, h3, h4⟩


/-! ## C19: active transactions hold a socket -/

/-- C19: in every state reachable from a fresh manager by `_httpsSend`,
`_createErrorTransaction`, `postPoll` with a contract-abiding hook and
`closeTransaction`, every transaction of the active list is live and has a
non-null socket, so a poll cycle returns and never dereferences a null socket;
a live transaction with a null socket is not in the active list. -/
theorem active_sockets_non_null (st : State) (h : Reachable st) :
    (∀ p ∈ st._activeTransactionList, ∃ t s, st.heap p = some t ∧ t.s = some s) ∧
    (∀ env na, HookContract env._onRecv →
      (∃ st' na', postPoll env st na = .ok (st', na')) ∧
      postPoll env st na ≠ .error Fault.nullDereference) ∧
    (∀ p t, st.heap p = some t → t.s = none → p ∉ st._activeTransactionList) := by
  have hinv := reachable_registryInv h
  refine ⟨?_, ?_, ?_⟩
  · intro p hp
    obtain ⟨t, s, h1, h2, -⟩ := hinv.active p hp
    exact ⟨t, s, h1, h2⟩
  · intro env na hhook
    obtain ⟨st', na', h1, -⟩ := postPoll_registryInv env st na hinv hhook
    exact ⟨⟨st', na', h1⟩, by rw [h1]; exact fun h => by cases h⟩
  · intro p t hp hs hm
    obtain ⟨t', s, h1, h2, -⟩ := hinv.active p hm
    rw [hp] at h1
    rw [← Option.some.inj h1, hs] at h2
    cases h2

theorem active_sockets_non_null_witness :
    Reachable demoSent ∧ ∃ t s, demoSent.heap 0 = some t ∧ t.s = some s := by
  have hr : Reachable demoSent := Reachable.send _ _ _ (Reachable.init 9)
  obtain ⟨h1, -⟩ := active_sockets_non_null demoSent hr
  exact ⟨hr, h1 0 (by decide)⟩


/-! ## C13: a non-zero outcome is terminal -/

/-- A poll cycle from a state with the registry invariant returns, keeps the
invariant and leaves a transaction that is not in the active list alone. -/
theorem postPoll_inactive_registry (env : PollEnv) (st : State) (na : Nat) (p : Nat)
    (hinv : RegistryInv st) (hhook : HookContract env._onRecv)
    (hp : p ∉ st._activeTransactionList) :
    ∃ st' na', postPoll env st na = .ok (st', na') ∧ RegistryInv st' ∧ SameView p st st' := by
  have hinit : RegistryLoopInv [] st._activeTransactionList (afterTcpPoll env st) ∧
      SameView p st (afterTcpPoll env st) :=
    ⟨⟨⟨rfl, hinv.nodup, fun q hq => by
        obtain ⟨t, s, h1, h2, -⟩ := hinv.active q hq
        exact ⟨t, s, h1, h2⟩⟩,
      fun q hq => by
        obtain ⟨t, s, h1, -, h3⟩ := hinv.active q hq
        exact ⟨t, h1, h3⟩,
      hinv.completed, hinv.allocated⟩, ⟨rfl, Iff.rfl, rfl, Iff.rfl⟩⟩
  obtain ⟨st', na', pre', hl, ⟨hloop, hact, hcomp, halloc⟩, hview⟩ :=
    postPollLoop_rule env (fun pre suf st1 _ => RegistryLoopInv pre suf st1 ∧ SameView p st st1)
      (fun pre q suf st1 na1 h => by
        obtain ⟨hreg, hview⟩ := h
        obtain ⟨st2, na2, hb, pre2, hreg2⟩ :=
          postPollBody_registryInv env hhook pre q suf st1 na1 hreg
        obtain ⟨tq, sq, -, -, -, -, st2', na2', hb', hstep, -⟩ :=
          postPollBody_loopInv env st1 na1 pre suf q hreg.1 hhook
        rw [hb] at hb'
        obtain ⟨rfl, rfl⟩ := body_result_eq hb'
        have hpq : p ≠ q := by
          rintro rfl
          exact hp (hview.active_iff.mp (by rw [hreg.1.active_eq]; simp))
        exact ⟨st2, na2, hb, pre2, hreg2, hview.trans (hstep.sameView hreg.1.active_eq hpq)⟩)
      st._activeTransactionList [] (afterTcpPoll env st) na hinit
  have hlist : st'._activeTransactionList = pre' := by simpa using hloop.active_eq
  refine ⟨st', na', hl, ⟨?_, ?_, hcomp, halloc⟩, hview⟩
  · rw [hlist]; simpa using hloop.nodup
  · intro q hq
    rw [hlist] at hq
    obtain ⟨t, s, h1, h2⟩ := hloop.live q (by simpa using hq)
    obtain ⟨t', h1', hz⟩ := hact q (by simpa using hq)
    rw [h1] at h1'
    exact ⟨t, s, h1, h2, (Option.some.inj h1') ▸ hz⟩

/-- Wait cycles leave a transaction that is not in the active list alone. -/
theorem waitCycles_inactive (p : Nat) (cycles : List (PollEnv × Nat)) :
    ∀ st, RegistryInv st → (∀ c ∈ cycles, HookContract c.1._onRecv) →
      p ∉ st._activeTransactionList →
      ∃ st', waitCycles cycles st = .ok st' ∧ SameView p st st' := by
  induction cycles with
  | nil => intro st _ _ _; exact ⟨st, rfl, SameView.refl _ _⟩
  | cons c cycles ih =>
    intro st hinv hh hp
    obtain ⟨env, na⟩ := c
    obtain ⟨st1, na1, h1, hinv1, hv1⟩ :=
      postPoll_inactive_registry env st na p hinv (hh (env, na) (List.mem_cons_self _ _)) hp
    obtain ⟨st', h2, hv2⟩ := ih st1 hinv1 (fun c hc => hh c (List.mem_cons_of_mem _ hc))
      (fun hm => hp (hv1.active_iff.mp hm))
    refine ⟨st', ?_, hv1.trans hv2⟩
    simp only [waitCycles, prePoll, h1]
    exact h2

theorem RegistryInv.disjoint {st : State} (h : RegistryInv st) {p : Nat}
    (hp : p ∈ st._completedTransactionList) : p ∉ st._activeTransactionList := by
  intro ha
  obtain ⟨t, -, h1, -, h3⟩ := h.active p ha
  obtain ⟨t', h1', h3'⟩ := h.completed p hp
  rw [h1] at h1'
  exact h3' (Option.some.inj h1' ▸ h3)

/-- What `_httpsSend` does to the cells and lists that exist already. -/
theorem httpsSend_frame (env : SendEnv) (st : State) (url : Str) (request : SData) :
    (∀ q, q ≠ st.brk → (_httpsSend env st url request).2.heap q = st.heap q) ∧
    (∀ q, q ∈ st._completedTransactionList →
      q ∈ (_httpsSend env st url request).2._completedTransactionList) ∧
    (∀ q, q ∈ (_httpsSend env st url request).2._activeTransactionList →
      q = st.brk ∨ q ∈ st._activeTransactionList) := by
  cases hparse : env.SParseURI url with
  | none =>
    rw [httpsSend_of_parse_none env st url request hparse]
    obtain ⟨-, -, h3, h4, -, -, -, h8⟩ := createErrorTransaction_spec st env.tCreated env.tFinished
    refine ⟨h8, fun q hq => by rw [h3]; exact List.mem_cons_of_mem _ hq,
      fun q hq => Or.inr (by rw [h4] at hq; exact hq)⟩
  | some hp =>
    obtain ⟨host, path⟩ := hp
    cases ho : (openSocket env.tcpOpenSocket st (hostWithPort host) (tlsContext st url)).1 with
    | none =>
      rw [httpsSend_of_open_none env st url request host path hparse ho]
      obtain ⟨-, -, h3, h4, -, -, -, h8⟩ := createErrorTransaction_spec
        (openSocket env.tcpOpenSocket st (hostWithPort host) (tlsContext st url)).2
        env.tCreated env.tFinished
      refine ⟨h8, fun q hq => by rw [h3]; exact List.mem_cons_of_mem _ hq,
        fun q hq => Or.inr (by rw [h4] at hq; exact hq)⟩
    | some s =>
      rw [httpsSend_of_open_some env st url request host path s hparse ho]
      refine ⟨fun q hq => setAt_ne _ _ hq, fun q hq => hq, fun q hq => ?_⟩
      rcases List.mem_cons.mp hq with h | h
      · exact Or.inl h
      · exact Or.inr h

/-- C13: a non-zero outcome is terminal.  In a reachable state, a transaction
of the completed list has a non-zero outcome; `postPoll` (with a
contract-abiding hook), `_httpsSend` and `_createErrorTransaction` leave its
cell (outcome and `finished` included) unchanged, keep it in the completed list
and never put it in the active list; `closeTransaction` either destroys it or
leaves it as it is. -/
theorem outcome_terminal (st : State) (h : Reachable st) (p : Nat)
    (hp : p ∈ st._completedTransactionList) :
    ∃ t, st.heap p = some t ∧ t.response ≠ 0 ∧
      (∀ env na, HookContract env._onRecv →
        ∃ st' na', postPoll env st na = .ok (st', na') ∧ st'.heap p = some t ∧
          p ∈ st'._completedTransactionList ∧
          st'._completedTransactionList.count p = st._completedTransactionList.count p ∧
          p ∉ st'._activeTransactionList) ∧
      (∀ env url request,
        (_httpsSend env st url request).2.heap p = some t ∧
        p ∈ (_httpsSend env st url request).2._completedTransactionList ∧
        p ∉ (_httpsSend env st url request).2._activeTransactionList) ∧
      (∀ a b,
        (_createErrorTransaction st a b).2.heap p = some t ∧
        p ∈ (_createErrorTransaction st a b).2._completedTransactionList ∧
        p ∉ (_createErrorTransaction st a b).2._activeTransactionList) ∧
      (∀ transaction st', closeTransaction st transaction = .ok st' →
        (transaction = some p ∧ st'.heap p = none ∧ p ∉ st'._completedTransactionList ∧
          p ∉ st'._activeTransactionList) ∨
        (st'.heap p = some t ∧ p ∈ st'._completedTransactionList ∧
          p ∉ st'._activeTransactionList)) := by
  have hinv := reachable_registryInv h
  obtain ⟨t, ht, hnz⟩ := hinv.completed p hp
  have hna : p ∉ st._activeTransactionList := hinv.disjoint hp
  have hbrk : p ≠ st.brk := Nat.ne_of_lt (hinv.allocated p t ht)
  refine ⟨t, ht, hnz, ?_, ?_, ?_, ?_⟩
  · intro env na hhook
    obtain ⟨st', na', h1, -, hv⟩ := postPoll_inactive_registry env st na p hinv hhook hna
    refine ⟨st', na', h1, by rw [hv.heap_eq, ht], ?_, hv.completed_eq,
      fun hm => hna (hv.active_iff.mp hm)⟩
    exact List.count_pos_iff.mp (by rw [hv.completed_eq]; exact List.count_pos_iff.mpr hp)
  · intro env url request
    obtain ⟨h1, h2, h3⟩ := httpsSend_frame env st url request
    refine ⟨by rw [h1 p hbrk, ht], h2 p hp, fun hm => ?_⟩
    rcases h3 p hm with e | e
    · exact hbrk e
    · exact hna e
  · intro a b
    obtain ⟨-, -, h3, h4, -, -, -, h8⟩ := createErrorTransaction_spec st a b
    exact ⟨by rw [h8 p hbrk, ht], by rw [h3]; exact List.mem_cons_of_mem _ hp,
      by rw [h4]; exact hna⟩
  · intro transaction st' hc
    cases transaction with
    | none =>
      have : st = st' := by
        simp only [closeTransaction] at hc
        exact Except.ok.inj hc
      subst this
      exact Or.inr ⟨ht, hp, hna⟩
    | some q =>
      cases hq : st.heap q with
      | none => simp [closeTransaction, hq] at hc
      | some tq =>
        rw [closeTransaction_ok st q tq hq] at hc
        have hst := Except.ok.inj hc
        subst hst
        by_cases hpq : p = q
        · subst hpq
          exact Or.inl ⟨rfl, setAt_same _ _ _, by simp [mem_listRemove], by simp [mem_listRemove]⟩
        · exact Or.inr ⟨(setAt_ne _ _ hpq).trans ht, mem_listRemove.mpr ⟨hp, hpq⟩,
            fun hm => hna (mem_listRemove.mp hm).1⟩

theorem outcome_terminal_witness :
    Reachable demoFailed ∧ ∃ t, demoFailed.heap 0 = some t ∧ t.response ≠ 0 := by
  have hr : Reachable demoFailed := Reachable.error 1 2 (Reachable.init 9)
  obtain ⟨t, h1, h2, -⟩ := outcome_terminal demoFailed hr 0 (by decide)
  exact ⟨hr, t, h1, h2⟩


/-! ## C15: a failed dispatch does not verify -/

theorem verifyFullResponse_blank (code : Int) : verifyFullResponse code SData.blank = false := by
  unfold verifyFullResponse
  split
  · rfl
  · split
    · rfl
    · rfl

/-- C15: when dispatch fails from a reachable state (the URL does not parse,
or it parses and `openSocket` returns null), the transaction returned by
`_httpsSend`, after any number of `prePoll` / `postPoll` cycles with
contract-abiding hooks, has outcome 503, which lies in 1..999, and a response
message that is still empty, so `verifyFullResponse` is false on it. -/
theorem dispatch_failure_not_verified (env : SendEnv) (st : State) (url : Str)
    (request : SData) (hreach : Reachable st)
    (hfail : env.SParseURI url = none ∨
      ∃ host path, env.SParseURI url = some (host, path) ∧
        (openSocket env.tcpOpenSocket st (hostWithPort host) (tlsContext st url)).1 = none)
    (cycles : List (PollEnv × Nat)) (hhooks : ∀ c ∈ cycles, HookContract c.1._onRecv) :
    ∃ st' t, waitCycles cycles (_httpsSend env st url request).2 = .ok st' ∧
      st'.heap (_httpsSend env st url request).1 = some t ∧
      t.response = 503 ∧ 0 < t.response ∧ t.response ≤ 999 ∧
      t.fullResponse.empty = true ∧
      verifyFullResponse t.response t.fullResponse = false := by
  have hinv := reachable_registryInv hreach
  have hinv2 : RegistryInv (_httpsSend env st url request).2 :=
    registryInv_httpsSend env st url request hinv
  have key : (_httpsSend env st url request).2.heap (_httpsSend env st url request).1 =
        some { Transaction.new env.tCreated with response := 503, finished := env.tFinished } ∧
      (_httpsSend env st url request).1 ∈
        (_httpsSend env st url request).2._completedTransactionList := by
    rcases hfail with h | ⟨host, path, h, ho⟩
    · rw [httpsSend_of_parse_none env st url request h]
      obtain ⟨h1, h2, h3, -⟩ := createErrorTransaction_spec st env.tCreated env.tFinished
      rw [h1, h2, h3]
      exact ⟨rfl, List.mem_cons_self _ _⟩
    · rw [httpsSend_of_open_none env st url request host path h ho]
      obtain ⟨h1, h2, h3, -⟩ := createErrorTransaction_spec
        (openSocket env.tcpOpenSocket st (hostWithPort host) (tlsContext st url)).2
        env.tCreated env.tFinished
      rw [h1, h2, h3]
      exact ⟨rfl, List.mem_cons_self _ _⟩
  obtain ⟨hheap, hmem⟩ := key
  obtain ⟨st', hcyc, hv⟩ := waitCycles_inactive (_httpsSend env st url request).1 cycles
    (_httpsSend env st url request).2 hinv2 hhooks (hinv2.disjoint hmem)
  refine ⟨st', { Transaction.new env.tCreated with response := 503, finished := env.tFinished },
    hcyc, by rw [hv.heap_eq, hheap], rfl, ?_, ?_, ?_, ?_⟩
  · show (0 : Int) < 503
    decide
  · show (503 : Int) ≤ 999
    decide
  · show SData.blank.empty = true
    decide
  · exact verifyFullResponse_blank _

theorem dispatch_failure_not_verified_witness :
    ∃ st' t, waitCycles [(demoEnv, 0), (demoClosedEnv, 0)]
        (_httpsSend ⟨fun _ => none, fun _ _ => none, fun d => d.methodLine, 10, 11⟩ demoSent
          "nonsense".toList SData.blank).2 = .ok st' ∧
      st'.heap 1 = some t ∧ verifyFullResponse t.response t.fullResponse = false := by
  obtain ⟨st', t, h1, h2, -, -, -, -, h7⟩ :=
    dispatch_failure_not_verified
      ⟨fun _ => none, fun _ _ => none, fun d => d.methodLine, 10, 11⟩ demoSent
      "nonsense".toList SData.blank (Reachable.send _ _ _ (Reachable.init 9)) (Or.inl rfl)
      [(demoEnv, 0), (demoClosedEnv, 0)] (by
        intro c hc
        have : c = (demoEnv, 0) ∨ c = (demoClosedEnv, 0) := by simpa using hc
        rcases this with rfl | rfl
        · exact hookSetOutcome_contract 200 (by decide)
        · exact hookSetOutcome_contract 200 (by decide))
  exact ⟨st', t, h1, h2, h7⟩


/-! ## C12: the assertion on the hook's outcome -/

/-- The iteration on a transaction whose complete response passes the test of
line 89, for any position of the iterator. -/
theorem postPollBody_hook_eq (env : PollEnv) (k : Nat) (st : State) (na : Nat)
    (q : Nat) (t : Transaction) (s : Nat)
    (hget : st._activeTransactionList.get? (itIndex st k) = some q)
    (hq : st.heap q = some t) (hs : t.s = some s)
    (hsize : parsedSize env st t s ≠ 0)
    (hgate : successOrContent (parsedResponse env st t s) = true) :
    postPollBody env k st na =
      match env._onRecv (hookInput env st q t s) q with
      | .error e => .error e
      | .ok (true, st) => .ok (st, na)
      | .ok (false, st) =>
        match st.heap q with
        | none => .error .invalidPointer
        | some t =>
          if t.response = 0 then .error .assertFailed
          else (switchLists st k q).map (fun st => (st, na)) := by
  unfold parsedSize at hsize
  unfold successOrContent parsedResponse at hgate
  simp only [postPollBody, hget, hq]
  simp only [hs]
  rw [if_pos hsize]
  simp only [hgate, if_true]
  simp only [hookInput, parsedSize, parsedResponse, hs]

theorem switchLists_fault (st : State) (k q : Nat) (e : Fault)
    (h : switchLists st k q = .error e) : e = Fault.invalidPointer := by
  unfold switchLists at h
  split at h
  · exact (Except.error.inj h).symm
  · split at h <;> cases h

theorem switchLists_map_fault (st : State) (k q : Nat) (na : Nat) (e : Fault)
    (h : (switchLists st k q).map (fun st => (st, na)) = .error e) :
    e = Fault.invalidPointer := by
  cases hsw : switchLists st k q with
  | error e' =>
    rw [hsw] at h
    have : e' = e := Except.error.inj h
    exact this ▸ switchLists_fault st k q e' hsw
  | ok st' =>
    rw [hsw] at h
    cases h

/-- An iteration that does not invoke the hook never fails on an assertion. -/
theorem postPollBody_nohook_fault (env : PollEnv) (k : Nat) (st : State) (na : Nat)
    (q : Nat) (t : Transaction) (s : Nat)
    (hget : st._activeTransactionList.get? (itIndex st k) = some q)
    (hq : st.heap q = some t) (hs : t.s = some s)
    (hno : parsedSize env st t s = 0 ∨ successOrContent (parsedResponse env st t s) = false)
    (e : Fault) (h : postPollBody env k st na = .error e) : e = Fault.invalidPointer := by
  unfold parsedSize successOrContent parsedResponse at hno
  simp only [postPollBody, hget, hq] at h
  simp only [hs] at h
  by_cases hsize : (env.deserialize t.fullResponse (st.sockets s).recvBuffer).1 = 0
  · rw [if_neg (not_not.mpr hsize)] at h
    split at h
    · exact switchLists_map_fault _ _ _ _ _ h
    · exact switchLists_map_fault _ _ _ _ _ h
  · rw [if_pos hsize] at h
    have hg := hno.resolve_left hsize
    simp only [hg] at h
    exact switchLists_map_fault _ _ _ _ _ h

/-- The assertion of `postPoll` fires in an iteration exactly when the hook is
invoked, returns "not closed" and leaves the outcome at 0. -/
theorem postPollBody_assert_iff (env : PollEnv) (k : Nat) (st : State) (na : Nat)
    (hnf : ∀ st p, env._onRecv st p ≠ .error Fault.assertFailed) :
    postPollBody env k st na = .error Fault.assertFailed ↔ HookLeftPending env k st := by
  constructor
  · intro h
    cases hget : st._activeTransactionList.get? (itIndex st k) with
    | none => simp only [postPollBody, hget] at h; cases h
    | some q =>
      cases hq : st.heap q with
      | none => simp only [postPollBody, hget, hq] at h; cases h
      | some t =>
        cases hs : t.s with
        | none => simp only [postPollBody, hget, hq, hs] at h; cases h
        | some s =>
          by_cases hsize : parsedSize env st t s = 0
          · exact absurd (postPollBody_nohook_fault env k st na q t s hget hq hs (Or.inl hsize)
              _ h) (by decide)
          · cases hgate : successOrContent (parsedResponse env st t s) with
            | false =>
              exact absurd (postPollBody_nohook_fault env k st na q t s hget hq hs
                (Or.inr hgate) _ h) (by decide)
            | true =>
              rw [postPollBody_hook_eq env k st na q t s hget hq hs hsize hgate] at h
              cases hh : env._onRecv (hookInput env st q t s) q with
              | error e =>
                rw [hh] at h
                have : e = Fault.assertFailed := Except.error.inj h
                exact absurd (this ▸ hh) (hnf _ _)
              | ok r =>
                obtain ⟨closed, st3⟩ := r
                cases closed with
                | true => rw [hh] at h; cases h
                | false =>
                  rw [hh] at h
                  cases h3 : st3.heap q with
                  | none => simp only [h3] at h; cases h
                  | some t3 =>
                    simp only [h3] at h
                    by_cases hz : t3.response = 0
                    · exact ⟨q, t, s, st3, t3, hget, hq, hs, hsize, hgate, hh, h3, hz⟩
                    · rw [if_neg hz] at h
                      exact absurd (switchLists_map_fault _ _ _ _ _ h) (by decide)
  · rintro ⟨q, t, s, st3, t3, hget, hq, hs, hsize, hgate, hh, h3, hz⟩
    rw [postPollBody_hook_eq env k st na q t s hget hq hs hsize hgate, hh]
    simp only [h3, hz, if_true]

/-- The assertion of `postPoll` fires in the loop exactly when, for some
transaction processed, the hook is invoked, returns "not closed" and leaves the
outcome at 0. -/
theorem postPollLoop_assert_iff (env : PollEnv)
    (hnf : ∀ st p, env._onRecv st p ≠ .error Fault.assertFailed) (k : Nat) :
    ∀ st na, postPollLoop env k st na = .error Fault.assertFailed ↔
      AssertionFires env k st na := by
  induction k with
  | zero =>
    intro st na
    simp only [postPollLoop, AssertionFires, iff_false]
    exact fun h => by cases h
  | succ k ih =>
    intro st na
    simp only [postPollLoop, AssertionFires]
    rw [← postPollBody_assert_iff env k st na hnf]
    cases hb : postPollBody env k st na with
    | error e =>
      constructor
      · intro h
        exact Or.inl h
      · rintro (h | ⟨_, _, h, _⟩)
        · exact h
        · cases h
    | ok r =>
      obtain ⟨st2, na2⟩ := r
      constructor
      · intro h
        exact Or.inr ⟨st2, na2, rfl, (ih st2 na2).mp h⟩
      · rintro (h | ⟨st2', na2', h, hf⟩)
        · cases h
        · obtain ⟨rfl, rfl⟩ := body_result_eq h
          exact (ih _ _).mpr hf

theorem count_listRemove_self (l : List Nat) (p : Nat) : (listRemove l p).count p = 0 :=
  List.count_eq_zero.mpr (fun h => (mem_listRemove.mp h).2 rfl)

/-- Outcome of a cycle for a transaction whose complete response passes the
test of line 89 and on which the hook returns "closed": the iteration returns
the state `st3` the hook left, in which the transaction is destroyed and in
neither list, and the transaction looks the same in `st3` and in the final
state. -/
theorem FocusRun.hook_closed {env : PollEnv} {st0 : State} {p : Nat} {t : Transaction}
    {s : Nat} {st' : State} (h : FocusRun env st0 p t s st')
    (hq : st0.heap p = some t) (hs : t.s = some s)
    (hsize : parsedSize env st0 t s ≠ 0)
    (hgate : successOrContent (parsedResponse env st0 t s) = true)
    (hhook : HookContract env._onRecv)
    (hclosed : ∀ st1, st1.heap p = some { t with
        fullResponse := parsedResponse env st0 t s, finished := env.now } →
      ∃ st3, env._onRecv st1 p = .ok (true, st3)) :
    ∃ sti nai prei b st3, SameView p st0 sti ∧ sti.sockets s = st0.sockets s ∧
      sti._activeTransactionList = prei ++ p :: b ∧
      env._onRecv (hookInput env sti p t s) p = .ok (true, st3) ∧
      postPollBody env b.length sti nai = .ok (st3, nai) ∧
      SameView p st3 st' ∧
      st3.heap p = none ∧ p ∉ st3._activeTransactionList ∧
      p ∉ st3._completedTransactionList ∧
      st3.trace = sti.trace ++ Event.onRecv p :: closeEvents p (some s) := by
  obtain ⟨sti, nai, prei, b, stj, naj, hv1, hsock, hact, hpre, hsuf, hb, -, hv2⟩ := h
  have hqi : sti.heap p = some t := by rw [hv1.heap_eq, hq]
  have hpr := parsedResponse_congr env t hsock
  have hsz : parsedSize env sti t s ≠ 0 := by rw [parsedSize_congr env t hsock]; exact hsize
  have hg : successOrContent (parsedResponse env sti t s) = true := by rw [hpr]; exact hgate
  have hin : (hookInput env sti p t s).heap p = some { t with
      fullResponse := parsedResponse env st0 t s, finished := env.now } := by
    rw [hookInput_heap, hpr]
  obtain ⟨st3, h3⟩ := hclosed _ hin
  have hh : env._onRecv (hookInput env sti p t s) p = hookClose (hookInput env sti p t s) p := by
    rcases hhook (hookInput env sti p t s) p with ⟨n, -, hset⟩ | hcl
    · rw [h3, hookSetOutcome] at hset
      have := congrArg Prod.fst (Except.ok.inj hset)
      cases this
    · exact hcl
  have hb3 : postPollBody env b.length sti nai = .ok (st3, nai) := by
    rw [postPollBody_hook env sti nai prei b p t s hact hqi hs hsz hg, h3]
  have hbc := postPollBody_hook_close env sti nai prei b p t s hact hqi hs hpre hsuf hsz hg hh
  rw [hb3] at hb hbc
  obtain ⟨rfl, -⟩ := body_result_eq hb
  obtain ⟨he, -⟩ := body_result_eq hbc
  refine ⟨sti, nai, prei, b, st3, hv1, hsock, hact, h3, hb3, hv2, ?_, ?_, ?_, ?_⟩
  · rw [he]; exact setAt_same _ _ _
  · rw [he]; simp [hpre, hsuf]
  · rw [he]; exact fun hm => (mem_listRemove.mp hm).2 rfl
  · rw [he]


theorem hookClose_ok (st : State) (p : Nat) (t : Transaction) (h : st.heap p = some t) :
    hookClose st p = .ok (true,
      { st with
        _activeTransactionList := listRemove st._activeTransactionList p,
        _completedTransactionList := listRemove st._completedTransactionList p,
        heap := setAt st.heap p none,
        trace := st.trace ++ closeEvents p t.s }) := by
  unfold hookClose
  rw [closeTransaction_ok st p t h]

theorem hookClose_no_assert (st : State) (p : Nat) :
    hookClose st p ≠ .error Fault.assertFailed := by
  intro h
  unfold hookClose at h
  cases hc : closeTransaction st (some p) with
  | error e =>
    rw [hc] at h
    have he := closeTransaction_fault st (some p) e hc
    rw [he] at h
    cases h
  | ok st2 =>
    rw [hc] at h
    cases h

/-- C12: provided the hook itself does not fail on an assertion, `postPoll`
fails on its assertion if and only if, for some active transaction processed
in the cycle, the hook was invoked, returned "not closed" and left the outcome
at 0.  When the hook returns "closed", the iteration ends with exactly the
state the hook left.  For the whole cycle, on a pollable registry with a
contract-abiding hook: when the hook returns "closed" on an active transaction
whose complete response passes the test of line 89, `postPoll` returns, and the
transaction is in the final state as the hook left it: its cell is destroyed
and was neither read nor written again, it is not in the active list, and it
was not added to the completed list. -/
theorem postPoll_assertion (env : PollEnv)
    (hnf : ∀ st p, env._onRecv st p ≠ .error Fault.assertFailed) :
    (∀ st na, postPoll env st na = .error Fault.assertFailed ↔
      AssertionFires env st._activeTransactionList.length (afterTcpPoll env st) na) ∧
    (∀ k st na q t s st3,
      st._activeTransactionList.get? (itIndex st k) = some q →
      st.heap q = some t → t.s = some s →
      parsedSize env st t s ≠ 0 → successOrContent (parsedResponse env st t s) = true →
      env._onRecv (hookInput env st q t s) q = .ok (true, st3) →
      postPollBody env k st na = .ok (st3, na)) ∧
    (∀ st na p t s, Pollable st → HookContract env._onRecv →
      p ∈ st._activeTransactionList → st.heap p = some t → t.s = some s →
      parsedSize env (afterTcpPoll env st) t s ≠ 0 →
      successOrContent (parsedResponse env (afterTcpPoll env st) t s) = true →
      (∀ st1, st1.heap p = some { t with
          fullResponse := parsedResponse env (afterTcpPoll env st) t s, finished := env.now } →
        ∃ st3, env._onRecv st1 p = .ok (true, st3)) →
      ∃ st' na' sti st3, postPoll env st na = .ok (st', na') ∧
        SameView p (afterTcpPoll env st) sti ∧
        env._onRecv (hookInput env sti p t s) p = .ok (true, st3) ∧
        SameView p st3 st' ∧
        st3.trace = sti.trace ++ Event.onRecv p :: closeEvents p (some s) ∧
        st'.heap p = none ∧ p ∉ st'._activeTransactionList ∧
        p ∉ st'._completedTransactionList) := by
  refine ⟨fun st na => postPollLoop_assert_iff env hnf _ _ _, ?_, ?_⟩
  · intro k st na q t s st3 hget hq hs hsize hgate hh
    rw [postPollBody_hook_eq env k st na q t s hget hq hs hsize hgate, hh]
  · intro st na p t s hwf hhook hp hq hs hsize hgate hclosed
    obtain ⟨st', na', hpoll, -, hrun⟩ := postPoll_focus env st na p t s hwf hhook hp hq hs
    obtain ⟨sti, nai, prei, b, st3, hv1, -, -, h3, -, hv2, hnone, hna, hnc, htr⟩ :=
      hrun.hook_closed hq hs hsize hgate hhook hclosed
    refine ⟨st', na', sti, st3, hpoll, hv1, h3, hv2, htr, by rw [hv2.heap_eq, hnone],
      fun hm => hna (hv2.active_iff.mp hm), fun hm => hnc ?_⟩
    exact List.count_pos_iff.mp (by rw [← hv2.completed_eq]; exact List.count_pos_iff.mpr hm)

theorem postPoll_assertion_witness :
    AssertionFires demoIdleEnv 1 (afterTcpPoll demoIdleEnv demoState) 0 ∧
    ∃ st' na', postPoll demoCloseEnv demoState 0 = .ok (st', na') ∧
      st'.heap 0 = none ∧ 0 ∉ st'._activeTransactionList ∧
      0 ∉ st'._completedTransactionList := by
  refine ⟨((postPoll_assertion demoIdleEnv (fun _ _ h => by cases h)).1 demoState 0).mp rfl, ?_⟩
  obtain ⟨st', na', -, -, h1, -, -, -, -, h2, h3, h4⟩ :=
    (postPoll_assertion demoCloseEnv hookClose_no_assert).2.2 demoState 0 0
      { Transaction.new 5 with s := some 7 } 7 demoState_pollable hookClose_contract
      (by decide) rfl rfl (by decide) (by decide)
      (fun st1 h1 => ⟨_, hookClose_ok st1 0 _ h1⟩)
  exact ⟨st', na', h1, h2, h3, h4⟩


/-! ## C17: the shape of the lists after a cycle -/

theorem HookSetsOutcome.contract {hook : State → Nat → Except Fault (Bool × State)}
    (h : HookSetsOutcome hook) : HookContract hook := fun st p => Or.inl (h st p)

/-- With a hook that never returns "closed", the visited transaction is still
live after the iteration. -/
theorem postPollBody_keeps_live (env : PollEnv) (st : State) (na : Nat) (pre suf : List Nat)
    (q : Nat) (t : Transaction) (s : Nat)
    (hact : st._activeTransactionList = pre ++ q :: suf)
    (hq : st.heap q = some t) (hs : t.s = some s)
    (hhook : HookSetsOutcome env._onRecv) (st2 : State) (na2 : Nat)
    (hb : postPollBody env suf.length st na = .ok (st2, na2)) :
    ∃ t2, st2.heap q = some t2 := by
  by_cases hsize : parsedSize env st t s = 0
  · cases hlost : lostOrTimedOut env st t s with
    | true =>
      rw [postPollBody_lost env st na pre suf q t s hact hq hs hsize hlost] at hb
      obtain ⟨rfl, -⟩ := body_result_eq hb
      exact ⟨_, setAt_same _ _ _⟩
    | false =>
      rw [postPollBody_pending env st na pre suf q t s hact hq hs hsize hlost] at hb
      obtain ⟨rfl, -⟩ := body_result_eq hb
      exact ⟨_, setAt_same _ _ _⟩
  · cases hgate : successOrContent (parsedResponse env st t s) with
    | false =>
      rw [postPollBody_protocolError env st na pre suf q t s hact hq hs hsize hgate] at hb
      obtain ⟨rfl, -⟩ := body_result_eq hb
      exact ⟨_, setAt_same _ _ _⟩
    | true =>
      obtain ⟨n, hn, hh⟩ := hhook (hookInput env st q t s) q
      rw [postPollBody_hook_set env st na pre suf q t s n hact hq hs hsize hgate hh hn] at hb
      obtain ⟨rfl, -⟩ := body_result_eq hb
      exact ⟨_, setAt_same _ _ _⟩

theorem outcomeZero_congr {st st2 : State} {r : Nat} (h : st2.heap r = st.heap r) :
    outcomeZero st2 r = outcomeZero st r := by
  unfold outcomeZero; rw [h]

theorem outcomeSet_congr {st st2 : State} {r : Nat} (h : st2.heap r = st.heap r) :
    outcomeSet st2 r = outcomeSet st r := by
  unfold outcomeSet; rw [h]

theorem outcomeSet_eq_not {st : State} {r : Nat} {t : Transaction} (h : st.heap r = some t) :
    outcomeSet st r = !outcomeZero st r := by
  unfold outcomeSet outcomeZero
  rw [h]
  by_cases hz : t.response = 0 <;> simp [hz]

/-- An iteration of the poll loop re-establishes the invariant of the list shape. -/
theorem postPollBody_listInv (env : PollEnv) (st0 : State)
    (hnd0 : st0._activeTransactionList.Nodup) (hhook : HookSetsOutcome env._onRecv)
    (pre : List Nat) (q : Nat) (suf : List Nat) (st : State) (na : Nat)
    (hinv : ListInv st0 pre (q :: suf) st) :
    ∃ st2 na2, postPollBody env suf.length st na = .ok (st2, na2) ∧
      ∃ pre2, ListInv st0 pre2 suf st2 := by
  obtain ⟨hloop, visited, hvis, hpre, hcomp, hlive⟩ := hinv
  obtain ⟨t, s, hq, hs, -, -, st2, na2, hb, hstep, hcases⟩ :=
    postPollBody_cases env st na pre suf q hloop hhook.contract
  refine ⟨st2, na2, hb, ?_⟩
  obtain ⟨t2', ht2'⟩ := postPollBody_keeps_live env st na pre suf q t s hloop.active_eq hq hs
    hhook st2 na2 hb
  have hqv : q ∉ visited := by
    rw [hvis] at hnd0
    exact fun hm => (List.nodup_append.mp hnd0).2.2 hm (List.mem_cons_self _ _)
  have hother : ∀ r ∈ visited, st2.heap r = st.heap r :=
    fun r hr => hstep.heap_other r (fun e => hqv (e ▸ hr))
  have hz : visited.filter (outcomeZero st2) = visited.filter (outcomeZero st) :=
    List.filter_congr (fun r hr => outcomeZero_congr (hother r hr))
  have hs2 : visited.filter (outcomeSet st2) = visited.filter (outcomeSet st) :=
    List.filter_congr (fun r hr => outcomeSet_congr (hother r hr))
  have hvis2 : st0._activeTransactionList = (visited ++ [q]) ++ suf := by
    rw [hvis]; simp
  have hlive2 : ∀ r ∈ visited ++ [q], ∃ t, st2.heap r = some t := by
    intro r hr
    rcases List.mem_append.mp hr with h | h
    · rw [hother r h]; exact hlive r h
    · have : r = q := by simpa using h
      subst this
      exact ⟨t2', ht2'⟩
  rcases hcases with ⟨hl, hc, t2, ht2, hzero⟩ | ⟨hl, hc, t2, ht2, hnz⟩ | ⟨-, -, hnone⟩
  · have h0 : outcomeZero st2 q = true := by simp [outcomeZero, ht2, hzero]
    have h1 : outcomeSet st2 q = false := by simp [outcomeSet, ht2, hzero]
    refine ⟨pre ++ [q], hl, visited ++ [q], hvis2, ?_, ?_, hlive2⟩
    · rw [List.filter_append, hz, ← hpre]
      simp [List.filter_cons, h0]
    · rw [hc, hcomp, List.filter_append, hs2]
      simp [List.filter_cons, h1]
  · have h0 : outcomeZero st2 q = false := by simp [outcomeZero, ht2, hnz]
    have h1 : outcomeSet st2 q = true := by simp [outcomeSet, ht2, hnz]
    refine ⟨pre, hl, visited ++ [q], hvis2, ?_, ?_, hlive2⟩
    · rw [List.filter_append, hz, ← hpre]
      simp [List.filter_cons, h0]
    · rw [hc, hcomp, List.filter_append, hs2]
      simp [List.filter_cons, h1]
  · rw [hnone] at ht2'
    cases ht2'

/-- C17: on a registry whose active list is duplicate-free and holds live
transactions with a socket, with a hook that never returns "closed",
`postPoll` returns; the active list is then the old active list restricted to
the transactions whose outcome is still 0, in their original order, and the
completed list is the old completed list followed by the transactions of the
old active list whose outcome is set, in the order of the old active list.  No
transaction is lost (the two lists together are a permutation of the old
ones) or duplicated (when the old lists were duplicate-free and disjoint, so
are the new ones). -/
theorem postPoll_list_shape (env : PollEnv) (st : State) (na : Nat)
    (hnd : st._activeTransactionList.Nodup)
    (hlive : ActiveLive st st._activeTransactionList)
    (hhook : HookSetsOutcome env._onRecv) :
    ∃ st' na', postPoll env st na = .ok (st', na') ∧
      st'._activeTransactionList = st._activeTransactionList.filter (outcomeZero st') ∧
      st'._completedTransactionList =
        st._completedTransactionList ++ st._activeTransactionList.filter (outcomeSet st') ∧
      (st'._activeTransactionList ++ st'._completedTransactionList).Perm
        (st._activeTransactionList ++ st._completedTransactionList) ∧
      ((st._activeTransactionList ++ st._completedTransactionList).Nodup →
        (st'._activeTransactionList ++ st'._completedTransactionList).Nodup) := by
  have hinit : ListInv (afterTcpPoll env st) [] st._activeTransactionList (afterTcpPoll env st) :=
    ⟨⟨rfl, hnd, hlive⟩, [], rfl, rfl, by simp, fun _ h => absurd h (List.not_mem_nil _)⟩
  obtain ⟨st', na', pre', hl, hloop, visited, hvis, hpre, hcomp, hlv⟩ :=
    postPollLoop_rule env (fun pre suf st1 _ => ListInv (afterTcpPoll env st) pre suf st1)
      (fun pre q suf st1 na1 h =>
        postPollBody_listInv env (afterTcpPoll env st) hnd hhook pre q suf st1 na1 h)
      st._activeTransactionList [] (afterTcpPoll env st) na hinit
  have hv : visited = st._activeTransactionList := by
    have : st._activeTransactionList = visited ++ [] := hvis
    simpa using this.symm
  subst hv
  have hact : st'._activeTransactionList = st._activeTransactionList.filter (outcomeZero st') := by
    rw [← hpre]; simpa using hloop.active_eq
  have hcomp' : st'._completedTransactionList =
      st._completedTransactionList ++ st._activeTransactionList.filter (outcomeSet st') := hcomp
  have hset : st._activeTransactionList.filter (outcomeSet st') =
      st._activeTransactionList.filter (fun x => !outcomeZero st' x) :=
    List.filter_congr (fun r hr => by
      obtain ⟨t, ht⟩ := hlv r hr
      exact outcomeSet_eq_not ht)
  have hperm : (st'._activeTransactionList ++ st'._completedTransactionList).Perm
      (st._activeTransactionList ++ st._completedTransactionList) := by
    rw [hact, hcomp', hset]
    have h1 := List.filter_append_perm (outcomeZero st') st._activeTransactionList
    have h2 : (List.filter (outcomeZero st') st._activeTransactionList ++
        (st._completedTransactionList ++
          List.filter (fun x => !outcomeZero st' x) st._activeTransactionList)).Perm
        ((List.filter (outcomeZero st') st._activeTransactionList ++
          List.filter (fun x => !outcomeZero st' x) st._activeTransactionList) ++
            st._completedTransactionList) := by
      rw [List.append_assoc]
      exact List.Perm.append_left _ List.perm_append_comm
    exact h2.trans (List.Perm.append_right _ h1)
  exact ⟨st', na', hl, hact, hcomp', hperm, fun h => hperm.nodup_iff.mpr h⟩

theorem hookRecordStatus_setsOutcome : HookSetsOutcome hookRecordStatus := by
  intro st p
  cases h : st.heap p with
  | none => exact ⟨400, by decide, by simp [hookRecordStatus, hookSetOutcome, setResponse, h]⟩
  | some t =>
    exact ⟨_, statusCode_ne_zero t.fullResponse.methodLine, by
      simp [hookRecordStatus, hookSetOutcome, h]⟩

theorem postPoll_list_shape_witness :
    listsAfter (postPoll demoOkEnv demoState 0) = some ([], [1, 0]) ∧
    ∃ st' na', postPoll demoOkEnv demoState 0 = .ok (st', na') ∧
      st'._completedTransactionList =
        demoState._completedTransactionList ++
          demoState._activeTransactionList.filter (outcomeSet st') := by
  obtain ⟨st', na', h1, -, h3, -⟩ :=
    postPoll_list_shape demoOkEnv demoState 0 (by decide) demoState_pollable.live
      hookRecordStatus_setsOutcome
  exact ⟨by decide, st', na', h1, h3⟩


/-! ## C16: lock scopes -/

theorem record_held (a : Access) (l : LockLog) : (record a l).held = l.held := rfl

theorem record_allLocked (a : Access) (l : LockLog) (h : AllLocked l) (hh : 0 < l.held) :
    AllLocked (record a l) := by
  intro e he
  rcases List.mem_append.mp he with h1 | h1
  · exact h e h1
  · have : e = (a, decide (0 < l.held)) := by simpa using h1
    rw [this]
    simp [hh]

/-- The socket-layer wrappers, `closeTransaction` and `_createErrorTransaction`
make all their accesses with the lock held. -/
theorem wrappers_allLocked (l : LockLog) (h : AllLocked l) :
    AllLocked (openSocketLocks l) ∧ AllLocked (closeSocketLocks l) ∧
    AllLocked (prePollLocks l) ∧ AllLocked (_createErrorTransactionLocks l) ∧
    ∀ transaction s, AllLocked (closeTransactionLocks transaction s l) := by
  have key : ∀ a, AllLocked (autolock (record a) l) := fun a =>
    record_allLocked a { l with held := l.held + 1 } h (Nat.succ_pos _)
  refine ⟨key _, key _, key _, key _, ?_⟩
  intro transaction s
  cases transaction with
  | none => exact h
  | some p =>
    have h1 := record_allLocked Access.listMutation { l with held := l.held + 1 } h
      (Nat.succ_pos _)
    have h2 := record_allLocked Access.listMutation _ h1 (Nat.succ_pos _)
    cases s with
    | none => exact h2
    | some s => exact record_allLocked Access.socketLayerCall _ h2 (Nat.succ_pos _)

theorem record_locked (a : Access) (l : LockLog) (h : AllLocked l ∧ 0 < l.held) :
    AllLocked (record a l) ∧ 0 < (record a l).held := by
  refine ⟨?_, h.2⟩
  intro e he
  rcases List.mem_append.mp he with h1 | h1
  · exact h.1 e h1
  · have : e = (a, decide (0 < l.held)) := by simpa using h1
    rw [this]
    simp [h.2]

theorem postPollBodyLocks_locked (consumed switched : Bool) (hook : LockLog → LockLog)
    (hhook : ∀ l, AllLocked l ∧ 0 < l.held → AllLocked (hook l) ∧ 0 < (hook l).held)
    (l : LockLog) (h : AllLocked l ∧ 0 < l.held) :
    AllLocked (postPollBodyLocks consumed switched hook l) ∧
      0 < (postPollBodyLocks consumed switched hook l).held := by
  unfold postPollBodyLocks
  have h1 := record_locked Access.socketBufferRead l h
  cases consumed <;> cases switched
  · exact record_locked _ _ h1
  · exact record_locked _ _ (record_locked _ _ (record_locked _ _ h1))
  · exact hhook _ (record_locked _ _ h1)
  · exact record_locked _ _ (record_locked _ _ (hhook _ (record_locked _ _ h1)))

/-- `postPoll` makes all its accesses with the lock held: the socket-layer
call, the reads and writes of the socket buffers and the list mutations all
come after the `SAUTOLOCK` of line 68. -/
theorem postPollLocks_allLocked (iterations : List (Bool × Bool × (LockLog → LockLog)))
    (hhooks : ∀ it ∈ iterations, ∀ l, AllLocked l ∧ 0 < l.held →
      AllLocked (it.2.2 l) ∧ 0 < (it.2.2 l).held)
    (l : LockLog) (h : AllLocked l) : AllLocked (postPollLocks iterations l) := by
  have key : ∀ (its : List (Bool × Bool × (LockLog → LockLog))),
      (∀ it ∈ its, ∀ l, AllLocked l ∧ 0 < l.held →
        AllLocked (it.2.2 l) ∧ 0 < (it.2.2 l).held) →
      ∀ l0 : LockLog, AllLocked l0 ∧ 0 < l0.held →
        AllLocked (its.foldl (fun l it => postPollBodyLocks it.1 it.2.1 it.2.2 l) l0) := by
    intro its
    induction its with
    | nil => intro _ l0 h0; exact h0.1
    | cons it its ih =>
      intro hh l0 h0
      exact ih (fun it' hit' => hh it' (List.mem_cons_of_mem _ hit')) _
        (postPollBodyLocks_locked it.1 it.2.1 it.2.2 (hh it (List.mem_cons_self _ _)) l0 h0)
  have h0 : AllLocked ({ l with held := l.held + 1 } : LockLog) ∧
      0 < ({ l with held := l.held + 1 } : LockLog).held := ⟨h, Nat.succ_pos _⟩
  exact key iterations hhooks _ (record_locked Access.socketLayerCall _ h0)


/-- C16 (what the code does): on the success path of `_httpsSend`, called by a
thread that does not hold the lock, the socket-layer call and the list
mutation are made with the lock held, but the write of the serialized request
into the socket's send buffer (line 172) is made without it: `SAUTOLOCK` only
comes at line 175. -/
theorem httpsSend_buffer_write_unlocked :
    (_httpsSendLocks demoSendEnv (State.init 9) "https://example.test/".toList
        LockLog.start).log =
      [(Access.socketLayerCall, true), (Access.socketBufferWrite, false),
       (Access.listMutation, true)] ∧
    ¬ AllLocked (_httpsSendLocks demoSendEnv (State.init 9) "https://example.test/".toList
        LockLog.start) := by
  have h : (_httpsSendLocks demoSendEnv (State.init 9) "https://example.test/".toList
        LockLog.start).log =
      [(Access.socketLayerCall, true), (Access.socketBufferWrite, false),
       (Access.listMutation, true)] := by decide
  refine ⟨h, fun hall => ?_⟩
  have := hall (Access.socketBufferWrite, false) (by rw [h]; simp)
  cases this


end SHTTPSManager
